import Mathlib

/-!
Verification development for the makaira chess engine core
(bitboard position, make/unmake, move generation, move picker,
transposition-table helpers, pawn hash, time manager, search tails).

The definitions below are shallow embeddings translated from the C++
sources under src/: types.h, bitboard.h/cpp, zobrist.h/cpp, move.h,
position.h/cpp, movegen.cpp, movepicker.h/cpp, see.cpp, pawn_hash.cpp,
search.h/cpp.  Machine integers are modelled as Nat (bitboards, keys,
with explicit mod 2^64 where C++ wraps) and Int (C++ `int` quantities).
C++ in-place mutation becomes explicit state passing on a `Position`
structure; fallible operations return `Bool ×`/`Option` results.

The process-wide piece-square tables filled by
`eval_tables::init_eval_tables` are treated as a parameter
(`EvalTables`): every theorem below holds for arbitrary table contents,
which is strictly stronger than fixing the tuned values.  The Zobrist
keys are embedded concretely from zobrist.cpp (SplitMix64 stream).
-/

set_option maxRecDepth 100000

namespace Makaira

/-! ## Bit-level helpers (bitboard.h) -/

/-- All 64 bits set; bitboards are 64-bit words in the source. -/
def MASK64 : Nat := 2 ^ 64 - 1

/-- 64-bit complement, used for C++ `~b` on a `Bitboard`. -/
def compl64 (b : Nat) : Nat := MASK64 ^^^ b

/-- `bb_from(sq)`: the single-bit board for a square. -/
def bb_from (sq : Nat) : Nat := 1 <<< sq

/-- Fuel-driven count of trailing zeros; `ctz_go 64 0 = 64` mirrors
`std::countr_zero` on a zero 64-bit word. -/
def ctz_go : Nat → Nat → Nat
  | 0, _ => 0
  | fuel + 1, b => if b &&& 1 = 1 then 0 else 1 + ctz_go fuel (b / 2)

/-- `lsb(b)` from bitboard.h (`std::countr_zero`). -/
def lsb (b : Nat) : Nat := ctz_go 64 b

/-- The ascending list of set-bit indices of a bitboard; this is the
order in which the `while (bb) pop_lsb(bb)` loops of the source visit
squares (`b &= b - 1` clears the lowest set bit).  Fuel 64 covers every
64-bit word. -/
def bit_list_go : Nat → Nat → List Nat
  | 0, _ => []
  | fuel + 1, b => if b = 0 then [] else lsb b :: bit_list_go fuel (b &&& (b - 1))

def bit_list (b : Nat) : List Nat := bit_list_go 64 b

/-- `popcount` (std::popcount) via binary recursion with fuel 64. -/
def popcount_go : Nat → Nat → Nat
  | 0, _ => 0
  | fuel + 1, b => if b = 0 then 0 else (b &&& 1) + popcount_go fuel (b / 2)

def popcount (b : Nat) : Nat := popcount_go 64 b

/-! ## Core types (types.h) -/

/-- Colors: WHITE = 0, BLACK = 1.  `operator~` is xor 1. -/
def WHITE : Nat := 0
def BLACK : Nat := 1

/-- Piece types PAWN..KING = 1..6, NO_PIECE_TYPE = 0. -/
def PAWN : Nat := 1
def KNIGHT : Nat := 2
def BISHOP : Nat := 3
def ROOK : Nat := 4
def QUEEN : Nat := 5
def KING : Nat := 6

/-- Pieces: NO_PIECE = 0, W_PAWN..W_KING = 1..6, B_PAWN..B_KING = 7..12. -/
def NO_PIECE : Nat := 0

/-- `type_of(pc)` from types.h. -/
def type_of (pc : Nat) : Nat := if pc = 0 then 0 else (pc - 1) % 6 + 1

/-- `color_of(pc)` from types.h (NO_PIECE maps to WHITE, as in the source). -/
def color_of (pc : Nat) : Nat := if pc ≤ 6 then 0 else 1

/-- `make_piece(c, pt)` from types.h. -/
def make_piece (c pt : Nat) : Nat := if pt = 0 then 0 else (if c = 0 then 0 else 6) + pt

/-- `file_of(sq)` = sq & 7. -/
def file_of (sq : Nat) : Nat := sq &&& 7

/-- `rank_of(sq)` = sq >> 3. -/
def rank_of (sq : Nat) : Nat := sq >>> 3

/-- `make_square(f, r)` = r * 8 + f. -/
def make_square (f r : Nat) : Nat := r * 8 + f

/-- SQ_NONE sentinel. -/
def SQ_NONE : Nat := 64

/-- `is_ok_square(sq)`: a real board square (0..63). -/
def is_ok_square (sq : Nat) : Bool := sq ≤ 63

/-- Castling right bits. -/
def WHITE_OO : Nat := 1
def WHITE_OOO : Nat := 2
def BLACK_OO : Nat := 4
def BLACK_OOO : Nat := 8

/-! ## Moves (move.h) -/

/-- Packed 32-bit move: from:6 | to:6 | promotion:4 | flags:8. -/
structure Move where
  raw : Nat
deriving DecidableEq, Repr

/-- Move flag bits (move.h). -/
def FLAG_CAPTURE : Nat := 1
def FLAG_DOUBLE_PAWN : Nat := 2
def FLAG_EN_PASSANT : Nat := 4
def FLAG_CASTLING : Nat := 8

/-- The `Move(from, to, flags, promotion)` constructor. -/
def mk_move (f t fl pr : Nat) : Move :=
  ⟨f ||| (t <<< 6) ||| (pr <<< 12) ||| (fl <<< 16)⟩

def Move.none : Move := ⟨0⟩

def Move.from_sq (m : Move) : Nat := m.raw &&& 0x3F
def Move.to_sq (m : Move) : Nat := (m.raw >>> 6) &&& 0x3F
def Move.promotion (m : Move) : Nat := (m.raw >>> 12) &&& 0x0F
def Move.flags (m : Move) : Nat := (m.raw >>> 16) &&& 0xFF

def Move.is_none (m : Move) : Bool := m.raw = 0
def Move.is_capture (m : Move) : Bool := m.flags &&& FLAG_CAPTURE ≠ 0
def Move.is_double_pawn_push (m : Move) : Bool := m.flags &&& FLAG_DOUBLE_PAWN ≠ 0
def Move.is_en_passant (m : Move) : Bool := m.flags &&& FLAG_EN_PASSANT ≠ 0
def Move.is_castling (m : Move) : Bool := m.flags &&& FLAG_CASTLING ≠ 0
def Move.is_promotion (m : Move) : Bool := m.promotion ≠ 0

/-! ## Zobrist keys (zobrist.cpp)

`init_zobrist` seeds SplitMix64 with a fixed constant and draws, in
order: piece[12][64], castling[16], en_passant[8], pawn_file_king[2][8],
side.  The generator state after n draws is `seed + n * gamma mod 2^64`,
so the n-th drawn value (0-based) is `mix (seed + (n+1) * gamma)`. -/

def splitmix_gamma : Nat := 0x9e3779b97f4a7c15

/-- The SplitMix64 output mix (zobrist.cpp `splitmix64` body after the
state increment), with 64-bit wraparound on the multiplications. -/
def splitmix_mix (z0 : Nat) : Nat :=
  let z1 := ((z0 ^^^ (z0 >>> 30)) * 0xbf58476d1ce4e5b9) % 2 ^ 64
  let z2 := ((z1 ^^^ (z1 >>> 27)) * 0x94d049bb133111eb) % 2 ^ 64
  z2 ^^^ (z2 >>> 31)

def zobrist_seed : Nat := 0x93f0d4f6ac8e21b7

/-- The n-th value produced by the `splitmix64(seed)` stream. -/
def zobrist_draw (n : Nat) : Nat :=
  splitmix_mix ((zobrist_seed + (n + 1) * splitmix_gamma) % 2 ^ 64)

/-- `Zobrist.piece[pc - 1][sq]` (the C++ table is indexed by piece−1). -/
def zobrist_piece (pc_minus1 sq : Nat) : Nat := zobrist_draw (pc_minus1 * 64 + sq)

/-- `Zobrist.castling[rights]`. -/
def zobrist_castling (i : Nat) : Nat := zobrist_draw (768 + i)

/-- `Zobrist.en_passant[file]`. -/
def zobrist_en_passant (f : Nat) : Nat := zobrist_draw (784 + f)

/-- `Zobrist.pawn_file_king[c][f]`. -/
def zobrist_pawn_file_king (c f : Nat) : Nat := zobrist_draw (792 + c * 8 + f)

/-- `Zobrist.side`. -/
def zobrist_side : Nat := zobrist_draw 808

/-! ## Evaluation tables used by Position (eval_params.h, eval_tables.h) -/

/-- `eval_params::PIECE_VALUE[pt].mg` (concrete in eval_params.h). -/
def PIECE_VALUE_MG (pt : Nat) : Int := [0, 82, 337, 365, 477, 1025, 0].getD pt 0

/-- `eval_params::PHASE_INC[pt]`. -/
def PHASE_INC (pt : Nat) : Int := [0, 0, 1, 1, 2, 4, 0].getD pt 0

/-- The packed piece-square tables filled once by
`eval_tables::init_eval_tables()`.  Their numeric contents never matter
for the claims below (they are snapshot-restored on unmake), so they are
carried as a parameter: every theorem holds for arbitrary contents. -/
structure EvalTables where
  psqt_mg : Nat → Nat → Int
  psqt_eg : Nat → Nat → Int

/-- A table instance with all entries zero (used to instantiate
witnesses; the theorems are quantified over every table). -/
def zeroTables : EvalTables := ⟨fun _ _ => 0, fun _ _ => 0⟩

/-! ## Position (position.h/cpp) -/

/-- `StateInfo` (position.h): snapshot pushed by make_move. -/
structure StateInfo where
  key : Nat := 0
  pawn_key : Nat := 0
  move : Move := Move.none
  moved_piece : Nat := NO_PIECE
  captured_piece : Nat := NO_PIECE
  castling_rights : Nat := 0
  ep_square : Nat := SQ_NONE
  halfmove_clock : Int := 0
  fullmove_number : Int := 1
  mg_psqt : Nat → Int := fun _ => 0
  eg_psqt : Nat → Int := fun _ => 0
  non_pawn_material : Nat → Int := fun _ => 0
  phase : Int := 0
  is_null : Bool := false

/-- `Position` (position.h).  `piece_bb` is indexed by
`c * 6 + (pt - 1)` exactly as the C++ `piece_bb_[c][pt - 1]`;
`occupancy` by 0 = WHITE, 1 = BLACK, 2 = COLOR_NB (all).
The history stack is a list with the most recent entry first
(`push_back` = cons, `back` = head, `pop_back` = tail). -/
structure Position where
  piece_bb : Nat → Nat
  occupancy : Nat → Nat
  board : Nat → Nat
  king_square : Nat → Nat
  side_to_move : Nat
  castling_rights : Nat
  ep_square : Nat
  halfmove_clock : Int
  fullmove_number : Int
  key : Nat
  pawn_key : Nat
  mg_psqt : Nat → Int
  eg_psqt : Nat → Int
  non_pawn_material : Nat → Int
  phase : Int
  history : List StateInfo

/-- Pointwise update of a `Nat`-indexed function (array write). -/
def upd {α : Type} (f : Nat → α) (i : Nat) (v : α) : Nat → α :=
  fun j => if j = i then v else f j

/-- Index of `piece_bb_[c][pt - 1]` in the flat bitboard store. -/
def bb_idx (c pt : Nat) : Nat := c * 6 + (pt - 1)

/-- `pos.pieces(c, pt)` accessor. -/
def Position.pieces (pos : Position) (c pt : Nat) : Nat := pos.piece_bb (bb_idx c pt)

/-- `Position::clear()` / the default-constructed position. -/
def Position.empty : Position where
  piece_bb := fun _ => 0
  occupancy := fun _ => 0
  board := fun _ => NO_PIECE
  king_square := fun _ => SQ_NONE
  side_to_move := WHITE
  castling_rights := 0
  ep_square := SQ_NONE
  halfmove_clock := 0
  fullmove_number := 1
  key := 0
  pawn_key := 0
  mg_psqt := fun _ => 0
  eg_psqt := fun _ => 0
  non_pawn_material := fun _ => 0
  phase := 0
  history := []

/-- `Position::add_piece(pc, sq)` (position.cpp). -/
def add_piece (T : EvalTables) (pc sq : Nat) (pos : Position) : Position :=
  let c := color_of pc
  let pt := type_of pc
  let b := bb_from sq
  { pos with
    board := upd pos.board sq pc
    piece_bb := upd pos.piece_bb (bb_idx c pt) (pos.piece_bb (bb_idx c pt) ||| b)
    occupancy :=
      let o1 := upd pos.occupancy c (pos.occupancy c ||| b)
      upd o1 2 (o1 2 ||| b)
    key := pos.key ^^^ zobrist_piece (pc - 1) sq
    mg_psqt := upd pos.mg_psqt c (pos.mg_psqt c + T.psqt_mg pc sq)
    eg_psqt := upd pos.eg_psqt c (pos.eg_psqt c + T.psqt_eg pc sq)
    pawn_key := if pt = PAWN then pos.pawn_key ^^^ zobrist_piece (pc - 1) sq else pos.pawn_key
    non_pawn_material :=
      if pt ≠ PAWN ∧ pt ≠ KING then
        upd pos.non_pawn_material c (pos.non_pawn_material c + PIECE_VALUE_MG pt)
      else pos.non_pawn_material
    phase := if pt ≠ PAWN ∧ pt ≠ KING then pos.phase + PHASE_INC pt else pos.phase
    king_square := if pt = KING then upd pos.king_square c sq else pos.king_square }

/-- `Position::remove_piece(pc, sq)` (position.cpp). -/
def remove_piece (T : EvalTables) (pc sq : Nat) (pos : Position) : Position :=
  let c := color_of pc
  let pt := type_of pc
  let b := bb_from sq
  { pos with
    board := upd pos.board sq NO_PIECE
    piece_bb := upd pos.piece_bb (bb_idx c pt) (pos.piece_bb (bb_idx c pt) &&& compl64 b)
    occupancy :=
      let o1 := upd pos.occupancy c (pos.occupancy c &&& compl64 b)
      upd o1 2 (o1 2 &&& compl64 b)
    key := pos.key ^^^ zobrist_piece (pc - 1) sq
    mg_psqt := upd pos.mg_psqt c (pos.mg_psqt c - T.psqt_mg pc sq)
    eg_psqt := upd pos.eg_psqt c (pos.eg_psqt c - T.psqt_eg pc sq)
    pawn_key := if pt = PAWN then pos.pawn_key ^^^ zobrist_piece (pc - 1) sq else pos.pawn_key
    non_pawn_material :=
      if pt ≠ PAWN ∧ pt ≠ KING then
        upd pos.non_pawn_material c (pos.non_pawn_material c - PIECE_VALUE_MG pt)
      else pos.non_pawn_material
    phase := if pt ≠ PAWN ∧ pt ≠ KING then pos.phase - PHASE_INC pt else pos.phase }

/-- `Position::move_piece(pc, from, to)` (position.cpp). -/
def move_piece (T : EvalTables) (pc f t : Nat) (pos : Position) : Position :=
  let c := color_of pc
  let pt := type_of pc
  let fb := bb_from f
  let tb := bb_from t
  { pos with
    board := upd (upd pos.board f NO_PIECE) t pc
    piece_bb := upd pos.piece_bb (bb_idx c pt) (pos.piece_bb (bb_idx c pt) ^^^ (fb ||| tb))
    occupancy :=
      let o1 := upd pos.occupancy c (pos.occupancy c ^^^ (fb ||| tb))
      upd o1 2 (o1 2 ^^^ (fb ||| tb))
    key := pos.key ^^^ zobrist_piece (pc - 1) f ^^^ zobrist_piece (pc - 1) t
    mg_psqt := upd pos.mg_psqt c (pos.mg_psqt c + (T.psqt_mg pc t - T.psqt_mg pc f))
    eg_psqt := upd pos.eg_psqt c (pos.eg_psqt c + (T.psqt_eg pc t - T.psqt_eg pc f))
    pawn_key :=
      if pt = PAWN then
        pos.pawn_key ^^^ zobrist_piece (pc - 1) f ^^^ zobrist_piece (pc - 1) t
      else pos.pawn_key
    king_square := if pt = KING then upd pos.king_square c t else pos.king_square }

/-! ## Attack tables (bitboard.cpp) -/

/-- Bit for an (Int file, Int rank) pair when it is on the board
(`on_board(file, rank)` guard of bitboard.cpp), else 0. -/
def sq_bb_fr (f r : Int) : Nat :=
  if 0 ≤ f ∧ f < 8 ∧ 0 ≤ r ∧ r < 8 then bb_from (r.toNat * 8 + f.toNat) else 0

/-- `attacks::pawn[c][sq]` as computed by `attacks::init()`. -/
def pawn_attacks (c sq : Nat) : Nat :=
  let f : Int := file_of sq
  let r : Int := rank_of sq
  if c = WHITE then sq_bb_fr (f - 1) (r + 1) ||| sq_bb_fr (f + 1) (r + 1)
  else sq_bb_fr (f - 1) (r - 1) ||| sq_bb_fr (f + 1) (r - 1)

/-- `attacks::knight[sq]` as computed by `attacks::init()`. -/
def knight_attacks (sq : Nat) : Nat :=
  let f : Int := file_of sq
  let r : Int := rank_of sq
  sq_bb_fr (f - 2) (r - 1) ||| sq_bb_fr (f - 2) (r + 1) |||
  sq_bb_fr (f - 1) (r - 2) ||| sq_bb_fr (f - 1) (r + 2) |||
  sq_bb_fr (f + 1) (r - 2) ||| sq_bb_fr (f + 1) (r + 2) |||
  sq_bb_fr (f + 2) (r - 1) ||| sq_bb_fr (f + 2) (r + 1)

/-- `attacks::king[sq]` as computed by `attacks::init()`. -/
def king_attacks (sq : Nat) : Nat :=
  let f : Int := file_of sq
  let r : Int := rank_of sq
  sq_bb_fr (f - 1) (r - 1) ||| sq_bb_fr (f - 1) r ||| sq_bb_fr (f - 1) (r + 1) |||
  sq_bb_fr f (r - 1) ||| sq_bb_fr f (r + 1) |||
  sq_bb_fr (f + 1) (r - 1) ||| sq_bb_fr (f + 1) r ||| sq_bb_fr (f + 1) (r + 1)

/-- One ray of `slider_attacks` (bitboard.cpp): walk from the current
(file, rank) in direction (df, dr) until leaving the board or hitting an
occupied square (which is included).  A ray has at most 7 steps, so fuel
8 is exact. -/
def slide_go (occ : Nat) (df dr : Int) : Nat → Int → Int → Nat
  | 0, _, _ => 0
  | fuel + 1, f, r =>
    if 0 ≤ f ∧ f < 8 ∧ 0 ≤ r ∧ r < 8 then
      let b := bb_from (r.toNat * 8 + f.toNat)
      if occ &&& b ≠ 0 then b else b ||| slide_go occ df dr fuel (f + df) (r + dr)
    else 0

/-- `attacks::bishop_attacks(sq, occupancy)`. -/
def bishop_attacks (sq occ : Nat) : Nat :=
  let f : Int := file_of sq
  let r : Int := rank_of sq
  slide_go occ 1 1 8 (f + 1) (r + 1) ||| slide_go occ 1 (-1) 8 (f + 1) (r - 1) |||
  slide_go occ (-1) 1 8 (f - 1) (r + 1) ||| slide_go occ (-1) (-1) 8 (f - 1) (r - 1)

/-- `attacks::rook_attacks(sq, occupancy)`. -/
def rook_attacks (sq occ : Nat) : Nat :=
  let f : Int := file_of sq
  let r : Int := rank_of sq
  slide_go occ 1 0 8 (f + 1) r ||| slide_go occ (-1) 0 8 (f - 1) r |||
  slide_go occ 0 1 8 f (r + 1) ||| slide_go occ 0 (-1) 8 f (r - 1)

/-! ## Attack queries and draw predicates (position.cpp) -/

/-- `Position::is_square_attacked(sq, by)`; the attacking side is named
`atk` here because `by` is reserved in Lean. -/
def is_square_attacked (pos : Position) (sq atk : Nat) : Bool :=
  let occ := pos.occupancy 2
  ((if atk = WHITE then pawn_attacks BLACK sq else pawn_attacks WHITE sq) &&& pos.pieces atk PAWN ≠ 0)
  || (knight_attacks sq &&& pos.pieces atk KNIGHT ≠ 0)
  || (bishop_attacks sq occ &&& (pos.pieces atk BISHOP ||| pos.pieces atk QUEEN) ≠ 0)
  || (rook_attacks sq occ &&& (pos.pieces atk ROOK ||| pos.pieces atk QUEEN) ≠ 0)
  || (king_attacks sq &&& pos.pieces atk KING ≠ 0)

/-- `Position::in_check(c)`. -/
def in_check (pos : Position) (c : Nat) : Bool :=
  is_square_attacked pos (pos.king_square c) (c ^^^ 1)

/-- The back-stepping loop of `Position::is_repetition`: the C++ entry
`history_[size - steps]` is element `steps - 1` of the recent-first
list; `idx < 0` is `steps > size`, surfacing as `get?` returning none. -/
def rep_go (pos : Position) : Nat → Nat → Bool
  | 0, _ => false
  | fuel + 1, steps =>
    if (steps : Int) ≤ pos.halfmove_clock then
      match pos.history.get? (steps - 1) with
      | some st => if st.key = pos.key then true else rep_go pos fuel (steps + 2)
      | none => false
    else false

/-- `Position::is_repetition()`. -/
def is_repetition (pos : Position) : Bool :=
  if pos.history.length < 4 then false
  else rep_go pos (pos.history.length + 2) 2

/-- `Position::is_insufficient_material()`. -/
def is_insufficient_material (pos : Position) : Bool :=
  let pawns := popcount (pos.pieces WHITE PAWN) + popcount (pos.pieces BLACK PAWN)
  let rooks := popcount (pos.pieces WHITE ROOK) + popcount (pos.pieces BLACK ROOK)
  let queens := popcount (pos.pieces WHITE QUEEN) + popcount (pos.pieces BLACK QUEEN)
  if pawns ≠ 0 ∨ rooks ≠ 0 ∨ queens ≠ 0 then false
  else
    let wn := popcount (pos.pieces WHITE KNIGHT)
    let wb := popcount (pos.pieces WHITE BISHOP)
    let bn := popcount (pos.pieces BLACK KNIGHT)
    let bb := popcount (pos.pieces BLACK BISHOP)
    let total := wn + wb + bn + bb
    if total = 0 then true
    else if total = 1 then true
    else if wn = 0 ∧ bn = 0 ∧ wb = 1 ∧ bb = 1 then true
    else false

/-- `Position::is_draw()`. -/
def is_draw (pos : Position) : Bool :=
  (100 ≤ pos.halfmove_clock) || is_repetition pos || is_insufficient_material pos

/-! ## make_move / unmake_move (position.cpp) -/

/-- `CASTLING_MASK` built by `build_castling_masks()`:
15 everywhere except E1/H1/A1/E8/H8/A8. -/
def CASTLING_MASK (sq : Nat) : Nat :=
  if sq = 4 then 12
  else if sq = 7 then 14
  else if sq = 0 then 13
  else if sq = 60 then 3
  else if sq = 63 then 11
  else if sq = 56 then 7
  else 15

/-- `Position::unmake_move()` (position.cpp).  Note the source computes
`mover = ~side_to_move_` from the current side unconditionally — it
assumes the matching make_move already toggled the side. -/
def unmake_move (T : EvalTables) (pos : Position) : Position :=
  match pos.history with
  | [] => pos
  | st :: rest =>
    let m := st.move
    let f := m.from_sq
    let t := m.to_sq
    let mover := pos.side_to_move ^^^ 1
    let pos1 : Position :=
      { pos with
        history := rest
        side_to_move := mover
        castling_rights := st.castling_rights
        ep_square := st.ep_square
        halfmove_clock := st.halfmove_clock
        fullmove_number := st.fullmove_number }
    let pos2 :=
      if m.is_castling then
        if mover = WHITE then
          if t = 6 then move_piece T 4 5 7 (move_piece T 6 6 4 pos1)
          else move_piece T 4 3 0 (move_piece T 6 2 4 pos1)
        else
          if t = 62 then move_piece T 10 61 63 (move_piece T 12 62 60 pos1)
          else move_piece T 10 59 56 (move_piece T 12 58 60 pos1)
      else
        let posa :=
          if m.is_promotion then
            add_piece T (make_piece mover PAWN) f (remove_piece T (pos1.board t) t pos1)
          else move_piece T st.moved_piece t f pos1
        if st.captured_piece ≠ NO_PIECE then
          if m.is_en_passant then
            let cap_sq := if mover = WHITE then t - 8 else t + 8
            add_piece T st.captured_piece cap_sq posa
          else add_piece T st.captured_piece t posa
        else posa
    { pos2 with
      key := st.key
      pawn_key := st.pawn_key
      mg_psqt := st.mg_psqt
      eg_psqt := st.eg_psqt
      non_pawn_material := st.non_pawn_material
      phase := st.phase }

/-- The tail of `Position::make_move` shared by all piece-update paths
(position.cpp lines 415-439): write the captured piece into the pushed
StateInfo, update clocks, mask castling rights, re-mix ep/castling/side
keys, toggle the side, and reject the move (restoring through
`unmake_move`) if the mover's king is now attacked. -/
def make_move_mid (T : EvalTables) (moved captured f t : Nat)
    (pos2 : Position) : Position :=
  let pos3 : Position :=
    { pos2 with
      history :=
        match pos2.history with
        | st :: rest => { st with captured_piece := captured } :: rest
        | [] => [] }
  let pawn_move := type_of moved = PAWN
  let pos4 : Position :=
    { pos3 with
      halfmove_clock := if pawn_move ∨ captured ≠ NO_PIECE then 0 else pos3.halfmove_clock + 1
      fullmove_number :=
        if pos3.side_to_move = BLACK then pos3.fullmove_number + 1 else pos3.fullmove_number
      castling_rights := pos3.castling_rights &&& CASTLING_MASK f &&& CASTLING_MASK t }
  let pos5 : Position :=
    { pos4 with
      key := (pos4.key ^^^ zobrist_castling pos4.castling_rights)
        ^^^ (if pos4.ep_square ≠ SQ_NONE then zobrist_en_passant (file_of pos4.ep_square) else 0) }
  { pos5 with side_to_move := pos5.side_to_move ^^^ 1, key := pos5.key ^^^ zobrist_side }

def make_move_finish (T : EvalTables) (moved captured f t : Nat)
    (pos2 : Position) : Bool × Position :=
  let pos6 : Position := make_move_mid T moved captured f t pos2
  let us := pos6.side_to_move ^^^ 1
  if in_check pos6 us then (false, unmake_move T pos6) else (true, pos6)

/-- The `StateInfo` snapshot pushed at the top of `Position::make_move`. -/
def make_move_snapshot (pos : Position) (m : Move) (moved : Nat) : StateInfo :=
  { key := pos.key
    pawn_key := pos.pawn_key
    move := m
    moved_piece := moved
    captured_piece := NO_PIECE
    castling_rights := pos.castling_rights
    ep_square := pos.ep_square
    halfmove_clock := pos.halfmove_clock
    fullmove_number := pos.fullmove_number
    mg_psqt := pos.mg_psqt
    eg_psqt := pos.eg_psqt
    non_pawn_material := pos.non_pawn_material
    phase := pos.phase
    is_null := false }

/-- The state of `Position::make_move` after the snapshot push, the
ep/castling key strip and the en-passant reset, before any piece moves. -/
def make_move_pre (pos : Position) (m : Move) (moved : Nat) : Position :=
  { pos with
    history := make_move_snapshot pos m moved :: pos.history
    key :=
      (if pos.ep_square ≠ SQ_NONE then
         pos.key ^^^ zobrist_en_passant (file_of pos.ep_square)
       else pos.key) ^^^ zobrist_castling pos.castling_rights
    ep_square := SQ_NONE }

/-- `Position::make_move(move)` (position.cpp). -/
def make_move (T : EvalTables) (pos : Position) (m : Move) : Bool × Position :=
  let f := m.from_sq
  let t := m.to_sq
  if ¬ (is_ok_square f ∧ is_ok_square t) then (false, pos)
  else
    let moved := pos.board f
    if moved = NO_PIECE ∨ color_of moved ≠ pos.side_to_move then (false, pos)
    else
      let pos1 : Position := make_move_pre pos m moved
      if m.is_castling then
        let pos2 :=
          if pos1.side_to_move = WHITE then
            if t = 6 then move_piece T 4 7 5 (move_piece T 6 4 6 pos1)
            else move_piece T 4 0 3 (move_piece T 6 4 2 pos1)
          else
            if t = 62 then move_piece T 10 63 61 (move_piece T 12 60 62 pos1)
            else move_piece T 10 56 59 (move_piece T 12 60 58 pos1)
        make_move_finish T moved NO_PIECE f t pos2
      else
        let go : Nat → Position → Bool × Position := fun captured posr =>
          let posr :=
            if m.is_promotion then
              add_piece T (make_piece pos1.side_to_move m.promotion) t (remove_piece T moved f posr)
            else move_piece T moved f t posr
          let posr :=
            if m.is_double_pawn_push then
              { posr with ep_square := if pos1.side_to_move = WHITE then f + 8 else f - 8 }
            else posr
          make_move_finish T moved captured f t posr
        if m.is_en_passant then
          let cap_sq := if pos1.side_to_move = WHITE then t - 8 else t + 8
          let captured := pos1.board cap_sq
          if captured = NO_PIECE then (false, unmake_move T pos1)
          else go captured (remove_piece T captured cap_sq pos1)
        else if m.is_capture then
          let captured := pos1.board t
          if captured = NO_PIECE then (false, unmake_move T pos1)
          else go captured (remove_piece T captured t pos1)
        else go NO_PIECE pos1

/-- `Position::compute_full_key()` (position.cpp). -/
def compute_full_key (pos : Position) : Nat :=
  let board_key :=
    (List.range 64).foldl
      (fun acc sq =>
        if pos.board sq ≠ NO_PIECE then acc ^^^ zobrist_piece (pos.board sq - 1) sq else acc)
      0
  let k1 := board_key ^^^ zobrist_castling pos.castling_rights
  let k2 := if pos.ep_square ≠ SQ_NONE then k1 ^^^ zobrist_en_passant (file_of pos.ep_square) else k1
  if pos.side_to_move = BLACK then k2 ^^^ zobrist_side else k2

/-! ## FEN parsing (position.cpp set_from_fen) -/

/-- `piece_from_fen(c)`. -/
def piece_from_fen (c : Char) : Nat :=
  if c = 'P' then 1 else if c = 'N' then 2 else if c = 'B' then 3
  else if c = 'R' then 4 else if c = 'Q' then 5 else if c = 'K' then 6
  else if c = 'p' then 7 else if c = 'n' then 8 else if c = 'b' then 9
  else if c = 'r' then 10 else if c = 'q' then 11 else if c = 'k' then 12
  else NO_PIECE

/-- `square_from_string(s)` (types.h), over the character list. -/
def square_from_chars (s : List Char) : Nat :=
  match s with
  | [c1, c2] =>
    if 'a' ≤ c1 ∧ c1 ≤ 'h' ∧ '1' ≤ c2 ∧ c2 ≤ '8' then
      make_square (c1.toNat - 97) (c2.toNat - 49)
    else SQ_NONE
  | _ => SQ_NONE

/-- The whitespace characters `istringstream >>` skips. -/
def is_stream_ws (c : Char) : Bool := c = ' ' ∨ c = '\t' ∨ c = '\n' ∨ c = '\r'

/-- Whitespace tokenization of the FEN string (the `istringstream >>`
extraction of set_from_fen); `acc` holds the current token reversed. -/
def split_ws_go : List Char → List Char → List (List Char)
  | [], acc => if acc = [] then [] else [acc.reverse]
  | c :: cs, acc =>
    if is_stream_ws c then
      if acc = [] then split_ws_go cs [] else acc.reverse :: split_ws_go cs []
    else split_ws_go cs (c :: acc)

def fen_tokens (s : String) : List (List Char) := split_ws_go s.data []

/-- The board-field loop of `set_from_fen`: rank/file bookkeeping with
the same `pc == NO_PIECE || file > 7 || rank < 0` rejection. -/
def fen_board_go (T : EvalTables) : List Char → Int → Int → Position → Option Position
  | [], _, _, pos => some pos
  | c :: cs, rank, file, pos =>
    if c = '/' then fen_board_go T cs (rank - 1) 0 pos
    else if c.isDigit then fen_board_go T cs rank (file + ((c.toNat : Int) - 48)) pos
    else
      let pc := piece_from_fen c
      if pc = NO_PIECE ∨ file > 7 ∨ rank < 0 then none
      else fen_board_go T cs rank (file + 1) (add_piece T pc (make_square file.toNat rank.toNat) pos)

/-- The castling-field loop of `set_from_fen`. -/
def castling_from_fen : List Char → Nat → Option Nat
  | [], acc => some acc
  | c :: cs, acc =>
    if c = 'K' then castling_from_fen cs (acc ||| WHITE_OO)
    else if c = 'Q' then castling_from_fen cs (acc ||| WHITE_OOO)
    else if c = 'k' then castling_from_fen cs (acc ||| BLACK_OO)
    else if c = 'q' then castling_from_fen cs (acc ||| BLACK_OOO)
    else none

/-- `istringstream >> int` on one already-extracted token: an optional
sign followed by a digit prefix; fails when no digit is present. -/
def parse_int_token (s : List Char) : Option Int :=
  let signed : Bool × List Char :=
    match s with
    | '-' :: rest => (true, rest)
    | '+' :: rest => (false, rest)
    | l => (false, l)
  let digits := signed.2.takeWhile Char.isDigit
  if digits = [] then none
  else
    let v : Nat := digits.foldl (fun a c => a * 10 + (c.toNat - 48)) 0
    some (if signed.1 then -(v : Int) else (v : Int))

/-- `Position::set_from_fen(fen)` (position.cpp): returns the populated
position, or none exactly when the C++ function returns false. -/
def set_from_fen (T : EvalTables) (fen : String) : Option Position :=
  match fen_tokens fen with
  | board_part :: stm_part :: castling_part :: ep_part :: rest =>
    match fen_board_go T board_part 7 0 Position.empty with
    | none => none
    | some pos0 =>
      if pos0.king_square WHITE = SQ_NONE ∨ pos0.king_square BLACK = SQ_NONE then none
      else
        match (if stm_part = ['w'] then some WHITE
               else if stm_part = ['b'] then some BLACK else none) with
        | none => none
        | some stm =>
          match (if castling_part = ['-'] then some 0
                 else castling_from_fen castling_part 0) with
          | none => none
          | some cr =>
            let ep := if ep_part = ['-'] then SQ_NONE else square_from_chars ep_part
            if ep_part ≠ ['-'] ∧ ¬ is_ok_square ep then none
            else
              let clocks : Int × Int :=
                match rest with
                | [] => (0, 1)
                | h :: rest2 =>
                  match parse_int_token h with
                  | none => (0, 1)
                  | some hv =>
                    match rest2 with
                    | [] => (hv, 1)
                    | fstr :: _ => (hv, (parse_int_token fstr).getD 1)
              let pos1 : Position :=
                { pos0 with
                  side_to_move := stm
                  castling_rights := cr
                  ep_square := ep
                  halfmove_clock := clocks.1
                  fullmove_number := clocks.2 }
              some { pos1 with key := compute_full_key pos1, history := [] }
  | _ => none

/-- Startpos FEN constant (position.h). -/
def CHESS_STARTPOS_FEN : String :=
  "rnbqkbnr/pppppppp/8/8/8/8/PPPPPPPP/RNBQKBNR w KQkq - 0 1"

/-- `Position::set_startpos()`. -/
def set_startpos (T : EvalTables) : Option Position := set_from_fen T CHESS_STARTPOS_FEN

/-! ## Move generation (movegen.cpp) -/

/-- `push_promotion_moves(out, from, to, flags)`: queen, rook, bishop,
knight, in source order. -/
def promo_moves (f t fl : Nat) : List Move :=
  [mk_move f t fl QUEEN, mk_move f t fl ROOK, mk_move f t fl BISHOP, mk_move f t fl KNIGHT]

/-- `is_enemy(pos, sq, us)` (movegen.cpp). -/
def is_enemy (pos : Position) (us sq : Nat) : Bool :=
  pos.board sq ≠ NO_PIECE && color_of (pos.board sq) ≠ us

/-- The white-pawn block of `generate_pseudo_legal` for one pawn:
pushes (with promotions and the double push), then the `from+7` capture
and en-passant tests, then the `from+9` ones. -/
def white_pawn_moves (pos : Position) (us fr : Nat) : List Move :=
  let f := file_of fr
  let r := rank_of fr
  let one := fr + 8
  (if one ≤ 63 ∧ pos.board one = NO_PIECE then
     if r = 6 then promo_moves fr one 0
     else
       mk_move fr one 0 0 ::
         (if r = 1 ∧ pos.board (fr + 16) = NO_PIECE then
            [mk_move fr (fr + 16) FLAG_DOUBLE_PAWN 0]
          else [])
   else [])
  ++ (if f > 0 then
        (let t := fr + 7
         (if t ≤ 63 ∧ is_enemy pos us t then
            if r = 6 then promo_moves fr t FLAG_CAPTURE else [mk_move fr t FLAG_CAPTURE 0]
          else [])
         ++ (if t = pos.ep_square then [mk_move fr t (FLAG_CAPTURE ||| FLAG_EN_PASSANT) 0] else []))
      else [])
  ++ (if f < 7 then
        (let t := fr + 9
         (if t ≤ 63 ∧ is_enemy pos us t then
            if r = 6 then promo_moves fr t FLAG_CAPTURE else [mk_move fr t FLAG_CAPTURE 0]
          else [])
         ++ (if t = pos.ep_square then [mk_move fr t (FLAG_CAPTURE ||| FLAG_EN_PASSANT) 0] else []))
      else [])

/-- The black-pawn block; the C++ `from - 8` etc. are signed, so the
intermediate targets are `Int` with the `>= SQ_A1` guards. -/
def black_pawn_moves (pos : Position) (us fr : Nat) : List Move :=
  let f := file_of fr
  let r := rank_of fr
  let oneI : Int := (fr : Int) - 8
  (if 0 ≤ oneI ∧ pos.board oneI.toNat = NO_PIECE then
     if r = 1 then promo_moves fr oneI.toNat 0
     else
       mk_move fr oneI.toNat 0 0 ::
         (if r = 6 ∧ pos.board (fr - 16) = NO_PIECE then
            [mk_move fr (fr - 16) FLAG_DOUBLE_PAWN 0]
          else [])
   else [])
  ++ (if f > 0 then
        (let tI : Int := (fr : Int) - 9
         (if 0 ≤ tI ∧ is_enemy pos us tI.toNat then
            if r = 1 then promo_moves fr tI.toNat FLAG_CAPTURE
            else [mk_move fr tI.toNat FLAG_CAPTURE 0]
          else [])
         ++ (if tI = (pos.ep_square : Int) then
               [mk_move fr tI.toNat (FLAG_CAPTURE ||| FLAG_EN_PASSANT) 0]
             else []))
      else [])
  ++ (if f < 7 then
        (let tI : Int := (fr : Int) - 7
         (if 0 ≤ tI ∧ is_enemy pos us tI.toNat then
            if r = 1 then promo_moves fr tI.toNat FLAG_CAPTURE
            else [mk_move fr tI.toNat FLAG_CAPTURE 0]
          else [])
         ++ (if tI = (pos.ep_square : Int) then
               [mk_move fr tI.toNat (FLAG_CAPTURE ||| FLAG_EN_PASSANT) 0]
             else []))
      else [])

/-- The shared knight/slider/king emission: for every target square,
a move flagged capture exactly when the target intersects the enemy
occupancy. -/
def targets_moves (fr targets opp : Nat) : List Move :=
  (bit_list targets).map fun t =>
    mk_move fr t (if bb_from t &&& opp ≠ 0 then FLAG_CAPTURE else 0) 0

/-- `generate_pseudo_legal(pos, out)` (movegen.cpp), as the emitted move
list in emission order. -/
def generate_pseudo_legal (pos : Position) : List Move :=
  let us := pos.side_to_move
  let them := us ^^^ 1
  let own := pos.occupancy us
  let opp := pos.occupancy them
  let all := pos.occupancy 2
  let pawn_list :=
    (bit_list (pos.pieces us PAWN)).flatMap fun fr =>
      if us = WHITE then white_pawn_moves pos us fr else black_pawn_moves pos us fr
  let knight_list :=
    (bit_list (pos.pieces us KNIGHT)).flatMap fun fr =>
      targets_moves fr (knight_attacks fr &&& compl64 own) opp
  let bishop_list :=
    (bit_list (pos.pieces us BISHOP)).flatMap fun fr =>
      targets_moves fr (bishop_attacks fr all &&& compl64 own) opp
  let rook_list :=
    (bit_list (pos.pieces us ROOK)).flatMap fun fr =>
      targets_moves fr (rook_attacks fr all &&& compl64 own) opp
  let queen_list :=
    (bit_list (pos.pieces us QUEEN)).flatMap fun fr =>
      targets_moves fr ((bishop_attacks fr all ||| rook_attacks fr all) &&& compl64 own) opp
  let ksq := pos.king_square us
  let king_list := targets_moves ksq (king_attacks ksq &&& compl64 own) opp
  let castle_w :=
    if us = WHITE ∧ ksq = 4 then
      (if pos.castling_rights &&& WHITE_OO ≠ 0 ∧ pos.board 7 = 4 ∧ pos.board 5 = NO_PIECE
          ∧ pos.board 6 = NO_PIECE
          ∧ ¬ is_square_attacked pos 4 them ∧ ¬ is_square_attacked pos 5 them
          ∧ ¬ is_square_attacked pos 6 them then
         [mk_move 4 6 FLAG_CASTLING 0]
       else [])
      ++ (if pos.castling_rights &&& WHITE_OOO ≠ 0 ∧ pos.board 0 = 4 ∧ pos.board 3 = NO_PIECE
             ∧ pos.board 2 = NO_PIECE ∧ pos.board 1 = NO_PIECE
             ∧ ¬ is_square_attacked pos 4 them ∧ ¬ is_square_attacked pos 3 them
             ∧ ¬ is_square_attacked pos 2 them then
            [mk_move 4 2 FLAG_CASTLING 0]
          else [])
    else []
  let castle_b :=
    if us = BLACK ∧ ksq = 60 then
      (if pos.castling_rights &&& BLACK_OO ≠ 0 ∧ pos.board 63 = 10 ∧ pos.board 61 = NO_PIECE
          ∧ pos.board 62 = NO_PIECE
          ∧ ¬ is_square_attacked pos 60 them ∧ ¬ is_square_attacked pos 61 them
          ∧ ¬ is_square_attacked pos 62 them then
         [mk_move 60 62 FLAG_CASTLING 0]
       else [])
      ++ (if pos.castling_rights &&& BLACK_OOO ≠ 0 ∧ pos.board 56 = 10 ∧ pos.board 59 = NO_PIECE
             ∧ pos.board 58 = NO_PIECE ∧ pos.board 57 = NO_PIECE
             ∧ ¬ is_square_attacked pos 60 them ∧ ¬ is_square_attacked pos 59 them
             ∧ ¬ is_square_attacked pos 58 them then
            [mk_move 60 58 FLAG_CASTLING 0]
          else [])
    else []
  pawn_list ++ knight_list ++ bishop_list ++ rook_list ++ queen_list ++ king_list
    ++ castle_w ++ castle_b

/-- `generate_legal(pos, out)`: pseudo-legal filtered through a trial
`make_move` (which itself rejects king-in-check). -/
def generate_legal (T : EvalTables) (pos : Position) : List Move :=
  (generate_pseudo_legal pos).filter fun m => (make_move T pos m).1

/-! ## Static exchange evaluation (see.cpp) -/

/-- `SEE_VALUE[pt]` / `piece_value(pt)` (see.cpp). -/
def see_piece_value (pt : Nat) : Int := [0, 100, 320, 330, 500, 900, 10000].getD pt 0

/-- `attackers_to(pos, sq, occ)` (see.cpp). -/
def attackers_to (pos : Position) (sq occ : Nat) : Nat :=
  (pawn_attacks BLACK sq &&& pos.pieces WHITE PAWN) |||
  (pawn_attacks WHITE sq &&& pos.pieces BLACK PAWN) |||
  (knight_attacks sq &&& (pos.pieces WHITE KNIGHT ||| pos.pieces BLACK KNIGHT)) |||
  (bishop_attacks sq occ &&&
    (pos.pieces WHITE BISHOP ||| pos.pieces BLACK BISHOP |||
     pos.pieces WHITE QUEEN ||| pos.pieces BLACK QUEEN)) |||
  (rook_attacks sq occ &&&
    (pos.pieces WHITE ROOK ||| pos.pieces BLACK ROOK |||
     pos.pieces WHITE QUEEN ||| pos.pieces BLACK QUEEN)) |||
  (king_attacks sq &&& (pos.pieces WHITE KING ||| pos.pieces BLACK KING))

/-- `see_captured_value(pos, move)` (see.cpp). -/
def see_captured_value (pos : Position) (m : Move) : Int :=
  let captured :=
    if m.is_en_passant then make_piece (pos.side_to_move ^^^ 1) PAWN else pos.board m.to_sq
  if captured = NO_PIECE then 0 else see_piece_value (type_of captured)

/-- The alternating-capture loop of `static_exchange_eval`, with the
gain stack held most-recent-first.  Fuel 32 mirrors the `gain[32]`
array bound of the source. -/
def see_loop (pos : Position) (t : Nat) :
    Nat → Nat → Nat → Nat → Nat → Nat → List Int → List Int
  | 0, _, _, _, _, _, gains => gains
  | fuel + 1, occ, osW, osB, last, side, gains =>
    let at_bb := attackers_to pos t occ &&& (if side = WHITE then osW else osB)
    if at_bb = 0 then gains
    else
      match [PAWN, KNIGHT, BISHOP, ROOK, QUEEN, KING].findSome? (fun cand =>
          let bbx := at_bb &&& pos.pieces side cand
          if bbx ≠ 0 then some (lsb bbx, cand) else Option.none) with
      | Option.none => gains
      | some (from_sq, pt) =>
        let gprev := gains.headD 0
        let gd := see_piece_value last - gprev
        let gains2 := gd :: gains
        if max (-gprev) gd < 0 then gains2
        else
          let b := bb_from from_sq
          see_loop pos t fuel (occ ^^^ b)
            (if side = WHITE then osW ^^^ b else osW)
            (if side = BLACK then osB ^^^ b else osB)
            pt (side ^^^ 1) gains2

/-- The final `while (--d > 0) gain[d-1] = -max(-gain[d-1], gain[d])`
fold of `static_exchange_eval`, returning `gain[0]`. -/
def see_fold : Nat → List Int → Int
  | _, [] => 0
  | _, [g0] => g0
  | 0, g :: _ => g
  | fuel + 1, gd :: gprev :: rest => see_fold fuel ((-(max (-gprev) gd)) :: rest)

/-- `static_exchange_eval(pos, move)` (see.cpp). -/
def static_exchange_eval (pos : Position) (m : Move) : Int :=
  if m.is_none then 0
  else
    let f := m.from_sq
    let t := m.to_sq
    let moved := pos.board f
    if moved = NO_PIECE then 0
    else
      let g0 := see_captured_value pos m
      let us := pos.side_to_move
      let them := us ^^^ 1
      let fb := bb_from f
      let occ1 := pos.occupancy 2 ^^^ fb
      let osW1 := if us = WHITE then pos.occupancy WHITE ^^^ fb else pos.occupancy WHITE
      let osB1 := if us = BLACK then pos.occupancy BLACK ^^^ fb else pos.occupancy BLACK
      let adj : Nat × Nat × Nat :=
        if m.is_en_passant then
          let cap_sq := if us = WHITE then t - 8 else t + 8
          let cb := bb_from cap_sq
          (occ1 ^^^ cb,
           if them = WHITE then osW1 ^^^ cb else osW1,
           if them = BLACK then osB1 ^^^ cb else osB1)
        else
          let cap := pos.board t
          if cap ≠ NO_PIECE then
            (occ1,
             if them = WHITE then osW1 ^^^ bb_from t else osW1,
             if them = BLACK then osB1 ^^^ bb_from t else osB1)
          else (occ1, osW1, osB1)
      let occ2 := adj.1 ||| bb_from t
      let osW2 := if us = WHITE then adj.2.1 ||| bb_from t else adj.2.1
      let osB2 := if us = BLACK then adj.2.2 ||| bb_from t else adj.2.2
      let gains := see_loop pos t 32 occ2 osW2 osB2 (type_of moved) them [g0]
      see_fold gains.length gains

/-! ## Move picker (movepicker.h/cpp) -/

/-- `MOVE_INDEX_NB` = PIECE_NB * SQ_NB (movepicker.h). -/
def MOVE_INDEX_NB : Nat := 13 * 64

/-- `PIECE_ORDER_VALUE` (movepicker.cpp). -/
def PIECE_ORDER_VALUE (pt : Nat) : Int := [0, 100, 320, 330, 500, 900, 10000].getD pt 0

/-- `QuietOrderContext` (movepicker.h).  The C++ table pointers are
modelled as total functions; the search always installs non-null
tables, so the null-pointer sub-checks of the source are vacuous here. -/
structure QuietOrderContext where
  history : Nat → Int
  cont_history : Nat → Int
  capture_history : Nat → Int
  use_history : Bool
  use_cont_history : Bool
  use_capture_history : Bool
  use_see : Bool
  side : Nat
  prev1_move_index : Int
  prev2_move_index : Int
  cont_history_2ply_divisor : Int
  killer1 : Move
  killer2 : Move
  counter : Move

/-- `MovePicker::capture_score` (movepicker.cpp):
`SEE*1024 + capture_history + MVV*16 − attacker_value`. -/
def capture_score (pos : Position) (m : Move) (ctx : Option QuietOrderContext) : Int :=
  let captured :=
    if m.is_en_passant then make_piece (pos.side_to_move ^^^ 1) PAWN else pos.board m.to_sq
  let attacker := pos.board m.from_sq
  let captured_value : Int :=
    if captured = NO_PIECE then 0 else PIECE_ORDER_VALUE (type_of captured)
  let attacker_value : Int :=
    if attacker = NO_PIECE then 0 else PIECE_ORDER_VALUE (type_of attacker)
  let hist : Int :=
    match ctx with
    | some qc =>
      if qc.use_capture_history ∧ attacker ≠ NO_PIECE ∧ captured ≠ NO_PIECE then
        qc.capture_history
          (((pos.side_to_move * 7 + type_of attacker) * 64 + m.to_sq) * 7 + type_of captured)
      else 0
    | Option.none => 0
  let see_term : Int :=
    match ctx with
    | some qc => if qc.use_see then static_exchange_eval pos m * 1024 else 0
    | Option.none => 0
  see_term + hist + captured_value * 16 - attacker_value

/-- `MovePicker::quiet_score` (movepicker.cpp). -/
def mp_quiet_score (pos : Position) (m : Move) (ctx : Option QuietOrderContext) : Int :=
  match ctx with
  | Option.none => 0
  | some qc =>
    let s0 : Int :=
      if m = qc.killer1 then 1000000
      else if m = qc.killer2 then 900000
      else if m = qc.counter then 800000
      else 0
    let s1 := s0 + (if qc.use_history then
        qc.history ((qc.side * 64 + m.from_sq) * 64 + m.to_sq) else 0)
    let s2 := s1 + (if qc.use_cont_history then
        (let moved := pos.board m.from_sq
         if moved ≠ NO_PIECE then
           let cur := moved * 64 + m.to_sq
           (if 0 ≤ qc.prev1_move_index then
              qc.cont_history (qc.prev1_move_index.toNat * MOVE_INDEX_NB + cur)
            else 0)
           + (if 0 ≤ qc.prev2_move_index then
                Int.tdiv (qc.cont_history (qc.prev2_move_index.toNat * MOVE_INDEX_NB + cur))
                  (max 1 qc.cont_history_2ply_divisor)
              else 0)
         else 0)
      else 0)
    s2

structure ScoredMove where
  move : Move
  score : Int
deriving DecidableEq, Repr

/-- The classification state the `MovePicker` constructor builds: the
good-capture, quiet, and bad-capture buckets in generation order. -/
structure PickerState where
  tt_move : Move
  qsearch_only : Bool
  tt_done : Bool
  good_captures : List ScoredMove
  quiets : List ScoredMove
  bad_captures : List ScoredMove

/-- One iteration of the `MovePicker::MovePicker` constructor loop
(movepicker.cpp lines 33-56): skip the TT move, in qsearch-only mode
keep only captures/promotions, route captures/promotions into good or
bad by `score >= 0 || move.is_promotion()`, everything else into
quiets. -/
def picker_init_step (pos : Position) (tt_move : Move) (qsearch_only : Bool)
    (ctx : Option QuietOrderContext) (st : PickerState) (m : Move) : PickerState :=
  if ¬ tt_move.is_none ∧ m = tt_move then st
  else
    let icp := m.is_capture || m.is_promotion
    if qsearch_only ∧ ¬ icp then st
    else if icp then
      let score := capture_score pos m ctx
      if score ≥ 0 ∨ m.is_promotion then
        { st with good_captures := st.good_captures ++ [⟨m, score⟩] }
      else
        { st with bad_captures := st.bad_captures ++ [⟨m, score⟩] }
    else { st with quiets := st.quiets ++ [⟨m, mp_quiet_score pos m ctx⟩] }

/-- The `MovePicker::MovePicker` constructor (movepicker.cpp). -/
def picker_init (pos : Position) (tt_move : Move) (qsearch_only : Bool)
    (ctx : Option QuietOrderContext) : PickerState :=
  (generate_pseudo_legal pos).foldl (picker_init_step pos tt_move qsearch_only ctx)
    { tt_move := tt_move, qsearch_only := qsearch_only, tt_done := false,
      good_captures := [], quiets := [], bad_captures := [] }

/-- `MovePicker::better` (movepicker.cpp). -/
def mp_better (l r : ScoredMove) : Bool :=
  if l.score ≠ r.score then l.score > r.score else l.move.raw < r.move.raw

/-- The scan of `pick_next_from_bucket` that finds the index of the
best remaining entry (strict `better`, so the first maximum wins). -/
def best_idx_go : List ScoredMove → ScoredMove → Nat → Nat → Nat
  | [], _, _, best => best
  | x :: xs, bestv, i, best =>
    if mp_better x bestv then best_idx_go xs x (i + 1) i
    else best_idx_go xs bestv (i + 1) best

/-- `MovePicker::pick_next_from_bucket` on the remaining slice of a
bucket: swap the best entry to the front and emit it; the remainder is
the old list with the best slot overwritten by the old head, minus its
head. -/
def bucket_next (l : List ScoredMove) : Option (ScoredMove × List ScoredMove) :=
  match l with
  | [] => Option.none
  | x :: xs =>
    let b := best_idx_go xs x 1 0
    some (l.getD b ⟨Move.none, 0⟩, (l.set b x).tail)

/-- The bucket cascade of `MovePicker::next` after the TT stage.
Phases: 0 = TT, 1 = GOOD_CAPTURE, 2 = QUIET, 3 = BAD_CAPTURE; a `none`
result is the END phase. -/
def picker_next_buckets (st : PickerState) : Option (Move × Nat) × PickerState :=
  match bucket_next st.good_captures with
  | some (sm, rest) => (some (sm.move, 1), { st with good_captures := rest })
  | Option.none =>
    match (if ¬ st.qsearch_only then bucket_next st.quiets else Option.none) with
    | some (sm, rest) => (some (sm.move, 2), { st with quiets := rest })
    | Option.none =>
      match bucket_next st.bad_captures with
      | some (sm, rest) => (some (sm.move, 3), { st with bad_captures := rest })
      | Option.none => (Option.none, st)

/-- `MovePicker::next(phase)` (movepicker.cpp). -/
def picker_next (st : PickerState) : Option (Move × Nat) × PickerState :=
  if ¬ st.tt_done then
    let st1 := { st with tt_done := true }
    if ¬ st1.tt_move.is_none then (some (st1.tt_move, 0), st1)
    else picker_next_buckets st1
  else picker_next_buckets st

/-- The full emission sequence of a picker (repeated `next` until END).
The picker state is independent of the search, so precomputing the
sequence is equivalent to interleaved calls. -/
def picker_seq_go : Nat → PickerState → List (Move × Nat)
  | 0, _ => []
  | fuel + 1, st =>
    match picker_next st with
    | (some mp, st2) => mp :: picker_seq_go fuel st2
    | (Option.none, _) => []

def picker_seq (pos : Position) (tt_move : Move) (qsearch_only : Bool)
    (ctx : Option QuietOrderContext) : List (Move × Nat) :=
  let st := picker_init pos tt_move qsearch_only ctx
  picker_seq_go
    (st.good_captures.length + st.quiets.length + st.bad_captures.length + 2) st

/-! ## Search constants and TT score adjustment (search.h/cpp) -/

def MAX_PLY : Int := 128
def VALUE_INFINITE : Int := 32000
def VALUE_MATE : Int := 31000
def MATE_SCORE_FOR_TT : Int := VALUE_MATE - MAX_PLY

/-- `Searcher::score_to_tt(score, ply)` (search.cpp). -/
def score_to_tt (score ply : Int) : Int :=
  if score > MATE_SCORE_FOR_TT then score + ply
  else if score < -MATE_SCORE_FOR_TT then score - ply
  else score

/-- `Searcher::score_from_tt(score, ply)` (search.cpp). -/
def score_from_tt (score ply : Int) : Int :=
  if score > MATE_SCORE_FOR_TT then score - ply
  else if score < -MATE_SCORE_FOR_TT then score + ply
  else score

/-! ## Table sizing (search.cpp TranspositionTable::resize_mb,
pawn_hash.cpp PawnHashTable::resize) -/

/-- `sizeof(TTEntry)`: 8 (key) + 4 (move_raw) + 2 + 2 (scores) + 4
one-byte fields = 20, padded to 24 by the 8-byte alignment of `Key`. -/
def TT_ENTRY_BYTES : Nat := 24

/-- The entry count chosen by `TranspositionTable::resize_mb(mb)`:
`max(mb,1)` MiB divided by the entry size, at least one entry. -/
def tt_resize_entry_count (mb : Nat) : Nat :=
  let bytes := max mb 1 * 1024 * 1024
  max (bytes / TT_ENTRY_BYTES) 1

/-- The doubling loop of `PawnHashTable::resize`: `size = 1; while
(size < entries) size <<= 1;`.  Fuel `entries + 1` strictly dominates
the number of doublings needed from 1. -/
def pawn_resize_go : Nat → Nat → Nat → Nat
  | 0, size, _ => size
  | fuel + 1, size, entries => if size < entries then pawn_resize_go fuel (size * 2) entries else size

/-- The capacity selected by `PawnHashTable::resize(entries)`. -/
def pawn_hash_resize_size (entries : Nat) : Nat := pawn_resize_go (entries + 1) 1 entries

/-! ## Time manager (search.cpp TimeManager::init) -/

/-- `SearchLimits` (search.h), time-management fields. -/
structure SearchLimits where
  movetime_ms : Int := -1
  wtime_ms : Int := -1
  btime_ms : Int := -1
  winc_ms : Int := 0
  binc_ms : Int := 0
  movestogo : Int := 0
  move_overhead_ms : Int := 30
  infinite : Bool := false
  ponder : Bool := false

/-- `TIME_INF` = INT_MAX / 4 (search.cpp). -/
def TIME_INF : Int := 536870911

/-- `TimeManager::clamp_ms(v)`. -/
def clamp_ms (v : Int) : Int := max 1 (min v TIME_INF)

/-- The integer time budgets computed by `TimeManager::init`
(the floating-point NPS EMA and node-budget conversion are out of
scope for the embedded claims). -/
structure TMState where
  time_left_ms : Int
  increment_ms : Int
  moves_to_go : Int
  available_ms : Int
  optimum_time_ms : Int
  effective_optimum_ms : Int
  maximum_time_ms : Int
  fixed_movetime : Bool
  emergency_mode : Bool

/-- `Searcher::TimeManager::init(limits, us, _)` (search.cpp lines
431-504), integer part.  C++ `int` division truncates toward zero
(`Int.tdiv`). -/
def tm_init (L : SearchLimits) (us : Nat) : TMState :=
  let time_left := if us = WHITE then L.wtime_ms else L.btime_ms
  let increment := if us = WHITE then L.winc_ms else L.binc_ms
  let mtg := L.movestogo
  let fixed := L.movetime_ms > 0
  if L.infinite ∨ L.ponder then
    { time_left_ms := time_left, increment_ms := increment, moves_to_go := mtg
      available_ms := TIME_INF, optimum_time_ms := TIME_INF
      effective_optimum_ms := TIME_INF, maximum_time_ms := TIME_INF
      fixed_movetime := fixed, emergency_mode := false }
  else
    let overhead := max 0 L.move_overhead_ms
    if fixed then
      let avail := clamp_ms (L.movetime_ms - overhead)
      let opt := clamp_ms (Int.tdiv (avail * 85) 100)
      { time_left_ms := time_left, increment_ms := increment, moves_to_go := mtg
        available_ms := avail, optimum_time_ms := opt
        effective_optimum_ms := opt, maximum_time_ms := avail
        fixed_movetime := fixed, emergency_mode := false }
    else if time_left > 0 then
      let reserve :=
        if mtg > 0 then max 20 (Int.tdiv time_left 50) else max 40 (Int.tdiv time_left 25)
      let avail := clamp_ms (time_left - overhead - reserve)
      let emergency := time_left ≤ overhead * 3 + 80
      let horizon :=
        if mtg > 0 then min (max mtg 1) 80
        else min (max (20 + Int.tdiv time_left 15000) 20) 40
      let base := Int.tdiv avail (max 1 horizon)
      let inc_spend := Int.tdiv increment 2
      let opt0 := clamp_ms (base + inc_spend)
      let maxi0 :=
        if mtg > 0 then min avail (max opt0 (opt0 * 3))
        else min avail (max (opt0 * 4) (base * 6))
      let opt1 := if emergency then max 1 (min opt0 (Int.tdiv avail 4)) else opt0
      let maxi1 := if emergency then max opt1 (min maxi0 (Int.tdiv avail 2)) else maxi0
      let opt2 := min opt1 avail
      let maxi2 := max opt2 (min maxi1 avail)
      { time_left_ms := time_left, increment_ms := increment, moves_to_go := mtg
        available_ms := avail, optimum_time_ms := opt2
        effective_optimum_ms := opt2, maximum_time_ms := maxi2
        fixed_movetime := fixed, emergency_mode := emergency }
    else
      { time_left_ms := time_left, increment_ms := increment, moves_to_go := mtg
        available_ms := TIME_INF, optimum_time_ms := TIME_INF
        effective_optimum_ms := TIME_INF, maximum_time_ms := TIME_INF
        fixed_movetime := fixed, emergency_mode := false }

/-- The maximum-budget formula as worded by the specification and
claim C7: `min(available, max(optimum * {3 if movestogo > 0 else 4},
base * 6))` with `base = available / horizon` and
`optimum = base + increment / 2`.  This follows the spec text, for
comparison with `tm_init` translated from the source. -/
def spec_maximum_budget (L : SearchLimits) (us : Nat) : Int :=
  let time_left := if us = WHITE then L.wtime_ms else L.btime_ms
  let increment := if us = WHITE then L.winc_ms else L.binc_ms
  let mtg := L.movestogo
  let overhead := max 0 L.move_overhead_ms
  let reserve :=
    if mtg > 0 then max 20 (Int.tdiv time_left 50) else max 40 (Int.tdiv time_left 25)
  let avail := clamp_ms (time_left - overhead - reserve)
  let horizon :=
    if mtg > 0 then min (max mtg 1) 80
    else min (max (20 + Int.tdiv time_left 15000) 20) 40
  let base := Int.tdiv avail (max 1 horizon)
  let opt := base + Int.tdiv increment 2
  min avail (max (opt * (if mtg > 0 then 3 else 4)) (base * 6))

/-! ## Search-node move loop and quiescence (search.cpp)

The statistics counters, killer/counter/history writebacks and PV
copies of the source only mutate observer state that never feeds back
into the scores returned, so they are not part of the embedding.  The
recursive `search_node` call is a function parameter (`child`): the
theorems hold for every recursion oracle. -/

/-- The configuration fields of `SearchConfig` consulted by the move
loop and quiescence (search.cpp usage; the search.h in the snapshot is
older than search.cpp, the fields are taken from the .cpp uses). -/
structure SearchConfig where
  use_history : Bool
  use_cont_history : Bool
  use_lmr : Bool
  use_see : Bool
  use_qdelta : Bool
  use_futility : Bool
  use_lmp : Bool
  use_history_pruning : Bool
  use_singular : Bool
  cont_history_2ply_divisor : Int
  lmr_min_depth : Int
  lmr_full_depth_moves : Int
  lmr_history_threshold : Int
  futility_max_depth : Int
  futility_margin_base_cp : Int
  futility_margin_per_depth_cp : Int
  zugzwang_non_pawn_material_cp : Int
  lmp_max_depth : Int
  lmp_d1 : Int
  lmp_d2 : Int
  lmp_d3 : Int
  lmp_d4 : Int
  histprune_max_depth : Int
  histprune_min_moves : Int
  histprune_threshold_cp : Int
  singular_min_depth : Int
  singular_margin_cp : Int
  singular_reduction : Int
  max_extensions_per_pv_line : Int
  q_delta_margin_cp : Int
  see_q_threshold_cp : Int

/-- `SearchStackEntry` as used by search.cpp. -/
structure SearchStackEntry where
  move : Move := Move.none
  move_index : Int := -1
  did_null : Bool := false
  static_eval : Int := 0
  extensions_used : Int := 0

/-- The searcher state the move loop reads: tables, stack, stop flag,
the evaluator, and the recursive `search_node` as an oracle taking
(position, depth, alpha, beta, ply, is_pv). -/
structure SearchCtx where
  T : EvalTables
  cfg : SearchConfig
  history : Nat → Int
  cont_history : Nat → Int
  lmr_table : Nat → Int
  stack : Nat → SearchStackEntry
  stop : Bool
  eval : Position → Int
  child : Position → Int → Int → Int → Nat → Bool → Int

/-- `Searcher::move_index(pc, to)` (search.cpp). -/
def move_index (pc tsq : Nat) : Int :=
  if pc = NO_PIECE ∨ ¬ is_ok_square tsq then -1 else (pc : Int) * 64 + tsq

/-- `Searcher::quiet_move_score(pos, move, ply)` (search.cpp). -/
def quiet_move_score (C : SearchCtx) (pos : Position) (m : Move) (ply : Nat) : Int :=
  if ¬ C.cfg.use_history ∧ ¬ C.cfg.use_cont_history then 0
  else
    let s1 : Int :=
      if C.cfg.use_history then
        C.history ((pos.side_to_move * 64 + m.from_sq) * 64 + m.to_sq)
      else 0
    let s2 : Int :=
      if C.cfg.use_cont_history then
        (let cur := move_index (pos.board m.from_sq) m.to_sq
         if 0 ≤ cur then
           let prev1 := (C.stack ply).move_index
           let prev2 := if ply > 0 then (C.stack (ply - 1)).move_index else -1
           (if 0 ≤ prev1 then C.cont_history (prev1.toNat * MOVE_INDEX_NB + cur.toNat) else 0)
           + (if 0 ≤ prev2 then
                Int.tdiv (C.cont_history (prev2.toNat * MOVE_INDEX_NB + cur.toNat))
                  (max 1 C.cfg.cont_history_2ply_divisor)
              else 0)
         else 0)
      else 0
    s1 + s2

/-- `Searcher::move_gives_check(pos, move)` (search.cpp): trial make,
query check, unmake (pure here). -/
def move_gives_check (T : EvalTables) (pos : Position) (m : Move) : Bool :=
  let r := make_move T pos m
  if ¬ r.1 then false else in_check r.2 r.2.side_to_move

/-- `Searcher::lmp_limit(depth)` (search.cpp). -/
def lmp_limit (cfg : SearchConfig) (depth : Int) : Int :=
  if depth = 1 then cfg.lmp_d1
  else if depth = 2 then cfg.lmp_d2
  else if depth = 3 then cfg.lmp_d3
  else cfg.lmp_d4

/-- `Searcher::lmr_reduction(depth, move_count, quiet_score)`
(search.cpp). -/
def lmr_reduction (C : SearchCtx) (depth : Int) (move_count : Nat) (qsc : Int) : Int :=
  if depth ≤ 1 then 0
  else
    let d := min depth MAX_PLY
    let mv := min move_count 255
    let r0 := C.lmr_table (d.toNat * 256 + mv)
    let r1 := if qsc ≥ C.cfg.lmr_history_threshold then r0 - 1 else r0
    min (max r1 0) (depth - 1)

/-- The in-loop mutable quantities of the search_node move loop. -/
structure LoopState where
  alpha : Int
  best_score : Int
  best_move : Move
  legal_moves : Nat
  searched_moves : Nat

/-- The singular-extension alternative scan (search.cpp lines
1166-1201), run on the position with the candidate move already made
(as the source does).  `Sum.inl` is the early `return 0` on stop;
otherwise the final (singular, alternatives) pair. -/
def singular_go (C : SearchCtx) (posAfter : Position) (m : Move) (target depth : Int)
    (ply : Nat) : List (Move × Nat) → Bool × Nat → Sum Int (Bool × Nat)
  | [], st => Sum.inr st
  | (alt, _) :: rest, st =>
    if alt = m then singular_go C posAfter m target depth ply rest st
    else
      match make_move C.T posAfter alt with
      | (false, _) => singular_go C posAfter m target depth ply rest st
      | (true, pos2) =>
        let alts2 := st.2 + 1
        let alt_score :=
          -(C.child pos2 (max 0 (depth - 1 - C.cfg.singular_reduction))
              (-target - 1) (-target) (ply + 1) false)
        if C.stop then Sum.inl 0
        else if alt_score ≥ target then Sum.inr (false, alts2)
        else singular_go C posAfter m target depth ply rest (st.1, alts2)

/-- The move loop of `Searcher::search_node` (search.cpp lines
1080-1308) over the picker emission sequence.  `Sum.inl` carries the
early `return 0` exits (stop flag, including inside the singular
scan); `Sum.inr` the state after the loop ends or beta-cuts. -/
def sn_loop (C : SearchCtx) (pos : Position) (depth beta : Int) (ply : Nat)
    (is_pv in_chk : Bool) (static_eval : Int) (us : Nat) (tt_move : Move)
    (tt_hit : Bool) (tt_depth : Int) (tt_bound : Nat) (tt_score : Int)
    (ctx : Option QuietOrderContext) :
    List (Move × Nat) → LoopState → Sum Int LoopState
  | [], st => Sum.inr st
  | (m, _phase) :: rest, st =>
    let is_quiet := ¬ m.is_capture ∧ ¬ m.is_promotion
    let qsc := if is_quiet then quiet_move_score C pos m ply else 0
    let pruned : Bool :=
      if is_quiet ∧ ¬ is_pv ∧ ¬ in_chk then
        let can_fut := C.cfg.use_futility ∧ depth ≤ C.cfg.futility_max_depth
        let can_lmp := C.cfg.use_lmp ∧ depth ≤ C.cfg.lmp_max_depth
        let can_hist := C.cfg.use_history_pruning ∧ depth ≤ C.cfg.histprune_max_depth
        let need := can_fut ∨ can_lmp ∨ can_hist
        let gives := if need then move_gives_check C.T pos m else false
        if can_fut ∧ ¬ gives ∧ pos.non_pawn_material us > C.cfg.zugzwang_non_pawn_material_cp
            ∧ static_eval + (C.cfg.futility_margin_base_cp + C.cfg.futility_margin_per_depth_cp * depth) ≤ st.alpha then
          true
        else if can_lmp ∧ ¬ gives ∧ (st.searched_moves : Int) ≥ lmp_limit C.cfg depth then true
        else if can_hist ∧ ¬ gives ∧ (st.searched_moves : Int) ≥ C.cfg.histprune_min_moves
            ∧ qsc ≤ C.cfg.histprune_threshold_cp then
          true
        else false
      else false
    if pruned then
      sn_loop C pos depth beta ply is_pv in_chk static_eval us tt_move tt_hit tt_depth tt_bound tt_score ctx rest st
    else
      match make_move C.T pos m with
      | (false, _) =>
        sn_loop C pos depth beta ply is_pv in_chk static_eval us tt_move tt_hit tt_depth tt_bound tt_score ctx rest st
      | (true, pos2) =>
        let st1 : LoopState :=
          { st with legal_moves := st.legal_moves + 1, searched_moves := st.searched_moves + 1 }
        let sing_out : Sum Int Int :=
          if C.cfg.use_singular ∧ C.cfg.max_extensions_per_pv_line > 0 ∧ is_pv ∧ m = tt_move
              ∧ tt_hit ∧ tt_depth ≥ depth - 1 ∧ tt_bound = 2
              ∧ depth ≥ C.cfg.singular_min_depth
              ∧ (C.stack ply).extensions_used < C.cfg.max_extensions_per_pv_line
              ∧ |tt_score| < MATE_SCORE_FOR_TT then
            match singular_go C pos2 m (tt_score - C.cfg.singular_margin_cp) depth ply
                (picker_seq pos2 Move.none false ctx) (true, 0) with
            | Sum.inl s => Sum.inl s
            | Sum.inr (sing, alts) => Sum.inr (if sing ∧ alts > 0 then 1 else 0)
          else Sum.inr 0
        match sing_out with
        | Sum.inl s => Sum.inl s
        | Sum.inr ext =>
          let next_depth := depth - 1 + ext
          let gives_check := in_check pos2 pos2.side_to_move
          let score :=
            if st1.legal_moves = 1 then
              -(C.child pos2 next_depth (-beta) (-st1.alpha) (ply + 1) is_pv)
            else
              let lmr_ok := C.cfg.use_lmr ∧ depth ≥ C.cfg.lmr_min_depth ∧ ¬ is_pv ∧ ¬ in_chk
                ∧ is_quiet ∧ m ≠ tt_move ∧ (st1.legal_moves : Int) > C.cfg.lmr_full_depth_moves
                ∧ ¬ gives_check
              let red := if lmr_ok then lmr_reduction C depth st1.legal_moves qsc else 0
              let s0 :=
                if lmr_ok ∧ red > 0 then
                  let sred := -(C.child pos2 (next_depth - red) (-st1.alpha - 1) (-st1.alpha) (ply + 1) false)
                  if sred > st1.alpha then
                    -(C.child pos2 next_depth (-st1.alpha - 1) (-st1.alpha) (ply + 1) false)
                  else sred
                else -(C.child pos2 next_depth (-st1.alpha - 1) (-st1.alpha) (ply + 1) false)
              if s0 > st1.alpha ∧ s0 < beta then
                -(C.child pos2 next_depth (-beta) (-st1.alpha) (ply + 1) is_pv)
              else s0
          if C.stop then Sum.inl 0
          else
            let st2 := if score > st1.best_score then { st1 with best_score := score, best_move := m } else st1
            let st3 := if score > st2.alpha then { st2 with alpha := score } else st2
            if st3.alpha ≥ beta then Sum.inr st3
            else
              sn_loop C pos depth beta ply is_pv in_chk static_eval us tt_move tt_hit tt_depth tt_bound tt_score ctx rest st3

/-- `Searcher::search_node` from the point where its move loop starts
(search.cpp line 1068 `MovePicker picker(pos, tt_move, false,
&quiet_ctx)` through the function end): runs the loop and applies the
no-legal-move mate/stalemate rule, else yields the best score (the TT
store only mutates the table). -/
def search_node_from_move_loop (C : SearchCtx) (pos : Position) (depth alpha beta : Int)
    (ply : Nat) (is_pv : Bool) (static_eval : Int) (tt_move : Move) (tt_hit : Bool)
    (tt_depth : Int) (tt_bound : Nat) (tt_score : Int)
    (ctx : Option QuietOrderContext) : Int :=
  let us := pos.side_to_move
  let in_chk := in_check pos us
  let moves := picker_seq pos tt_move false ctx
  match sn_loop C pos depth beta ply is_pv in_chk static_eval us tt_move tt_hit tt_depth
      tt_bound tt_score ctx moves
      { alpha := alpha, best_score := -VALUE_INFINITE, best_move := Move.none,
        legal_moves := 0, searched_moves := 0 } with
  | Sum.inl s => s
  | Sum.inr st =>
    if st.legal_moves = 0 then
      if in_chk then -VALUE_MATE + (ply : Int) else 0
    else st.best_score

/-- The capture loop of `Searcher::qsearch` (search.cpp lines
1368-1416).  `qrec` is the recursive qsearch call at the next fuel.
`Sum.inl` carries the early returns (stop, beta cutoff); `Sum.inr` the
final (alpha, legal_moves). -/
def qsearch_loop (C : SearchCtx) (qrec : Position → Int → Int → Nat → Int)
    (pos : Position) (beta : Int) (ply : Nat) (in_chk : Bool) (stand_pat : Int) :
    List (Move × Nat) → Int → Nat → Sum Int (Int × Nat)
  | [], alpha, legal => Sum.inr (alpha, legal)
  | (m, _ph) :: rest, alpha, legal =>
    if ¬ in_chk ∧ C.cfg.use_qdelta ∧ ¬ m.is_promotion
        ∧ stand_pat + see_captured_value pos m + C.cfg.q_delta_margin_cp < alpha then
      qsearch_loop C qrec pos beta ply in_chk stand_pat rest alpha legal
    else if ¬ in_chk ∧ C.cfg.use_see ∧ m.is_capture
        ∧ static_exchange_eval pos m < C.cfg.see_q_threshold_cp then
      qsearch_loop C qrec pos beta ply in_chk stand_pat rest alpha legal
    else
      match make_move C.T pos m with
      | (false, _) => qsearch_loop C qrec pos beta ply in_chk stand_pat rest alpha legal
      | (true, pos2) =>
        let score := -(qrec pos2 (-beta) (-alpha) (ply + 1))
        if C.stop then Sum.inl 0
        else if score ≥ beta then Sum.inl score
        else if score > alpha then
          qsearch_loop C qrec pos beta ply in_chk stand_pat rest score (legal + 1)
        else qsearch_loop C qrec pos beta ply in_chk stand_pat rest alpha (legal + 1)

/-- `Searcher::qsearch(pos, alpha, beta, ply, pv)` (search.cpp lines
1333-1423), with recursion bounded by explicit fuel (the source bounds
it by the draw/mate rules and MAX_PLY; exhausted fuel yields 0 like a
hard stop). -/
def qsearch (C : SearchCtx) : Nat → Position → Int → Int → Nat → Int
  | 0, _, _, _, _ => 0
  | fuel + 1, pos, alpha, beta, ply =>
    if C.stop then 0
    else if is_draw pos then 0
    else
      let in_chk := in_check pos pos.side_to_move
      let stand_pat := if in_chk then alpha else C.eval pos
      if ¬ in_chk ∧ stand_pat ≥ beta then stand_pat
      else
        let alpha1 := if ¬ in_chk ∧ stand_pat > alpha then stand_pat else alpha
        let moves := picker_seq pos Move.none (¬ in_chk) Option.none
        match qsearch_loop C (fun p a b pl => qsearch C fuel p a b pl) pos beta ply in_chk
            stand_pat moves alpha1 0 with
        | Sum.inl s => s
        | Sum.inr st =>
          if in_chk ∧ st.2 = 0 then -VALUE_MATE + (ply : Int) else st.1

/-! ## Null moves (claim C5)

Modelled from the spec: `Position::make_null_move` and
`Position::unmake_null_move` are declared in position.h and called by
the null-move-pruning block of search.cpp, but their definitions are
not among the sources under src/.  Spec §4.2: "toggle side,
clear/restore ep, push a state-info entry flagged `is_null`.  The
moved/captured piece fields are empty"; §8 requires the round trip to
restore the Zobrist key, pawn key, ep square, halfmove clock, and
fullmove number.  The ep-file and side keys are folded out of/into the
Zobrist key as for a real move. -/

/-- Modelled from the spec: `Position::make_null_move()` (declaration
position.h line 61; definition missing from src/). -/
def make_null_move (pos : Position) : Position :=
  let st : StateInfo :=
    { key := pos.key, pawn_key := pos.pawn_key, move := Move.none
      moved_piece := NO_PIECE, captured_piece := NO_PIECE
      castling_rights := pos.castling_rights, ep_square := pos.ep_square
      halfmove_clock := pos.halfmove_clock, fullmove_number := pos.fullmove_number
      mg_psqt := pos.mg_psqt, eg_psqt := pos.eg_psqt
      non_pawn_material := pos.non_pawn_material, phase := pos.phase
      is_null := true }
  { pos with
    history := st :: pos.history
    key := (if pos.ep_square ≠ SQ_NONE then
              pos.key ^^^ zobrist_en_passant (file_of pos.ep_square)
            else pos.key) ^^^ zobrist_side
    ep_square := SQ_NONE
    side_to_move := pos.side_to_move ^^^ 1 }

/-- Modelled from the spec: `Position::unmake_null_move()` (declaration
position.h line 62; definition missing from src/). -/
def unmake_null_move (pos : Position) : Position :=
  match pos.history with
  | [] => pos
  | st :: rest =>
    { pos with
      history := rest
      side_to_move := pos.side_to_move ^^^ 1
      ep_square := st.ep_square
      key := st.key
      pawn_key := st.pawn_key
      halfmove_clock := st.halfmove_clock
      fullmove_number := st.fullmove_number }

/-! ## Concrete positions used by counterexamples and witnesses -/

/-- The start position as parsed by `set_from_fen`. -/
def startpos : Position := (set_from_fen zeroTables CHESS_STARTPOS_FEN).getD Position.empty

/-- A FEN accepted by `set_from_fen` whose side to move has 280
pseudo-legal moves: a border ring of white queens (with the two kings
in the lower corners). -/
def ring_fen : String := "QQQQQQQQ/Q6Q/Q6Q/Q6Q/Q6Q/Q6Q/Q6Q/kQQQQQQK w - - 0 1"

def ring_pos : Position := (set_from_fen zeroTables ring_fen).getD Position.empty

/-- A lone white pawn one step from promotion (plus the two kings). -/
def promo_fen : String := "k7/4P3/8/8/8/8/8/K7 w - - 0 1"

def promo_pos : Position := (set_from_fen zeroTables promo_fen).getD Position.empty

/-- Black is checkmated (the spec's mate-in-1 position after Qg7). -/
def mate_fen : String := "7k/6Q1/6K1/8/8/8/8/8 b - - 0 1"

def mate_pos : Position := (set_from_fen zeroTables mate_fen).getD Position.empty

/-- Black is stalemated. -/
def stale_fen : String := "k7/2Q5/8/8/8/8/8/4K3 b - - 0 1"

def stale_pos : Position := (set_from_fen zeroTables stale_fen).getD Position.empty

/-! ## C8: TT mate-score ply adjustment -/

/-- C8: for every score `s` with `|s| ≤ VALUE_MATE` and every ply with
`0 ≤ ply < MAX_PLY`, `score_from_tt (score_to_tt s ply) ply = s`;
`score_to_tt` adds `ply` above the mate threshold, subtracts it below
the negated threshold, and is the identity in between. -/
theorem c8_score_tt_roundtrip (s ply : Int) (hs : |s| ≤ VALUE_MATE)
    (hp0 : 0 ≤ ply) (hp1 : ply < MAX_PLY) :
    score_from_tt (score_to_tt s ply) ply = s
    ∧ (MATE_SCORE_FOR_TT < s → score_to_tt s ply = s + ply)
    ∧ (s < -MATE_SCORE_FOR_TT → score_to_tt s ply = s - ply)
    ∧ (-MATE_SCORE_FOR_TT ≤ s → s ≤ MATE_SCORE_FOR_TT → score_to_tt s ply = s) := by
  have hs' := abs_le.mp hs
  unfold score_from_tt score_to_tt MATE_SCORE_FOR_TT VALUE_MATE MAX_PLY at *
  refine ⟨?_, ?_, ?_, ?_⟩ <;> split_ifs <;> omega

/-- Witness for C8 at s = 30950 (a mate score), ply = 5. -/
theorem c8_score_tt_roundtrip_witness :
    |(30950 : Int)| ≤ VALUE_MATE ∧ (0 : Int) ≤ 5 ∧ (5 : Int) < MAX_PLY
    ∧ score_from_tt (score_to_tt 30950 5) 5 = 30950 :=
  ⟨by decide, by decide, by decide,
    (c8_score_tt_roundtrip 30950 5 (by decide) (by decide) (by decide)).1⟩

/-! ## C9: table-resize clamping -/

/-- C9 counterexample: `PawnHashTable::resize(512)` selects capacity
512, not at least 1024 — the claimed 1024 clamp does not exist in
pawn_hash.cpp. -/
theorem c9_counterexample :
    pawn_hash_resize_size 512 = 512 ∧ pawn_hash_resize_size 512 < 1024 := by
  constructor <;> decide

/-- The doubling loop of `PawnHashTable::resize` computes the least
power of two that is ≥ `entries` and ≥ the running size. -/
theorem pawn_resize_go_spec (fuel size entries k0 : Nat)
    (hsz : size = 2 ^ k0) (hfuel : entries ≤ size * 2 ^ fuel) :
    ∃ k, pawn_resize_go fuel size entries = 2 ^ k ∧ entries ≤ 2 ^ k ∧ size ≤ 2 ^ k
      ∧ ∀ j, size ≤ 2 ^ j → entries ≤ 2 ^ j → 2 ^ k ≤ 2 ^ j := by
  induction fuel generalizing size k0 with
  | zero =>
    refine ⟨k0, by simp [pawn_resize_go, hsz], ?_, by simp [hsz], ?_⟩
    · simpa [hsz] using hfuel
    · intro j hj _
      simpa [hsz] using hj
  | succ n ih =>
    by_cases h : size < entries
    · have hrec : entries ≤ size * 2 * 2 ^ n := by
        calc entries ≤ size * 2 ^ (n + 1) := hfuel
          _ = size * 2 * 2 ^ n := by ring
      obtain ⟨k, hk, he, hs, hmin⟩ := ih (size * 2) (k0 + 1) (by rw [hsz]; ring) hrec
      refine ⟨k, by simpa [pawn_resize_go, h] using hk, he, ?_, ?_⟩
      · omega
      · intro j hj hje
        have hj2 : size * 2 ≤ 2 ^ j := by
          have h1 : 2 ^ k0 < 2 ^ j := by omega
          have h2 : k0 < j := (pow_lt_pow_iff_right₀ (by norm_num)).mp h1
          have h3 : 2 ^ (k0 + 1) ≤ 2 ^ j := Nat.pow_le_pow_right (by norm_num) h2
          rw [hsz]
          calc 2 ^ k0 * 2 = 2 ^ (k0 + 1) := by ring
            _ ≤ 2 ^ j := h3
        exact hmin j hj2 hje
    · refine ⟨k0, ?_, by omega, by simp [hsz], ?_⟩
      · show (if size < entries then pawn_resize_go n (size * 2) entries else size) = 2 ^ k0
        rw [if_neg h]
        exact hsz
      · intro j hj _
        simpa [hsz] using hj

/-- C9 amended: `TranspositionTable::resize_mb` treats `mb` as at
least 1 (so at least the entry count of a 1 MiB table, 43690 entries);
`PawnHashTable::resize(entries)` selects the least power of two that
is ≥ `entries`, with a minimum of 1 — requests below 1024 are NOT
clamped to 1024. -/
theorem c9_amended :
    (∀ mb, tt_resize_entry_count mb = tt_resize_entry_count (max mb 1)
      ∧ 43690 ≤ tt_resize_entry_count mb)
    ∧ (∀ entries, ∃ k, pawn_hash_resize_size entries = 2 ^ k ∧ entries ≤ 2 ^ k
        ∧ ∀ j, entries ≤ 2 ^ j → 2 ^ k ≤ 2 ^ j) := by
  constructor
  · intro mb
    constructor
    · unfold tt_resize_entry_count
      simp [Nat.max_comm, Nat.max_assoc]
    · show 43690 ≤ max (max mb 1 * 1024 * 1024 / TT_ENTRY_BYTES) 1
      have h1 : 1048576 ≤ max mb 1 * 1024 * 1024 := by
        have h0 : 1 ≤ max mb 1 := le_max_right mb 1
        nlinarith
      have h2 : 43690 ≤ max mb 1 * 1024 * 1024 / TT_ENTRY_BYTES := by
        calc 43690 = 1048576 / 24 := by norm_num
          _ ≤ max mb 1 * 1024 * 1024 / 24 := Nat.div_le_div_right h1
      exact le_trans h2 (le_max_left _ _)
  · intro entries
    have h2 : entries ≤ 1 * 2 ^ (entries + 1) := by
      have := Nat.lt_two_pow entries
      have h3 : (2 : Nat) ^ entries ≤ 2 ^ (entries + 1) := Nat.pow_le_pow_right (by norm_num) (by omega)
      omega
    obtain ⟨k, hk, he, _, hmin⟩ := pawn_resize_go_spec (entries + 1) 1 entries 0 (by norm_num) h2
    exact ⟨k, hk, he, fun j hj => hmin j (Nat.one_le_two_pow) hj⟩

/-- Witness for C9 amended: at mb = 0 the TT entry count equals that of
1 MiB, and resize(512) stays within 2^9 = 512. -/
theorem c9_amended_witness :
    tt_resize_entry_count 0 = tt_resize_entry_count 1
    ∧ pawn_hash_resize_size 512 ≤ 2 ^ 9 := by
  constructor
  · have h := (c9_amended.1 0).1
    simpa using h
  · obtain ⟨k, hk, _, hmin⟩ := c9_amended.2 512
    rw [hk]
    exact hmin 9 (by norm_num)

/-! ## C5: null-move round trip (spec-modelled) -/

/-- C5: `make_null_move; unmake_null_move` restores the Zobrist key,
pawn key, en-passant square, halfmove clock, and fullmove number;
`make_null_move` toggles the side to move, clears the ep square, and
pushes a state-info entry flagged `is_null` with empty moved/captured
piece fields.  (The null-move bodies are modelled from the spec, their
definitions being absent from src/.) -/
theorem c5_null_move_roundtrip (pos : Position) :
    (unmake_null_move (make_null_move pos)).key = pos.key
    ∧ (unmake_null_move (make_null_move pos)).pawn_key = pos.pawn_key
    ∧ (unmake_null_move (make_null_move pos)).ep_square = pos.ep_square
    ∧ (unmake_null_move (make_null_move pos)).halfmove_clock = pos.halfmove_clock
    ∧ (unmake_null_move (make_null_move pos)).fullmove_number = pos.fullmove_number
    ∧ (unmake_null_move (make_null_move pos)).side_to_move = pos.side_to_move
    ∧ (make_null_move pos).side_to_move = pos.side_to_move ^^^ 1
    ∧ (make_null_move pos).ep_square = SQ_NONE
    ∧ (∃ st, (make_null_move pos).history = st :: pos.history ∧ st.is_null = true
        ∧ st.moved_piece = NO_PIECE ∧ st.captured_piece = NO_PIECE) := by
  refine ⟨rfl, rfl, rfl, rfl, rfl, ?_, rfl, rfl, ⟨_, rfl, rfl, rfl, rfl⟩⟩
  show pos.side_to_move ^^^ 1 ^^^ 1 = pos.side_to_move
  simp [Nat.xor_assoc]

/-! ## C1 / C2 / C3 / C10 concrete evaluations -/

/-- C1 counterexample: from the start position, the raw move e1→e2
with no flags is accepted by `make_move` (the source never checks the
movement pattern), yet `make_move; unmake_move` loses the pawn that was
on e2: the round trip is not the identity for every accepted move. -/
theorem c1_counterexample :
    set_from_fen zeroTables CHESS_STARTPOS_FEN = some startpos
    ∧ (make_move zeroTables startpos (mk_move 4 12 0 0)).1 = true
    ∧ (unmake_move zeroTables (make_move zeroTables startpos (mk_move 4 12 0 0)).2).board 12
        ≠ startpos.board 12 := by
  refine ⟨rfl, by decide, by decide⟩

/-- C3: `make_move` on the pseudo-move e2→e4 carrying the capture flag
(empty target) returns false, but the "restore" path runs
`unmake_move` before the side was toggled: the side to move flips and
the white pawn bitboard is corrupted — the position is NOT left
unchanged on failure, and the failure is not a king-in-check
rejection. -/
theorem c3_failed_make_corrupts :
    set_from_fen zeroTables CHESS_STARTPOS_FEN = some startpos
    ∧ (make_move zeroTables startpos (mk_move 12 28 FLAG_CAPTURE 0)).1 = false
    ∧ (make_move zeroTables startpos (mk_move 12 28 FLAG_CAPTURE 0)).2.side_to_move
        ≠ startpos.side_to_move
    ∧ (make_move zeroTables startpos (mk_move 12 28 FLAG_CAPTURE 0)).2.pieces WHITE PAWN
        ≠ startpos.pieces WHITE PAWN := by
  refine ⟨rfl, by decide, by decide, by decide⟩

/-- C2: after the same failed `make_move`, the incrementally maintained
key no longer equals `compute_full_key` (the side flipped without the
side key): the invariant fails after a make_move/unmake_move call
sequence. -/
theorem c2_key_invariant_broken :
    set_from_fen zeroTables CHESS_STARTPOS_FEN = some startpos
    ∧ startpos.key = compute_full_key startpos
    ∧ (make_move zeroTables startpos (mk_move 12 28 FLAG_CAPTURE 0)).2.key
        ≠ compute_full_key (make_move zeroTables startpos (mk_move 12 28 FLAG_CAPTURE 0)).2 := by
  refine ⟨rfl, by decide, by decide⟩

/-- C10: `set_from_fen` accepts a position with 280 pseudo-legal moves,
so `generate_pseudo_legal` overruns the 256-slot `MoveList::push`
buffer of move.h. -/
theorem c10_movelist_overflow :
    set_from_fen zeroTables ring_fen = some ring_pos
    ∧ (generate_pseudo_legal ring_pos).length = 280
    ∧ 256 < (generate_pseudo_legal ring_pos).length := by
  refine ⟨rfl, by decide, by decide⟩

/-- C6 counterexample: with no ordering context, a plain (non-capture)
promotion scores `0 + 0 + 0·16 − 100 = −100 < 0`, yet the good-capture
stage yields it (first, by the raw-value tie-break): the good stage is
not "exactly the captures and promotions with score ≥ 0". -/
theorem c6_counterexample :
    set_from_fen zeroTables promo_fen = some promo_pos
    ∧ (picker_seq promo_pos Move.none true Option.none).head?
        = some (mk_move 52 60 0 KNIGHT, 1)
    ∧ capture_score promo_pos (mk_move 52 60 0 KNIGHT) Option.none = -100
    ∧ (mk_move 52 60 0 KNIGHT).is_capture = false
    ∧ (mk_move 52 60 0 KNIGHT).is_promotion = true := by
  refine ⟨rfl, by decide, by decide, by decide, by decide⟩

/-! ## C7: TimeManager maximum budget -/

/-- C7 counterexample: wtime 10000, movestogo 40, overhead 30 (white,
no movetime, not infinite): available = 9770, base = 244, optimum =
244, and the code computes maximum = min(9770, max(244, 244·3)) = 732,
while the claim's formula min(available, max(optimum·3, base·6)) gives
1464 — the `base·6` term does not exist in the movestogo branch of the
source. -/
theorem c7_counterexample :
    (tm_init { wtime_ms := 10000, movestogo := 40, move_overhead_ms := 30 } WHITE).maximum_time_ms
      = 732
    ∧ spec_maximum_budget { wtime_ms := 10000, movestogo := 40, move_overhead_ms := 30 } WHITE
      = 1464
    ∧ (tm_init { wtime_ms := 10000, movestogo := 40, move_overhead_ms := 30 } WHITE).maximum_time_ms
      ≠ spec_maximum_budget { wtime_ms := 10000, movestogo := 40, move_overhead_ms := 30 } WHITE := by
  refine ⟨by decide, by decide, by decide⟩

/-- C7 amended: under positive remaining clock time (no fixed
movetime, not infinite/ponder, and outside emergency mode), the
maximum budget is `min(available, optimum·3)` when movestogo > 0 (no
`base·6` term), and `min(available, max(optimum·4, base·6))` when
movestogo = 0, with base = available / horizon; `optimum` is
`base + increment/2` clamped to [1, TIME_INF] and to available. -/
theorem c7_amended (L : SearchLimits) (us : Nat)
    (hinf : L.infinite = false) (hpond : L.ponder = false)
    (hfix : L.movetime_ms ≤ 0)
    (htl : 0 < (if us = WHITE then L.wtime_ms else L.btime_ms))
    (hemer : (max 0 L.move_overhead_ms) * 3 + 80 < (if us = WHITE then L.wtime_ms else L.btime_ms)) :
    (tm_init L us).maximum_time_ms =
      (if 0 < L.movestogo then
         min (tm_init L us).available_ms (3 * (tm_init L us).optimum_time_ms)
       else
         min (tm_init L us).available_ms
           (max (4 * (tm_init L us).optimum_time_ms)
             (6 * Int.tdiv (tm_init L us).available_ms
               (max 1 (min (max (20 + Int.tdiv (if us = WHITE then L.wtime_ms else L.btime_ms) 15000) 20) 40)))))
    ∧ 1 ≤ (tm_init L us).optimum_time_ms
    ∧ (tm_init L us).optimum_time_ms ≤ (tm_init L us).available_ms := by
  have hnio : ¬ (L.infinite = true ∨ L.ponder = true) := by
    simp [hinf, hpond]
  have hnfix : ¬ (L.movetime_ms > 0) := by omega
  have hnem :
      ¬ ((if us = WHITE then L.wtime_ms else L.btime_ms) ≤ (max 0 L.move_overhead_ms) * 3 + 80) := by
    omega
  unfold tm_init
  rw [if_neg hnio, if_neg hnfix, if_pos htl]
  simp only [if_neg hnem]
  have hm_iff : (L.movestogo > 0) = (0 < L.movestogo) := rfl
  by_cases hm : 0 < L.movestogo
  · simp only [hm_iff, if_pos hm]
    have hbase0 : 0 ≤ Int.tdiv
        (clamp_ms ((if us = WHITE then L.wtime_ms else L.btime_ms) - max 0 L.move_overhead_ms
          - max 20 (Int.tdiv (if us = WHITE then L.wtime_ms else L.btime_ms) 50)))
        (max 1 (min (max L.movestogo 1) 80)) := by
      refine Int.tdiv_nonneg ?_ (by omega)
      unfold clamp_ms
      omega
    refine ⟨?_, ?_, ?_⟩ <;> (unfold clamp_ms at *; omega)
  · simp only [hm_iff, if_neg hm]
    have hbase0 : 0 ≤ Int.tdiv
        (clamp_ms ((if us = WHITE then L.wtime_ms else L.btime_ms) - max 0 L.move_overhead_ms
          - max 40 (Int.tdiv (if us = WHITE then L.wtime_ms else L.btime_ms) 25)))
        (max 1 (min (max (20 + Int.tdiv (if us = WHITE then L.wtime_ms else L.btime_ms) 15000) 20) 40)) := by
      refine Int.tdiv_nonneg ?_ (by omega)
      unfold clamp_ms
      omega
    refine ⟨?_, ?_, ?_⟩ <;> (unfold clamp_ms at *; omega)

/-- Witness for C7 amended at wtime 10000, movestogo 40, overhead 30. -/
theorem c7_amended_witness :
    ({ wtime_ms := 10000, movestogo := 40, move_overhead_ms := 30 : SearchLimits}.infinite = false)
    ∧ (tm_init { wtime_ms := 10000, movestogo := 40, move_overhead_ms := 30 } WHITE).maximum_time_ms
      = min (tm_init { wtime_ms := 10000, movestogo := 40, move_overhead_ms := 30 } WHITE).available_ms
          (3 * (tm_init { wtime_ms := 10000, movestogo := 40, move_overhead_ms := 30 } WHITE).optimum_time_ms) := by
  refine ⟨rfl, ?_⟩
  have h := (c7_amended { wtime_ms := 10000, movestogo := 40, move_overhead_ms := 30 } WHITE
    rfl rfl (by decide) (by decide) (by decide)).1
  simpa using h

/-! ## C4: no-legal-move scores -/

/-- When every move the picker yields is rejected by `make_move`, the
search_node move loop performs no state change and no early return. -/
theorem sn_loop_all_illegal (C : SearchCtx) (pos : Position) (depth beta : Int) (ply : Nat)
    (is_pv in_chk : Bool) (static_eval : Int) (us : Nat) (tt_move : Move) (tt_hit : Bool)
    (tt_depth : Int) (tt_bound : Nat) (tt_score : Int) (ctx : Option QuietOrderContext)
    (moves : List (Move × Nat)) (st : LoopState)
    (hfail : ∀ p ∈ moves, (make_move C.T pos p.1).1 = false) :
    sn_loop C pos depth beta ply is_pv in_chk static_eval us tt_move tt_hit tt_depth tt_bound
      tt_score ctx moves st = Sum.inr st := by
  induction moves with
  | nil => rfl
  | cons p rest ih =>
    obtain ⟨m, ph⟩ := p
    have h0 : (make_move C.T pos m).1 = false := hfail (m, ph) (List.mem_cons_self _ _)
    have hrest : ∀ q ∈ rest, (make_move C.T pos q.1).1 = false := fun q hq =>
      hfail q (List.mem_cons_of_mem _ hq)
    rcases hmk : make_move C.T pos m with ⟨b, p2⟩
    have hb : b = false := by rw [hmk] at h0; exact h0
    subst hb
    simp only [sn_loop, hmk]
    rw [ite_self]
    exact ih hrest

/-- When every move the picker yields is rejected by `make_move`, the
qsearch capture loop leaves alpha and the legal counter untouched. -/
theorem qsearch_loop_all_illegal (C : SearchCtx) (qrec : Position → Int → Int → Nat → Int)
    (pos : Position) (beta : Int) (ply : Nat) (in_chk : Bool) (stand_pat : Int)
    (moves : List (Move × Nat)) (alpha : Int) (legal : Nat)
    (hfail : ∀ p ∈ moves, (make_move C.T pos p.1).1 = false) :
    qsearch_loop C qrec pos beta ply in_chk stand_pat moves alpha legal
      = Sum.inr (alpha, legal) := by
  induction moves with
  | nil => rfl
  | cons p rest ih =>
    obtain ⟨m, ph⟩ := p
    have h0 : (make_move C.T pos m).1 = false := hfail (m, ph) (List.mem_cons_self _ _)
    have hrest : ∀ q ∈ rest, (make_move C.T pos q.1).1 = false := fun q hq =>
      hfail q (List.mem_cons_of_mem _ hq)
    rcases hmk : make_move C.T pos m with ⟨b, p2⟩
    have hb : b = false := by rw [hmk] at h0; exact h0
    subst hb
    simp only [qsearch_loop, hmk]
    split
    · exact ih hrest
    · split
      · exact ih hrest
      · exact ih hrest

/-- C4: when the search_node move loop runs and finds no legal move
(here: every picker move is rejected by make_move), the node scores
`-VALUE_MATE + ply` in check and 0 (draw) otherwise; likewise a
quiescence node that is in check, not stopped and not drawn, with no
legal move, scores `-VALUE_MATE + ply`. -/
theorem c4_no_legal_move_scores :
    (∀ (C : SearchCtx) (pos : Position) (depth alpha beta : Int) (ply : Nat) (is_pv : Bool)
        (static_eval : Int) (tt_move : Move) (tt_hit : Bool) (tt_depth : Int) (tt_bound : Nat)
        (tt_score : Int) (ctx : Option QuietOrderContext),
      (∀ p ∈ picker_seq pos tt_move false ctx, (make_move C.T pos p.1).1 = false) →
      search_node_from_move_loop C pos depth alpha beta ply is_pv static_eval tt_move tt_hit
          tt_depth tt_bound tt_score ctx
        = if in_check pos pos.side_to_move then -VALUE_MATE + (ply : Int) else 0)
    ∧ (∀ (C : SearchCtx) (fuel : Nat) (pos : Position) (alpha beta : Int) (ply : Nat),
      C.stop = false → is_draw pos = false → in_check pos pos.side_to_move = true →
      (∀ p ∈ picker_seq pos Move.none false Option.none, (make_move C.T pos p.1).1 = false) →
      qsearch C (fuel + 1) pos alpha beta ply = -VALUE_MATE + (ply : Int)) := by
  constructor
  · intro C pos depth alpha beta ply is_pv static_eval tt_move tt_hit tt_depth tt_bound
      tt_score ctx hfail
    simp only [search_node_from_move_loop]
    rw [sn_loop_all_illegal C pos depth beta ply is_pv (in_check pos pos.side_to_move)
      static_eval pos.side_to_move tt_move tt_hit tt_depth tt_bound tt_score ctx
      (picker_seq pos tt_move false ctx)
      ⟨alpha, -VALUE_INFINITE, Move.none, 0, 0⟩ hfail]
    rfl
  · intro C fuel pos alpha beta ply hstop hdraw hchk hfail
    simp only [qsearch, hstop, hdraw, hchk]
    simp only [Bool.false_eq_true, if_false, not_true, false_and, if_neg (by simp : ¬ (False ∧ alpha ≥ beta))]
    rw [qsearch_loop_all_illegal C _ pos beta ply _ _ _ alpha 0 (by simpa [hchk] using hfail)]
    simp

/-- An arbitrary concrete configuration for the C4 witness (the
theorem holds for every configuration). -/
def witness_cfg : SearchConfig where
  use_history := true
  use_cont_history := true
  use_lmr := true
  use_see := true
  use_qdelta := true
  use_futility := true
  use_lmp := true
  use_history_pruning := true
  use_singular := true
  cont_history_2ply_divisor := 4
  lmr_min_depth := 2
  lmr_full_depth_moves := 2
  lmr_history_threshold := 3426
  futility_max_depth := 6
  futility_margin_base_cp := 80
  futility_margin_per_depth_cp := 60
  zugzwang_non_pawn_material_cp := 500
  lmp_max_depth := 4
  lmp_d1 := 6
  lmp_d2 := 10
  lmp_d3 := 16
  lmp_d4 := 24
  histprune_max_depth := 3
  histprune_min_moves := 4
  histprune_threshold_cp := -2000
  singular_min_depth := 7
  singular_margin_cp := 60
  singular_reduction := 3
  max_extensions_per_pv_line := 6
  q_delta_margin_cp := 120
  see_q_threshold_cp := -30

def witness_ctx : SearchCtx where
  T := zeroTables
  cfg := witness_cfg
  history := fun _ => 0
  cont_history := fun _ => 0
  lmr_table := fun _ => 0
  stack := fun _ => {}
  stop := false
  eval := fun _ => 0
  child := fun _ _ _ _ _ _ => 0

/-- Witness for C4: on the checkmate position the loop returns
`-VALUE_MATE + ply`, on the stalemate position 0, and an in-check
quiescence node with no legal move returns `-VALUE_MATE + ply`. -/
theorem c4_no_legal_move_scores_witness :
    in_check mate_pos mate_pos.side_to_move = true
    ∧ is_draw mate_pos = false
    ∧ search_node_from_move_loop witness_ctx mate_pos 3 (-100) 100 0 true 0 Move.none false
        (-1) 0 0 Option.none = -VALUE_MATE + ((0 : Nat) : Int)
    ∧ qsearch witness_ctx 2 mate_pos (-100) 100 0 = -VALUE_MATE + ((0 : Nat) : Int)
    ∧ in_check stale_pos stale_pos.side_to_move = false
    ∧ search_node_from_move_loop witness_ctx stale_pos 3 (-100) 100 0 true 0 Move.none false
        (-1) 0 0 Option.none = 0 := by
  refine ⟨by decide, by decide, ?_, ?_, by decide, ?_⟩
  · rw [c4_no_legal_move_scores.1 witness_ctx mate_pos 3 (-100) 100 0 true 0 Move.none false
      (-1) 0 0 Option.none (by decide)]
    decide
  · exact c4_no_legal_move_scores.2 witness_ctx 1 mate_pos (-100) 100 0 rfl (by decide)
      (by decide) (by decide)
  · rw [c4_no_legal_move_scores.1 witness_ctx stale_pos 3 (-100) 100 0 true 0 Move.none false
      (-1) 0 0 Option.none (by decide)]
    decide

/-! ## C6: MovePicker bucket characterization -/

/-- A move passes the TT-move skip of the picker constructor. -/
def mp_not_tt (tt_move m : Move) : Bool := !((!tt_move.is_none) && decide (m = tt_move))

/-- Routed to the good-capture bucket: capture or promotion with
`score ≥ 0 || is_promotion`. -/
def routes_good (pos : Position) (tt_move : Move) (ctx : Option QuietOrderContext)
    (m : Move) : Bool :=
  mp_not_tt tt_move m && (m.is_capture || m.is_promotion)
    && (decide (0 ≤ capture_score pos m ctx) || m.is_promotion)

/-- Routed to the bad-capture bucket: capture or promotion failing
`score ≥ 0 || is_promotion`. -/
def routes_bad (pos : Position) (tt_move : Move) (ctx : Option QuietOrderContext)
    (m : Move) : Bool :=
  mp_not_tt tt_move m && (m.is_capture || m.is_promotion)
    && !(decide (0 ≤ capture_score pos m ctx) || m.is_promotion)

/-- Routed to the quiet bucket: neither capture nor promotion, kept
only outside qsearch-only mode. -/
def routes_quiet (tt_move : Move) (qonly : Bool) (m : Move) : Bool :=
  mp_not_tt tt_move m && !(m.is_capture || m.is_promotion) && !qonly

/-- The constructor fold routes every generated move into exactly the
bucket selected by its `routes_*` predicate, preserving order. -/
theorem picker_init_go_spec (pos : Position) (tt : Move) (qonly : Bool)
    (ctx : Option QuietOrderContext) (l : List Move) (st : PickerState) :
    (l.foldl (picker_init_step pos tt qonly ctx) st).good_captures
      = st.good_captures
        ++ (l.filter (routes_good pos tt ctx)).map (fun m => ⟨m, capture_score pos m ctx⟩)
    ∧ (l.foldl (picker_init_step pos tt qonly ctx) st).bad_captures
      = st.bad_captures
        ++ (l.filter (routes_bad pos tt ctx)).map (fun m => ⟨m, capture_score pos m ctx⟩)
    ∧ (l.foldl (picker_init_step pos tt qonly ctx) st).quiets
      = st.quiets
        ++ (l.filter (routes_quiet tt qonly)).map (fun m => ⟨m, mp_quiet_score pos m ctx⟩) := by
  induction l generalizing st with
  | nil => simp
  | cons m l ih =>
    simp only [List.foldl_cons, List.filter_cons]
    by_cases h1 : ¬ tt.is_none = true ∧ m = tt
    · have hstep : picker_init_step pos tt qonly ctx st m = st := by
        unfold picker_init_step
        rw [if_pos h1]
      have hng : routes_good pos tt ctx m = false := by
        unfold routes_good mp_not_tt
        simp [h1.1, h1.2]
      have hnb : routes_bad pos tt ctx m = false := by
        unfold routes_bad mp_not_tt
        simp [h1.1, h1.2]
      have hnq : routes_quiet tt qonly m = false := by
        unfold routes_quiet mp_not_tt
        simp [h1.1, h1.2]
      rw [hstep]
      simp only [hng, hnb, hnq, Bool.false_eq_true, if_false]
      exact ih st
    · have hnt : mp_not_tt tt m = true := by
        unfold mp_not_tt
        rcases Bool.eq_false_or_eq_true tt.is_none with h | h <;> simp [h] at h1 ⊢
        · intro hm
          exact h1 hm
      by_cases h2 : (m.is_capture || m.is_promotion) = true
      · by_cases h3 : capture_score pos m ctx ≥ 0 ∨ m.is_promotion = true
        · have hstep : picker_init_step pos tt qonly ctx st m
              = { st with good_captures := st.good_captures ++ [⟨m, capture_score pos m ctx⟩] } := by
            simp only [picker_init_step]
            rw [if_neg h1, if_neg (by simp [h2]), if_pos h2, if_pos h3]
          have hg : routes_good pos tt ctx m = true := by
            unfold routes_good
            rcases h3 with h3 | h3 <;> simp [hnt, h2, h3]
          have hb : routes_bad pos tt ctx m = false := by
            unfold routes_bad
            rcases h3 with h3 | h3 <;> simp [h3]
          have hq : routes_quiet tt qonly m = false := by
            unfold routes_quiet
            simp [h2]
          rw [hstep]
          obtain ⟨ihg, ihb, ihq⟩ :=
            ih { st with good_captures := st.good_captures ++ [⟨m, capture_score pos m ctx⟩] }
          rw [ihg, ihb, ihq]
          simp [hg, hb, hq]
        · have hstep : picker_init_step pos tt qonly ctx st m
              = { st with bad_captures := st.bad_captures ++ [⟨m, capture_score pos m ctx⟩] } := by
            simp only [picker_init_step]
            rw [if_neg h1, if_neg (by simp [h2]), if_pos h2, if_neg h3]
          have hp : m.is_promotion = false := by
            rcases Bool.eq_false_or_eq_true m.is_promotion with h | h
            · exact absurd (Or.inr h) h3
            · exact h
          have hsc : ¬ (0 ≤ capture_score pos m ctx) := fun hc => h3 (Or.inl hc)
          have h2c : m.is_capture = true := by simpa [hp] using h2
          have hg : routes_good pos tt ctx m = false := by
            unfold routes_good
            simp [hp, hsc]
          have hb : routes_bad pos tt ctx m = true := by
            unfold routes_bad
            simp [hnt, h2c, hp, hsc]
          have hq : routes_quiet tt qonly m = false := by
            unfold routes_quiet
            simp [h2]
          rw [hstep]
          obtain ⟨ihg, ihb, ihq⟩ :=
            ih { st with bad_captures := st.bad_captures ++ [⟨m, capture_score pos m ctx⟩] }
          rw [ihg, ihb, ihq]
          simp [hg, hb, hq]
      · have h2f : (m.is_capture || m.is_promotion) = false := by
          simpa using h2
        have hg : routes_good pos tt ctx m = false := by
          unfold routes_good
          simp [h2f]
        have hb : routes_bad pos tt ctx m = false := by
          unfold routes_bad
          simp [h2f]
        by_cases h4 : qonly = true
        · have hstep : picker_init_step pos tt qonly ctx st m = st := by
            simp only [picker_init_step]
            rw [if_neg h1, if_pos (by simp [h2f, h4])]
          have hq : routes_quiet tt qonly m = false := by
            unfold routes_quiet
            simp [h4]
          rw [hstep]
          simp only [hg, hb, hq, Bool.false_eq_true, if_false]
          exact ih st
        · have h4f : qonly = false := by simpa using h4
          have hstep : picker_init_step pos tt qonly ctx st m
              = { st with quiets := st.quiets ++ [⟨m, mp_quiet_score pos m ctx⟩] } := by
            simp only [picker_init_step]
            rw [if_neg h1, if_neg (by simp [h4f]), if_neg (by simp [h2f])]
          have hq : routes_quiet tt qonly m = true := by
            unfold routes_quiet
            simp [hnt, h2f, h4f]
          rw [hstep]
          obtain ⟨ihg, ihb, ihq⟩ :=
            ih { st with quiets := st.quiets ++ [⟨m, mp_quiet_score pos m ctx⟩] }
          rw [ihg, ihb, ihq]
          simp [hg, hb, hq]

/-- C6 amended: among the generated pseudo-legal moves (TT move
excluded), the good-capture bucket holds exactly the captures and
promotions with capture score ≥ 0 OR that are promotions (so a
negative-scored promotion is still served by the good stage), and the
bad-capture bucket exactly the non-promotion captures with score < 0 —
each paired with its capture score, in generation order. -/
theorem c6_amended (pos : Position) (tt_move : Move) (qonly : Bool)
    (ctx : Option QuietOrderContext) :
    (picker_init pos tt_move qonly ctx).good_captures
      = ((generate_pseudo_legal pos).filter (routes_good pos tt_move ctx)).map
          (fun m => ⟨m, capture_score pos m ctx⟩)
    ∧ (picker_init pos tt_move qonly ctx).bad_captures
      = ((generate_pseudo_legal pos).filter (routes_bad pos tt_move ctx)).map
          (fun m => ⟨m, capture_score pos m ctx⟩)
    ∧ (picker_init pos tt_move qonly ctx).quiets
      = ((generate_pseudo_legal pos).filter (routes_quiet tt_move qonly)).map
          (fun m => ⟨m, mp_quiet_score pos m ctx⟩) := by
  have h := picker_init_go_spec pos tt_move qonly ctx (generate_pseudo_legal pos)
    { tt_move := tt_move, qsearch_only := qonly, tt_done := false,
      good_captures := [], quiets := [], bad_captures := [] }
  simpa [picker_init] using h

/-! ## C1 toolkit: pointwise updates, 64-bit masks, xor cancellation -/

theorem upd_same {α : Type} (f : Nat → α) (i : Nat) (v : α) : upd f i v i = v := by
  simp [upd]

theorem upd_other {α : Type} (f : Nat → α) (i : Nat) (v : α) {j : Nat} (h : j ≠ i) :
    upd f i v j = f j := by
  simp [upd, h]

theorem upd_collapse {α : Type} (f : Nat → α) (i : Nat) (v w : α) :
    upd (upd f i v) i w = upd f i w := by
  funext j; by_cases h : j = i <;> simp [upd, h]

theorem upd_id {α : Type} (f : Nat → α) (i : Nat) (v : α) (h : v = f i) : upd f i v = f := by
  funext j; by_cases hj : j = i <;> simp [upd, hj, h]

theorem xor_cancel_right (a m : Nat) : a ^^^ m ^^^ m = a := by
  rw [Nat.xor_assoc, Nat.xor_self, Nat.xor_zero]

theorem xor4_cancel (a x y : Nat) : a ^^^ x ^^^ y ^^^ x ^^^ y = a := by
  have h1 : a ^^^ x ^^^ y ^^^ x = a ^^^ y := by
    rw [Nat.xor_assoc (a ^^^ x), Nat.xor_comm y x, ← Nat.xor_assoc (a ^^^ x), xor_cancel_right]
  rw [h1, xor_cancel_right]

theorem color_of_lt_two (pc : Nat) : color_of pc < 2 := by
  unfold color_of; split <;> omega

theorem color_of_ne_two (pc : Nat) : color_of pc ≠ 2 := by
  have := color_of_lt_two pc; omega

theorem bb_from_eq_pow (sq : Nat) : bb_from sq = 2 ^ sq := by
  simp [bb_from, Nat.shiftLeft_eq]

theorem bb_from_lt (sq : Nat) (h : sq < 64) : bb_from sq < 2 ^ 64 := by
  rw [bb_from_eq_pow]
  exact Nat.pow_lt_pow_right (by norm_num) h

theorem testBit_bb_from (sq i : Nat) : (bb_from sq).testBit i = decide (sq = i) := by
  rw [bb_from_eq_pow, Nat.testBit_two_pow]

theorem testBit_compl64 (b i : Nat) :
    (compl64 b).testBit i = ((decide (i < 64)).xor (b.testBit i)) := by
  rw [compl64, Nat.testBit_xor, MASK64, Nat.testBit_two_pow_sub_one]

theorem testBit_ge_64 (b i : Nat) (hb : b < 2 ^ 64) (hi : 64 ≤ i) : b.testBit i = false := by
  apply Nat.testBit_lt_two_pow
  exact lt_of_lt_of_le hb (Nat.pow_le_pow_right (by norm_num) hi)

/-- Clearing a set bit and or-ing it back restores a 64-bit word. -/
theorem and_compl_or_restore (b sq : Nat) (hb : b < 2 ^ 64) (hsq : sq < 64)
    (hbit : b.testBit sq = true) : (b &&& compl64 (bb_from sq)) ||| bb_from sq = b := by
  apply Nat.eq_of_testBit_eq; intro i
  rw [Nat.testBit_lor, Nat.testBit_land, testBit_compl64, testBit_bb_from]
  by_cases hi : sq = i
  · subst hi; simp [hbit]
  · by_cases hlt : i < 64
    · simp [hi, hlt]
    · rw [testBit_ge_64 b i hb (by omega)]; simp [hi, hlt]

/-- Or-ing in a clear bit and clearing it again restores a 64-bit word. -/
theorem or_and_compl_restore (b sq : Nat) (hb : b < 2 ^ 64) (hsq : sq < 64)
    (hbit : b.testBit sq = false) : (b ||| bb_from sq) &&& compl64 (bb_from sq) = b := by
  apply Nat.eq_of_testBit_eq; intro i
  rw [Nat.testBit_land, Nat.testBit_lor, testBit_compl64, testBit_bb_from]
  by_cases hi : sq = i
  · subst hi; simp [hbit, hsq]
  · by_cases hlt : i < 64
    · simp [hi, hlt]
    · rw [testBit_ge_64 b i hb (by omega)]; simp [hi, hlt]

/-- The four incrementally-maintained board-representation fields that the
piece-update primitives act on (`unmake_move` restores every other field
directly from the `StateInfo` snapshot). -/
def CoreEq (p q : Position) : Prop :=
  p.piece_bb = q.piece_bb ∧ p.occupancy = q.occupancy ∧ p.board = q.board ∧
    p.king_square = q.king_square

theorem coreEq_refl (p : Position) : CoreEq p p := ⟨rfl, rfl, rfl, rfl⟩

theorem coreEq_trans {p q r : Position} (h1 : CoreEq p q) (h2 : CoreEq q r) : CoreEq p r := by
  obtain ⟨a1, b1, c1, d1⟩ := h1; obtain ⟨a2, b2, c2, d2⟩ := h2
  exact ⟨a1.trans a2, b1.trans b2, c1.trans c2, d1.trans d2⟩

/-- The core fields of `add_piece` depend only on the core fields of the input. -/
theorem add_piece_coreEq (T : EvalTables) (pc sq : Nat) {p q : Position} (h : CoreEq p q) :
    CoreEq (add_piece T pc sq p) (add_piece T pc sq q) := by
  obtain ⟨h1, h2, h3, h4⟩ := h
  refine ⟨?_, ?_, ?_, ?_⟩ <;> simp [add_piece, h1, h2, h3, h4]

theorem remove_piece_coreEq (T : EvalTables) (pc sq : Nat) {p q : Position} (h : CoreEq p q) :
    CoreEq (remove_piece T pc sq p) (remove_piece T pc sq q) := by
  obtain ⟨h1, h2, h3, h4⟩ := h
  refine ⟨?_, ?_, ?_, ?_⟩ <;> simp [remove_piece, h1, h2, h3, h4]

theorem move_piece_coreEq (T : EvalTables) (pc f t : Nat) {p q : Position} (h : CoreEq p q) :
    CoreEq (move_piece T pc f t p) (move_piece T pc f t q) := by
  obtain ⟨h1, h2, h3, h4⟩ := h
  refine ⟨?_, ?_, ?_, ?_⟩ <;> simp [move_piece, h1, h2, h3, h4]

/-- Moving a piece from `f` to an empty square `t` and back restores the
board-representation fields. -/
theorem rt_move_core (T : EvalTables) (pc f t : Nat) (p : Position)
    (hne : f ≠ t) (hbf : p.board f = pc) (hbt : p.board t = NO_PIECE)
    (hk : type_of pc = KING → p.king_square (color_of pc) = f) :
    CoreEq (move_piece T pc t f (move_piece T pc f t p)) p := by
  have hc2 : (2 : Nat) ≠ color_of pc := fun h => color_of_ne_two pc h.symm
  refine ⟨?_, ?_, ?_, ?_⟩
  · show upd _ _ _ = p.piece_bb
    simp only [move_piece, upd_same, upd_collapse]
    rw [Nat.lor_comm (bb_from t) (bb_from f), xor_cancel_right]
    exact upd_id _ _ _ rfl
  · show (fun j => _) = p.occupancy
    funext j
    simp only [move_piece, upd, hc2]
    by_cases hj2 : j = 2 <;> by_cases hjc : j = color_of pc <;>
      simp [hj2, hjc, hc2, color_of_ne_two pc, Nat.lor_comm (bb_from t) (bb_from f),
        xor_cancel_right, xor4_cancel]
  · show upd _ _ _ = p.board
    simp only [move_piece]
    funext j
    by_cases hjf : j = f
    · subst hjf; simp [upd, hne, hbf]
    · by_cases hjt : j = t
      · subst hjt; simp [upd, hjf, hbt]
      · simp [upd, hjf, hjt]
  · show _ = p.king_square
    simp only [move_piece]
    by_cases hkp : type_of pc = KING
    · simp only [if_pos hkp]
      rw [upd_collapse]
      exact upd_id _ _ _ (hk hkp).symm
    · simp [if_neg hkp]

/-- For a real piece code (1..12) the flat bitboard cell selected by
`(color_of, type_of)` is `pc - 1`. -/
theorem bb_idx_pred : ∀ pc : Nat, pc < 13 → 1 ≤ pc →
    bb_idx (color_of pc) (type_of pc) = pc - 1 := by decide

/-- Removing a piece from its square and adding it back restores the
board-representation fields. -/
theorem rt_remove_add_core (T : EvalTables) (pc sq : Nat) (p : Position)
    (hsq : sq < 64) (hb : p.board sq = pc)
    (hbb : p.piece_bb (bb_idx (color_of pc) (type_of pc)) < 2 ^ 64)
    (hbit : (p.piece_bb (bb_idx (color_of pc) (type_of pc))).testBit sq = true)
    (hoc : p.occupancy (color_of pc) < 2 ^ 64)
    (hocb : (p.occupancy (color_of pc)).testBit sq = true)
    (ho2 : p.occupancy 2 < 2 ^ 64)
    (ho2b : (p.occupancy 2).testBit sq = true)
    (hk : type_of pc = KING → p.king_square (color_of pc) = sq) :
    CoreEq (add_piece T pc sq (remove_piece T pc sq p)) p := by
  have hc2 : (2 : Nat) ≠ color_of pc := fun h => color_of_ne_two pc h.symm
  refine ⟨?_, ?_, ?_, ?_⟩
  · show upd _ _ _ = p.piece_bb
    simp only [add_piece, remove_piece, upd_same, upd_collapse]
    rw [and_compl_or_restore _ _ hbb hsq hbit]
    exact upd_id _ _ _ rfl
  · show (fun j => _) = p.occupancy
    funext j
    simp only [add_piece, remove_piece, upd, hc2]
    by_cases hj2 : j = 2 <;> by_cases hjc : j = color_of pc <;>
      simp [hj2, hjc, hc2, color_of_ne_two pc,
        and_compl_or_restore _ _ hoc hsq hocb, and_compl_or_restore _ _ ho2 hsq ho2b]
  · show upd _ _ _ = p.board
    simp only [add_piece, remove_piece, upd_collapse]
    exact upd_id _ _ _ hb.symm
  · show _ = p.king_square
    simp only [add_piece, remove_piece]
    by_cases hkp : type_of pc = KING
    · simp only [if_pos hkp]
      exact upd_id _ _ _ (hk hkp).symm
    · simp [if_neg hkp]

/-- Adding a (non-king) piece on an empty square and removing it again
restores the board-representation fields. -/
theorem rt_add_remove_core (T : EvalTables) (pc sq : Nat) (p : Position)
    (hsq : sq < 64) (hb : p.board sq = NO_PIECE)
    (hbb : p.piece_bb (bb_idx (color_of pc) (type_of pc)) < 2 ^ 64)
    (hbit : (p.piece_bb (bb_idx (color_of pc) (type_of pc))).testBit sq = false)
    (hoc : p.occupancy (color_of pc) < 2 ^ 64)
    (hocb : (p.occupancy (color_of pc)).testBit sq = false)
    (ho2 : p.occupancy 2 < 2 ^ 64)
    (ho2b : (p.occupancy 2).testBit sq = false)
    (hkt : type_of pc ≠ KING) :
    CoreEq (remove_piece T pc sq (add_piece T pc sq p)) p := by
  have hc2 : (2 : Nat) ≠ color_of pc := fun h => color_of_ne_two pc h.symm
  refine ⟨?_, ?_, ?_, ?_⟩
  · show upd _ _ _ = p.piece_bb
    simp only [remove_piece, add_piece, upd_same, upd_collapse]
    rw [or_and_compl_restore _ _ hbb hsq hbit]
    exact upd_id _ _ _ rfl
  · show (fun j => _) = p.occupancy
    funext j
    simp only [remove_piece, add_piece, upd, hc2]
    by_cases hj2 : j = 2 <;> by_cases hjc : j = color_of pc <;>
      simp [hj2, hjc, hc2, color_of_ne_two pc,
        or_and_compl_restore _ _ hoc hsq hocb, or_and_compl_restore _ _ ho2 hsq ho2b]
  · show upd _ _ _ = p.board
    simp only [remove_piece, add_piece, upd_collapse]
    exact upd_id _ _ _ hb.symm
  · show _ = p.king_square
    simp [remove_piece, add_piece, if_neg hkt]

/-- Castling round trip: king move then rook move, undone king-first as in
`unmake_move`, restores the board-representation fields.  `kpc`/`rpc` are the
king and rook piece codes, `ke → kt` and `re → rt'` their make-direction
squares. -/
theorem rt_castle_core (T : EvalTables) (kpc rpc ke kt re rt' : Nat) (p : Position)
    (hk1 : 1 ≤ kpc) (hk12 : kpc ≤ 12) (hr1 : 1 ≤ rpc) (hr12 : rpc ≤ 12)
    (hkr : kpc ≠ rpc)
    (hcol : color_of kpc = color_of rpc)
    (htk : type_of kpc = KING) (htr : type_of rpc ≠ KING)
    (hd1 : ke ≠ kt) (hd2 : ke ≠ re) (hd3 : ke ≠ rt') (hd4 : kt ≠ re) (hd5 : kt ≠ rt')
    (hd6 : re ≠ rt')
    (hbke : p.board ke = kpc) (hbkt : p.board kt = NO_PIECE)
    (hbre : p.board re = rpc) (hbrt : p.board rt' = NO_PIECE)
    (hks : p.king_square (color_of kpc) = ke) :
    CoreEq (move_piece T rpc rt' re (move_piece T kpc kt ke
      (move_piece T rpc re rt' (move_piece T kpc ke kt p)))) p := by
  have hc2 : (2 : Nat) ≠ color_of kpc := fun h => color_of_ne_two kpc h.symm
  have hidx : bb_idx (color_of kpc) (type_of kpc) ≠ bb_idx (color_of rpc) (type_of rpc) := by
    rw [bb_idx_pred kpc (by omega) hk1, bb_idx_pred rpc (by omega) hr1]
    omega
  refine ⟨?_, ?_, ?_, ?_⟩
  · show (fun j => _) = p.piece_bb
    funext j
    have hRK : bb_idx (color_of rpc) (type_of rpc) ≠ bb_idx (color_of kpc) (type_of kpc) :=
      Ne.symm hidx
    simp only [move_piece, upd]
    by_cases hjK : j = bb_idx (color_of kpc) (type_of kpc) <;>
      by_cases hjR : j = bb_idx (color_of rpc) (type_of rpc)
    · exact absurd (hjK.symm.trans hjR) hidx
    all_goals
      simp [hjK, hjR, hidx, hRK, Nat.lor_comm (bb_from kt) (bb_from ke),
        Nat.lor_comm (bb_from rt') (bb_from re), xor_cancel_right]
  · show (fun j => _) = p.occupancy
    funext j
    simp only [move_piece, upd, ← hcol, hc2]
    by_cases hj2 : j = 2 <;> by_cases hjc : j = color_of kpc <;>
      simp [hj2, hjc, hc2, color_of_ne_two kpc, Nat.lor_comm (bb_from kt) (bb_from ke),
        Nat.lor_comm (bb_from rt') (bb_from re), xor_cancel_right, xor4_cancel]
  · show (fun j => _) = p.board
    funext j
    simp only [move_piece, upd]
    by_cases hje : j = ke <;> by_cases hjt : j = kt <;> by_cases hjre : j = re <;>
      by_cases hjrt : j = rt' <;>
      simp_all [upd]
  · show _ = p.king_square
    simp only [move_piece, if_pos htk, if_neg htr, ← hcol]
    rw [upd_collapse]
    exact upd_id _ _ _ hks.symm

/-! ## C1: structural invariant of a consistent position, and bit-scan facts -/

/-- `ctz_go` returns the index of a set bit, below the fuel, on any nonzero
word bounded by the fuel. -/
theorem ctz_go_spec : ∀ fuel b : Nat, b ≠ 0 → b < 2 ^ fuel →
    b.testBit (ctz_go fuel b) = true ∧ ctz_go fuel b < fuel := by
  intro fuel
  induction fuel with
  | zero => intro b hb hlt; omega
  | succ n ih =>
    intro b hb hlt
    rw [ctz_go]
    by_cases h1 : b &&& 1 = 1
    · rw [if_pos h1]
      rw [Nat.and_one_is_mod] at h1
      constructor
      · rw [Nat.testBit_zero]; simp [h1]
      · omega
    · rw [if_neg h1]
      rw [Nat.and_one_is_mod] at h1
      have hmod : b % 2 = 0 := by omega
      have hb2 : b / 2 ≠ 0 := by omega
      have hlt2 : b / 2 < 2 ^ n := by
        rw [Nat.pow_succ] at hlt; omega
      obtain ⟨hbit, hfuel⟩ := ih (b / 2) hb2 hlt2
      constructor
      · rw [Nat.add_comm 1 (ctz_go n (b / 2)), Nat.testBit_add_one]; exact hbit
      · omega

/-- Every square produced by `bit_list` is a set bit below 64. -/
theorem bit_list_go_mem : ∀ fuel b sq : Nat, b < 2 ^ 64 → sq ∈ bit_list_go fuel b →
    b.testBit sq = true ∧ sq < 64 := by
  intro fuel
  induction fuel with
  | zero => intro b sq _ h; simp [bit_list_go] at h
  | succ n ih =>
    intro b sq hb h
    rw [bit_list_go] at h
    by_cases h0 : b = 0
    · rw [if_pos h0] at h; simp at h
    · rw [if_neg h0] at h
      rcases List.mem_cons.mp h with h | h
      · subst h; exact ctz_go_spec 64 b h0 hb
      · have hble : b &&& (b - 1) < 2 ^ 64 := lt_of_le_of_lt Nat.and_le_left hb
        obtain ⟨hbit, hlt⟩ := ih (b &&& (b - 1)) sq hble h
        rw [Nat.testBit_and] at hbit
        exact ⟨(Bool.and_eq_true _ _ |>.mp hbit).1, hlt⟩

theorem bit_list_mem (b sq : Nat) (hb : b < 2 ^ 64) (h : sq ∈ bit_list b) :
    b.testBit sq = true ∧ sq < 64 := bit_list_go_mem 64 b sq hb h

/-- Piece-code arithmetic for the twelve real piece codes. -/
theorem piece_code_facts : ∀ c : Nat, c < 2 → ∀ j : Nat, j < 6 →
    color_of (c * 6 + j + 1) = c ∧ type_of (c * 6 + j + 1) = j + 1 ∧
    1 ≤ c * 6 + j + 1 ∧ c * 6 + j + 1 ≤ 12 := by decide

theorem make_piece_facts : ∀ c : Nat, c < 2 → ∀ pt : Nat, 1 ≤ pt → pt < 7 →
    make_piece c pt = c * 6 + pt ∧ color_of (make_piece c pt) = c ∧
    type_of (make_piece c pt) = pt := by decide

/-- Structural invariant of a consistent `Position`: 64-bit bitboards, the
mailbox `board` agreeing square-by-square with every piece bitboard, cached
occupancies equal to the unions of the piece bitboards, a cached king square
per side matching a one-bit king bitboard, a side to move of 0 or 1, and an
en-passant square (when set) that is empty and on the relative third rank. -/
def PosOk (pos : Position) : Prop :=
  (∀ i, i < 12 → pos.piece_bb i < 2 ^ 64) ∧
  (∀ i, i < 12 → ∀ sq, sq < 64 →
    ((pos.piece_bb i).testBit sq = true ↔ pos.board sq = i + 1)) ∧
  (∀ sq, sq < 64 → pos.board sq ≤ 12) ∧
  pos.occupancy 0 = (pos.piece_bb 0 ||| pos.piece_bb 1 ||| pos.piece_bb 2 |||
    pos.piece_bb 3 ||| pos.piece_bb 4 ||| pos.piece_bb 5) ∧
  pos.occupancy 1 = (pos.piece_bb 6 ||| pos.piece_bb 7 ||| pos.piece_bb 8 |||
    pos.piece_bb 9 ||| pos.piece_bb 10 ||| pos.piece_bb 11) ∧
  pos.occupancy 2 = (pos.occupancy 0 ||| pos.occupancy 1) ∧
  pos.side_to_move < 2 ∧
  (∀ c, c < 2 → pos.piece_bb (c * 6 + 5) = bb_from (pos.king_square c) ∧
    pos.king_square c < 64) ∧
  (pos.ep_square ≠ SQ_NONE →
    pos.board pos.ep_square = NO_PIECE ∧
    (pos.side_to_move = 0 → 40 ≤ pos.ep_square ∧ pos.ep_square ≤ 47) ∧
    (pos.side_to_move = 1 → 16 ≤ pos.ep_square ∧ pos.ep_square ≤ 23)) ∧
  (∀ sq, sq < 64 → (pos.board sq = 1 ∨ pos.board sq = 7) → 8 ≤ sq ∧ sq < 56)

theorem PosOk.bb_lt {pos : Position} (P : PosOk pos) :
    ∀ i, i < 12 → pos.piece_bb i < 2 ^ 64 := P.1

theorem PosOk.coh {pos : Position} (P : PosOk pos) :
    ∀ i, i < 12 → ∀ sq, sq < 64 →
      ((pos.piece_bb i).testBit sq = true ↔ pos.board sq = i + 1) := P.2.1

theorem PosOk.brange {pos : Position} (P : PosOk pos) :
    ∀ sq, sq < 64 → pos.board sq ≤ 12 := P.2.2.1

theorem PosOk.occ0 {pos : Position} (P : PosOk pos) :
    pos.occupancy 0 = (pos.piece_bb 0 ||| pos.piece_bb 1 ||| pos.piece_bb 2 |||
      pos.piece_bb 3 ||| pos.piece_bb 4 ||| pos.piece_bb 5) := P.2.2.2.1

theorem PosOk.occ1 {pos : Position} (P : PosOk pos) :
    pos.occupancy 1 = (pos.piece_bb 6 ||| pos.piece_bb 7 ||| pos.piece_bb 8 |||
      pos.piece_bb 9 ||| pos.piece_bb 10 ||| pos.piece_bb 11) := P.2.2.2.2.1

theorem PosOk.occ2 {pos : Position} (P : PosOk pos) :
    pos.occupancy 2 = (pos.occupancy 0 ||| pos.occupancy 1) := P.2.2.2.2.2.1

theorem PosOk.side_lt {pos : Position} (P : PosOk pos) : pos.side_to_move < 2 :=
  P.2.2.2.2.2.2.1

theorem PosOk.king {pos : Position} (P : PosOk pos) :
    ∀ c, c < 2 → pos.piece_bb (c * 6 + 5) = bb_from (pos.king_square c) ∧
      pos.king_square c < 64 := P.2.2.2.2.2.2.2.1

theorem PosOk.ep {pos : Position} (P : PosOk pos) :
    pos.ep_square ≠ SQ_NONE →
      pos.board pos.ep_square = NO_PIECE ∧
      (pos.side_to_move = 0 → 40 ≤ pos.ep_square ∧ pos.ep_square ≤ 47) ∧
      (pos.side_to_move = 1 → 16 ≤ pos.ep_square ∧ pos.ep_square ≤ 23) :=
  P.2.2.2.2.2.2.2.2.1

theorem PosOk.pawn_rank {pos : Position} (P : PosOk pos) :
    ∀ sq, sq < 64 → (pos.board sq = 1 ∨ pos.board sq = 7) → 8 ≤ sq ∧ sq < 56 :=
  P.2.2.2.2.2.2.2.2.2

theorem PosOk.occ_lt {pos : Position} (P : PosOk pos) :
    ∀ c, c < 3 → pos.occupancy c < 2 ^ 64 := by
  have h0 : pos.occupancy 0 < 2 ^ 64 := by
    rw [P.occ0]
    exact Nat.or_lt_two_pow (Nat.or_lt_two_pow (Nat.or_lt_two_pow (Nat.or_lt_two_pow
      (Nat.or_lt_two_pow (P.bb_lt 0 (by omega)) (P.bb_lt 1 (by omega)))
      (P.bb_lt 2 (by omega))) (P.bb_lt 3 (by omega))) (P.bb_lt 4 (by omega)))
      (P.bb_lt 5 (by omega))
  have h1 : pos.occupancy 1 < 2 ^ 64 := by
    rw [P.occ1]
    exact Nat.or_lt_two_pow (Nat.or_lt_two_pow (Nat.or_lt_two_pow (Nat.or_lt_two_pow
      (Nat.or_lt_two_pow (P.bb_lt 6 (by omega)) (P.bb_lt 7 (by omega)))
      (P.bb_lt 8 (by omega))) (P.bb_lt 9 (by omega))) (P.bb_lt 10 (by omega)))
      (P.bb_lt 11 (by omega))
  intro c hc
  interval_cases c
  · exact h0
  · exact h1
  · rw [P.occ2]; exact Nat.or_lt_two_pow h0 h1

/-- A set occupancy bit means the mailbox holds a piece of that color there. -/
theorem occ_bit_iff {pos : Position} (P : PosOk pos) (c sq : Nat) (hc : c < 2)
    (hsq : sq < 64) :
    (pos.occupancy c).testBit sq = true ↔ ∃ j, j < 6 ∧ pos.board sq = c * 6 + j + 1 := by
  interval_cases c
  · rw [P.occ0]
    simp only [Nat.testBit_or, Bool.or_eq_true]
    constructor
    · rintro (((((h | h) | h) | h) | h) | h)
      · exact ⟨0, by omega, by have := (P.coh 0 (by omega) sq hsq).mp h; omega⟩
      · exact ⟨1, by omega, by have := (P.coh 1 (by omega) sq hsq).mp h; omega⟩
      · exact ⟨2, by omega, by have := (P.coh 2 (by omega) sq hsq).mp h; omega⟩
      · exact ⟨3, by omega, by have := (P.coh 3 (by omega) sq hsq).mp h; omega⟩
      · exact ⟨4, by omega, by have := (P.coh 4 (by omega) sq hsq).mp h; omega⟩
      · exact ⟨5, by omega, by have := (P.coh 5 (by omega) sq hsq).mp h; omega⟩
    · rintro ⟨j, hj, hb⟩
      interval_cases j
      · exact Or.inl (Or.inl (Or.inl (Or.inl (Or.inl
          ((P.coh 0 (by omega) sq hsq).mpr (by omega))))))
      · exact Or.inl (Or.inl (Or.inl (Or.inl (Or.inr
          ((P.coh 1 (by omega) sq hsq).mpr (by omega))))))
      · exact Or.inl (Or.inl (Or.inl (Or.inr
          ((P.coh 2 (by omega) sq hsq).mpr (by omega)))))
      · exact Or.inl (Or.inl (Or.inr ((P.coh 3 (by omega) sq hsq).mpr (by omega))))
      · exact Or.inl (Or.inr ((P.coh 4 (by omega) sq hsq).mpr (by omega)))
      · exact Or.inr ((P.coh 5 (by omega) sq hsq).mpr (by omega))
  · rw [P.occ1]
    simp only [Nat.testBit_or, Bool.or_eq_true]
    constructor
    · rintro (((((h | h) | h) | h) | h) | h)
      · exact ⟨0, by omega, by have := (P.coh 6 (by omega) sq hsq).mp h; omega⟩
      · exact ⟨1, by omega, by have := (P.coh 7 (by omega) sq hsq).mp h; omega⟩
      · exact ⟨2, by omega, by have := (P.coh 8 (by omega) sq hsq).mp h; omega⟩
      · exact ⟨3, by omega, by have := (P.coh 9 (by omega) sq hsq).mp h; omega⟩
      · exact ⟨4, by omega, by have := (P.coh 10 (by omega) sq hsq).mp h; omega⟩
      · exact ⟨5, by omega, by have := (P.coh 11 (by omega) sq hsq).mp h; omega⟩
    · rintro ⟨j, hj, hb⟩
      interval_cases j
      · exact Or.inl (Or.inl (Or.inl (Or.inl (Or.inl
          ((P.coh 6 (by omega) sq hsq).mpr (by omega))))))
      · exact Or.inl (Or.inl (Or.inl (Or.inl (Or.inr
          ((P.coh 7 (by omega) sq hsq).mpr (by omega))))))
      · exact Or.inl (Or.inl (Or.inl (Or.inr
          ((P.coh 8 (by omega) sq hsq).mpr (by omega)))))
      · exact Or.inl (Or.inl (Or.inr ((P.coh 9 (by omega) sq hsq).mpr (by omega))))
      · exact Or.inl (Or.inr ((P.coh 10 (by omega) sq hsq).mpr (by omega)))
      · exact Or.inr ((P.coh 11 (by omega) sq hsq).mpr (by omega))

theorem occ_bit_board {pos : Position} (P : PosOk pos) (c sq : Nat) (hc : c < 2)
    (hsq : sq < 64) (h : (pos.occupancy c).testBit sq = true) :
    pos.board sq ≠ 0 ∧ color_of (pos.board sq) = c := by
  obtain ⟨j, hj, hb⟩ := (occ_bit_iff P c sq hc hsq).mp h
  have := (piece_code_facts c hc j hj).1
  constructor
  · omega
  · rw [hb]; exact this

theorem board_occ_bit {pos : Position} (P : PosOk pos) (sq : Nat) (hsq : sq < 64)
    (h : pos.board sq ≠ 0) :
    (pos.occupancy (color_of (pos.board sq))).testBit sq = true ∧
      (pos.occupancy 2).testBit sq = true := by
  have hle := P.brange sq hsq
  have hcol : color_of (pos.board sq) < 2 := color_of_lt_two _
  have hx : ∃ j, j < 6 ∧ pos.board sq = color_of (pos.board sq) * 6 + j + 1 := by
    by_cases hc : pos.board sq ≤ 6
    · have : color_of (pos.board sq) = 0 := by unfold color_of; rw [if_pos hc]
      exact ⟨pos.board sq - 1, by omega, by omega⟩
    · have : color_of (pos.board sq) = 1 := by unfold color_of; rw [if_neg hc]
      exact ⟨pos.board sq - 7, by omega, by omega⟩
  have h1 : (pos.occupancy (color_of (pos.board sq))).testBit sq = true :=
    (occ_bit_iff P _ sq hcol hsq).mpr hx
  refine ⟨h1, ?_⟩
  rw [P.occ2, Nat.testBit_or]
  interval_cases hcv : color_of (pos.board sq)
  · rw [h1]; rfl
  · rw [h1]; simp

theorem board_zero_of_no_occ2 {pos : Position} (P : PosOk pos) (sq : Nat) (hsq : sq < 64)
    (h : (pos.occupancy 2).testBit sq = false) : pos.board sq = 0 := by
  by_contra hne
  have := (board_occ_bit P sq hsq hne).2
  rw [h] at this
  exact Bool.false_ne_true this

theorem cell_bit_of_board {pos : Position} (P : PosOk pos) (sq pc : Nat) (hsq : sq < 64)
    (h1 : 1 ≤ pc) (h12 : pc ≤ 12) (hb : pos.board sq = pc) :
    (pos.piece_bb (pc - 1)).testBit sq = true :=
  (P.coh (pc - 1) (by omega) sq hsq).mpr (by omega)

theorem cell_bit_false_of_board_ne {pos : Position} (P : PosOk pos) (sq pc : Nat)
    (hsq : sq < 64) (h1 : 1 ≤ pc) (h12 : pc ≤ 12) (hb : pos.board sq ≠ pc) :
    (pos.piece_bb (pc - 1)).testBit sq = false := by
  rw [← Bool.not_eq_true]
  intro hbit
  have := (P.coh (pc - 1) (by omega) sq hsq).mp hbit
  omega

/-- The cached king square is where the mailbox puts the king. -/
theorem ks_eq_of_board_king {pos : Position} (P : PosOk pos) (c sq : Nat) (hc : c < 2)
    (hsq : sq < 64) (hb : pos.board sq = c * 6 + 6) : pos.king_square c = sq := by
  have hbit : (pos.piece_bb (c * 6 + 5)).testBit sq = true :=
    (P.coh (c * 6 + 5) (by omega) sq hsq).mpr (by omega)
  rw [(P.king c hc).1, testBit_bb_from] at hbit
  exact of_decide_eq_true hbit

/-! ## C1: decoding `mk_move` fields -/

theorem lor_eq_add (a : Nat) : ∀ b, a &&& b = 0 → a ||| b = a + b := by
  induction a using Nat.strong_induction_on with
  | _ a ih =>
    intro b hab
    by_cases ha : a = 0
    · subst ha; simp
    · have hd2 : a / 2 &&& b / 2 = 0 := by rw [← Nat.and_div_two, hab]
      have ha2 : a / 2 < a := Nat.div_lt_self (by omega) (by omega)
      have ih2 := ih (a / 2) ha2 (b / 2) hd2
      have hor2 : (a ||| b) / 2 = a / 2 + b / 2 := by rw [Nat.or_div_two, ih2]
      have hb0 : ¬(a % 2 = 1 ∧ b % 2 = 1) := by
        rintro ⟨h1, h2⟩
        have hbit : (a &&& b).testBit 0 = true := by
          rw [Nat.testBit_and, Nat.testBit_zero, Nat.testBit_zero]
          simp [h1, h2]
        rw [hab] at hbit
        simp at hbit
      have hA : decide ((a ||| b) % 2 = 1) = (decide (a % 2 = 1) || decide (b % 2 = 1)) := by
        rw [← Nat.testBit_zero, ← Nat.testBit_zero, ← Nat.testBit_zero, Nat.testBit_or]
      have hor0 : ((a ||| b) % 2 = 1) ↔ (a % 2 = 1 ∨ b % 2 = 1) := by
        have h2 := congrArg (fun x => x = true) hA
        simpa using h2
      omega

theorem lor_shiftLeft_eq_add (a b k : Nat) (ha : a < 2 ^ k) :
    a ||| (b <<< k) = a + (b <<< k) := by
  apply lor_eq_add
  apply Nat.eq_of_testBit_eq
  intro i
  rw [Nat.testBit_and, Nat.testBit_shiftLeft, Nat.zero_testBit]
  by_cases hik : k ≤ i
  · have : a.testBit i = false := by
      apply Nat.testBit_lt_two_pow
      exact lt_of_lt_of_le ha (Nat.pow_le_pow_right (by norm_num) hik)
    simp [this]
  · simp [hik]

theorem mk_move_raw (f t fl pr : Nat) (hf : f < 64) (ht : t < 64) (hpr : pr < 16)
    (hfl : fl < 256) :
    (mk_move f t fl pr).raw = f + t * 64 + pr * 4096 + fl * 65536 := by
  show f ||| (t <<< 6) ||| (pr <<< 12) ||| (fl <<< 16) = _
  have h64 : (2 : Nat) ^ 6 = 64 := by norm_num
  have h4096 : (2 : Nat) ^ 12 = 4096 := by norm_num
  have h65536 : (2 : Nat) ^ 16 = 65536 := by norm_num
  have e6 : t <<< 6 = t * 64 := by rw [Nat.shiftLeft_eq, h64]
  have e12 : pr <<< 12 = pr * 4096 := by rw [Nat.shiftLeft_eq, h4096]
  have e16 : fl <<< 16 = fl * 65536 := by rw [Nat.shiftLeft_eq, h65536]
  have h1 : f ||| (t <<< 6) = f + t * 64 := by
    rw [lor_shiftLeft_eq_add f t 6 (by omega), e6]
  have h2 : (f + t * 64) ||| (pr <<< 12) = f + t * 64 + pr * 4096 := by
    rw [lor_shiftLeft_eq_add (f + t * 64) pr 12 (by rw [h4096]; omega), e12]
  have h3 : (f + t * 64 + pr * 4096) ||| (fl <<< 16) =
      f + t * 64 + pr * 4096 + fl * 65536 := by
    rw [lor_shiftLeft_eq_add (f + t * 64 + pr * 4096) fl 16 (by rw [h65536]; omega), e16]
  rw [h1, h2, h3]

theorem mk_move_spec (f t fl pr : Nat) (hf : f < 64) (ht : t < 64) (hpr : pr < 16)
    (hfl : fl < 256) :
    (mk_move f t fl pr).from_sq = f ∧ (mk_move f t fl pr).to_sq = t ∧
    (mk_move f t fl pr).promotion = pr ∧ (mk_move f t fl pr).flags = fl := by
  have hraw := mk_move_raw f t fl pr hf ht hpr hfl
  unfold Move.from_sq Move.to_sq Move.promotion Move.flags
  rw [hraw]
  have e1 : (0x3F : Nat) = 2 ^ 6 - 1 := by norm_num
  have e2 : (0x0F : Nat) = 2 ^ 4 - 1 := by norm_num
  have e3 : (0xFF : Nat) = 2 ^ 8 - 1 := by norm_num
  rw [e1, e2, e3, Nat.and_pow_two_sub_one_eq_mod, Nat.shiftRight_eq_div_pow,
    Nat.and_pow_two_sub_one_eq_mod, Nat.shiftRight_eq_div_pow,
    Nat.and_pow_two_sub_one_eq_mod, Nat.shiftRight_eq_div_pow,
    Nat.and_pow_two_sub_one_eq_mod]
  have p6 : (2 : Nat) ^ 6 = 64 := by norm_num
  have p4 : (2 : Nat) ^ 4 = 16 := by norm_num
  have p8 : (2 : Nat) ^ 8 = 256 := by norm_num
  have p12 : (2 : Nat) ^ 12 = 4096 := by norm_num
  have p16 : (2 : Nat) ^ 16 = 65536 := by norm_num
  rw [p6, p4, p8, p12, p16]
  refine ⟨by omega, by omega, by omega, by omega⟩

/-- The shape every generated pseudo-legal move has, relative to its source
position.  `generate_pseudo_legal` only emits: plain moves from an own piece
to an empty or enemy square with the capture flag telling which; pawn
promotions on the back rank; en-passant captures onto the recorded ep square;
and the four fully-guarded castle moves. -/
def MoveOk (pos : Position) (m : Move) : Prop :=
  (m.flags &&& FLAG_EN_PASSANT = 0 ∧ m.flags &&& FLAG_CASTLING = 0 ∧ m.promotion = 0 ∧
   m.from_sq < 64 ∧ m.to_sq < 64 ∧
   pos.board m.from_sq ≠ 0 ∧ color_of (pos.board m.from_sq) = pos.side_to_move ∧
   (m.flags &&& FLAG_CAPTURE ≠ 0 →
     pos.board m.to_sq ≠ 0 ∧ color_of (pos.board m.to_sq) ≠ pos.side_to_move) ∧
   (m.flags &&& FLAG_CAPTURE = 0 → pos.board m.to_sq = 0))
  ∨
  (m.flags &&& FLAG_EN_PASSANT = 0 ∧ m.flags &&& FLAG_CASTLING = 0 ∧
   m.flags &&& FLAG_DOUBLE_PAWN = 0 ∧
   2 ≤ m.promotion ∧ m.promotion ≤ 5 ∧ m.from_sq < 64 ∧ m.to_sq < 64 ∧
   pos.board m.from_sq = make_piece pos.side_to_move PAWN ∧
   (m.flags &&& FLAG_CAPTURE ≠ 0 →
     pos.board m.to_sq ≠ 0 ∧ color_of (pos.board m.to_sq) ≠ pos.side_to_move) ∧
   (m.flags &&& FLAG_CAPTURE = 0 → pos.board m.to_sq = 0))
  ∨
  (m.flags = 5 ∧ m.promotion = 0 ∧ m.from_sq < 64 ∧
   m.to_sq = pos.ep_square ∧
   pos.board m.from_sq = make_piece pos.side_to_move PAWN ∧
   ((pos.side_to_move = 0 ∧ (m.to_sq = m.from_sq + 7 ∨ m.to_sq = m.from_sq + 9)) ∨
    (pos.side_to_move = 1 ∧ (m.from_sq = m.to_sq + 7 ∨ m.from_sq = m.to_sq + 9))))
  ∨
  (m = mk_move 4 6 FLAG_CASTLING 0 ∧ pos.side_to_move = 0 ∧ pos.board 4 = 6 ∧
   pos.board 7 = 4 ∧ pos.board 5 = 0 ∧ pos.board 6 = 0 ∧ pos.king_square 0 = 4)
  ∨
  (m = mk_move 4 2 FLAG_CASTLING 0 ∧ pos.side_to_move = 0 ∧ pos.board 4 = 6 ∧
   pos.board 0 = 4 ∧ pos.board 1 = 0 ∧ pos.board 2 = 0 ∧ pos.board 3 = 0 ∧
   pos.king_square 0 = 4)
  ∨
  (m = mk_move 60 62 FLAG_CASTLING 0 ∧ pos.side_to_move = 1 ∧ pos.board 60 = 12 ∧
   pos.board 63 = 10 ∧ pos.board 61 = 0 ∧ pos.board 62 = 0 ∧ pos.king_square 1 = 60)
  ∨
  (m = mk_move 60 58 FLAG_CASTLING 0 ∧ pos.side_to_move = 1 ∧ pos.board 60 = 12 ∧
   pos.board 56 = 10 ∧ pos.board 57 = 0 ∧ pos.board 58 = 0 ∧ pos.board 59 = 0 ∧
   pos.king_square 1 = 60)

/-! ## C1: shape analysis of `generate_pseudo_legal` -/

theorem bbfrom_and_ne (t x : Nat) : bb_from t &&& x ≠ 0 ↔ x.testBit t = true := by
  constructor
  · intro h
    by_contra hb
    apply h
    apply Nat.eq_of_testBit_eq
    intro i
    rw [Nat.testBit_and, testBit_bb_from, Nat.zero_testBit]
    by_cases hi : t = i
    · subst hi
      rw [Bool.not_eq_true] at hb
      simp [hb]
    · simp [hi]
  · intro h h0
    have : (bb_from t &&& x).testBit t = false := by rw [h0, Nat.zero_testBit]
    rw [Nat.testBit_and, testBit_bb_from, h] at this
    simp at this

theorem sub_own (own X sq : Nat) (hsq : sq < 64)
    (h : (X &&& compl64 own).testBit sq = true) : own.testBit sq = false := by
  rw [Nat.testBit_and, testBit_compl64] at h
  cases hob : own.testBit sq
  · rfl
  · rw [hob] at h
    simp [hsq] at h

theorem xor_one_lt_two (us : Nat) (h : us < 2) : us ^^^ 1 < 2 := by
  interval_cases us <;> decide

theorem xor_one_ne (us : Nat) (h : us < 2) : us ^^^ 1 ≠ us := by
  interval_cases us <;> decide

/-- Moves emitted by `targets_moves` from an own piece, with targets avoiding
own occupancy, all have the plain-move shape. -/
theorem targets_shape (pos : Position) (P : PosOk pos) (fr targets : Nat) (m : Move)
    (hfr : fr < 64) (hbf : pos.board fr ≠ 0)
    (hcf : color_of (pos.board fr) = pos.side_to_move)
    (htlt : targets < 2 ^ 64)
    (hsub : ∀ sq, sq < 64 → targets.testBit sq = true →
      (pos.occupancy pos.side_to_move).testBit sq = false)
    (hm : m ∈ targets_moves fr targets (pos.occupancy (pos.side_to_move ^^^ 1))) :
    MoveOk pos m := by
  have hus : pos.side_to_move < 2 := P.side_lt
  have hthem : pos.side_to_move ^^^ 1 < 2 := xor_one_lt_two _ hus
  obtain ⟨t, htm, hmeq⟩ := List.mem_map.mp hm
  obtain ⟨htbit, htlt64⟩ := bit_list_mem targets t htlt htm
  have hown : (pos.occupancy pos.side_to_move).testBit t = false := hsub t htlt64 htbit
  left
  by_cases hcap : bb_from t &&& pos.occupancy (pos.side_to_move ^^^ 1) ≠ 0
  · -- capture: enemy piece on t
    have hopp : (pos.occupancy (pos.side_to_move ^^^ 1)).testBit t = true :=
      (bbfrom_and_ne t _).mp hcap
    obtain ⟨hbt, hct⟩ := occ_bit_board P _ t hthem htlt64 hopp
    rw [if_pos hcap] at hmeq
    obtain ⟨e1, e2, e3, e4⟩ := mk_move_spec fr t FLAG_CAPTURE 0 hfr htlt64 (by decide)
      (by decide)
    subst hmeq
    refine ⟨by rw [e4]; decide, by rw [e4]; decide, e3, by rw [e1]; exact hfr,
      by rw [e2]; exact htlt64, by rw [e1]; exact hbf, by rw [e1]; exact hcf, ?_, ?_⟩
    · intro _
      rw [e2]
      exact ⟨hbt, by rw [hct]; exact xor_one_ne _ hus⟩
    · intro hc
      rw [e4] at hc
      exact absurd hc (by decide)
  · -- quiet: t is empty
    have hopp : (pos.occupancy (pos.side_to_move ^^^ 1)).testBit t = false := by
      by_contra hb
      exact hcap ((bbfrom_and_ne t _).mpr (by revert hb; cases ((pos.occupancy
        (pos.side_to_move ^^^ 1)).testBit t) <;> simp))
    have hbt0 : pos.board t = 0 := by
      apply board_zero_of_no_occ2 P t htlt64
      rw [P.occ2, Nat.testBit_or]
      have hcover : (pos.occupancy 0).testBit t = false ∧
          (pos.occupancy 1).testBit t = false := by
        interval_cases hv : pos.side_to_move
        · exact ⟨hown, by simpa using hopp⟩
        · exact ⟨by simpa using hopp, hown⟩
      rw [hcover.1, hcover.2]
      rfl
    rw [if_neg hcap] at hmeq
    obtain ⟨e1, e2, e3, e4⟩ := mk_move_spec fr t 0 0 hfr htlt64 (by norm_num) (by norm_num)
    subst hmeq
    refine ⟨by rw [e4]; decide, by rw [e4]; decide, e3, by rw [e1]; exact hfr,
      by rw [e2]; exact htlt64, by rw [e1]; exact hbf, by rw [e1]; exact hcf, ?_, ?_⟩
    · intro hc
      rw [e4] at hc
      exact absurd hc (by decide)
    · intro _
      rw [e2]
      exact hbt0

/-- The board square a `bit_list` square of a piece bitboard carries. -/
theorem pieces_mem_board (pos : Position) (P : PosOk pos) (c pt fr : Nat)
    (hc : c < 2) (hpt1 : 1 ≤ pt) (hpt6 : pt ≤ 6)
    (hfr : fr ∈ bit_list (pos.pieces c pt)) :
    fr < 64 ∧ pos.board fr = c * 6 + pt := by
  have hidx : bb_idx c pt < 12 := by
    show c * 6 + (pt - 1) < 12
    omega
  have hlt : pos.pieces c pt < 2 ^ 64 := P.bb_lt _ hidx
  obtain ⟨hbit, hfr64⟩ := bit_list_mem _ fr hlt hfr
  refine ⟨hfr64, ?_⟩
  have := (P.coh (bb_idx c pt) hidx fr hfr64).mp hbit
  show pos.board fr = c * 6 + pt
  rw [this]
  show c * 6 + (pt - 1) + 1 = c * 6 + pt
  omega

theorem color_type_of_code (c j : Nat) (hc : c < 2) (hj : 1 ≤ j) (hj6 : j ≤ 6) :
    color_of (c * 6 + j) = c ∧ type_of (c * 6 + j) = j ∧ 1 ≤ c * 6 + j ∧ c * 6 + j ≤ 12 := by
  have hx := piece_code_facts c hc (j - 1) (by omega)
  have he : c * 6 + (j - 1) + 1 = c * 6 + j := by omega
  rw [he] at hx
  obtain ⟨a, b, c2, d⟩ := hx
  exact ⟨a, by omega, c2, d⟩

/-- Builder for the plain-move disjunct of `MoveOk`. -/
theorem normal_shape_build (pos : Position) (fr T FL : Nat)
    (hfr : fr < 64) (hT : T < 64) (hFL : FL = 0 ∨ FL = 1 ∨ FL = 2)
    (hbfr : pos.board fr ≠ 0) (hcfr : color_of (pos.board fr) = pos.side_to_move)
    (hcap : FL = 1 → pos.board T ≠ 0 ∧ color_of (pos.board T) ≠ pos.side_to_move)
    (hnocap : FL ≠ 1 → pos.board T = 0) :
    MoveOk pos (mk_move fr T FL 0) := by
  obtain ⟨e1, e2, e3, e4⟩ := mk_move_spec fr T FL 0 hfr hT (by omega) (by omega)
  left
  rcases hFL with rfl | rfl | rfl
  · exact ⟨by rw [e4]; decide, by rw [e4]; decide, e3, by rw [e1]; exact hfr, by rw [e2]; exact hT,
      by rw [e1]; exact hbfr, by rw [e1]; exact hcfr,
      fun hc => absurd (by rw [e4] at hc; exact hc) (by decide),
      fun _ => by rw [e2]; exact hnocap (by omega)⟩
  · exact ⟨by rw [e4]; decide, by rw [e4]; decide, e3, by rw [e1]; exact hfr, by rw [e2]; exact hT,
      by rw [e1]; exact hbfr, by rw [e1]; exact hcfr,
      fun _ => by rw [e2]; exact hcap rfl,
      fun hc => absurd (by rw [e4] at hc; exact hc) (by decide)⟩
  · exact ⟨by rw [e4]; decide, by rw [e4]; decide, e3, by rw [e1]; exact hfr, by rw [e2]; exact hT,
      by rw [e1]; exact hbfr, by rw [e1]; exact hcfr,
      fun hc => absurd (by rw [e4] at hc; exact hc) (by decide),
      fun _ => by rw [e2]; exact hnocap (by omega)⟩

/-- Builder for the promotion disjunct of `MoveOk`. -/
theorem promo_shape_build (pos : Position) (fr T FL pr : Nat)
    (hfr : fr < 64) (hT : T < 64) (hpr2 : 2 ≤ pr) (hpr5 : pr ≤ 5)
    (hFL : FL = 0 ∨ FL = 1)
    (hbfr : pos.board fr = make_piece pos.side_to_move PAWN)
    (hcap : FL = 1 → pos.board T ≠ 0 ∧ color_of (pos.board T) ≠ pos.side_to_move)
    (hnocap : FL = 0 → pos.board T = 0) :
    MoveOk pos (mk_move fr T FL pr) := by
  obtain ⟨e1, e2, e3, e4⟩ := mk_move_spec fr T FL pr hfr hT (by omega) (by omega)
  right; left
  rcases hFL with rfl | rfl
  · exact ⟨by rw [e4]; decide, by rw [e4]; decide, by rw [e4]; decide,
      by rw [e3]; exact hpr2, by rw [e3]; exact hpr5,
      by rw [e1]; exact hfr, by rw [e2]; exact hT, by rw [e1]; exact hbfr,
      fun hc => absurd (by rw [e4] at hc; exact hc) (by decide),
      fun _ => by rw [e2]; exact hnocap rfl⟩
  · exact ⟨by rw [e4]; decide, by rw [e4]; decide, by rw [e4]; decide,
      by rw [e3]; exact hpr2, by rw [e3]; exact hpr5,
      by rw [e1]; exact hfr, by rw [e2]; exact hT, by rw [e1]; exact hbfr,
      fun _ => by rw [e2]; exact hcap rfl,
      fun hc => absurd (by rw [e4] at hc; exact hc) (by decide)⟩

/-- Builder for the en-passant disjunct of `MoveOk`. -/
theorem ep_shape_build (pos : Position) (fr T : Nat) (hfr : fr < 64) (hT : T < 64)
    (hep : T = pos.ep_square)
    (hbfr : pos.board fr = make_piece pos.side_to_move PAWN)
    (hgeom : (pos.side_to_move = 0 ∧ (T = fr + 7 ∨ T = fr + 9)) ∨
             (pos.side_to_move = 1 ∧ (fr = T + 7 ∨ fr = T + 9))) :
    MoveOk pos (mk_move fr T (FLAG_CAPTURE ||| FLAG_EN_PASSANT) 0) := by
  obtain ⟨e1, e2, e3, e4⟩ := mk_move_spec fr T (FLAG_CAPTURE ||| FLAG_EN_PASSANT) 0
    hfr hT (by decide) (by decide)
  right; right; left
  refine ⟨by rw [e4]; decide, e3, by rw [e1]; exact hfr, by rw [e2]; exact hep,
    by rw [e1]; exact hbfr, ?_⟩
  rw [e1, e2]
  exact hgeom

theorem promo_member (fr T FL : Nat) (m : Move) (hm : m ∈ promo_moves fr T FL) :
    ∃ pr, 2 ≤ pr ∧ pr ≤ 5 ∧ m = mk_move fr T FL pr := by
  simp only [promo_moves, List.mem_cons, List.not_mem_nil, or_false] at hm
  rcases hm with h | h | h | h
  · exact ⟨QUEEN, by decide, by decide, h⟩
  · exact ⟨ROOK, by decide, by decide, h⟩
  · exact ⟨BISHOP, by decide, by decide, h⟩
  · exact ⟨KNIGHT, by decide, by decide, h⟩

/-- Every move the white-pawn block emits for a pawn on `fr` has a `MoveOk`
shape. -/
theorem white_pawn_shape (pos : Position) (P : PosOk pos) (fr : Nat) (m : Move)
    (hw : pos.side_to_move = 0) (hfr : fr < 64) (hbfr : pos.board fr = 1)
    (hm : m ∈ white_pawn_moves pos pos.side_to_move fr) : MoveOk pos m := by
  have hrank : 8 ≤ fr ∧ fr < 56 := P.pawn_rank fr hfr (Or.inl hbfr)
  have hfile : file_of fr = fr % 8 := by
    show fr &&& 7 = fr % 8
    rw [show (7 : Nat) = 2 ^ 3 - 1 by norm_num, Nat.and_pow_two_sub_one_eq_mod]
  have hbfr' : pos.board fr = make_piece pos.side_to_move PAWN := by
    rw [hw]; exact hbfr
  have hbne : pos.board fr ≠ 0 := by omega
  have hcfr : color_of (pos.board fr) = pos.side_to_move := by
    rw [hbfr, hw]; decide
  simp only [white_pawn_moves, List.mem_append] at hm
  rcases hm with (hm | hm) | hm
  · -- pushes
    split at hm
    case isTrue h1 =>
      split at hm
      case isTrue h6 =>
        obtain ⟨pr, hpr2, hpr5, rfl⟩ := promo_member _ _ _ m hm
        exact promo_shape_build pos fr (fr + 8) 0 pr hfr (by omega) hpr2 hpr5 (Or.inl rfl)
          hbfr' (by omega) (fun _ => h1.2)
      case isFalse h6 =>
        rcases List.mem_cons.mp hm with rfl | hm
        · exact normal_shape_build pos fr (fr + 8) 0 hfr (by omega) (Or.inl rfl) hbne hcfr
            (by omega) (fun _ => h1.2)
        · split at hm
          case isTrue h2 =>
            have hr1 : fr / 8 = 1 := by
              have h8 : fr >>> 3 = 1 := h2.1
              rw [Nat.shiftRight_eq_div_pow, show (2 : Nat) ^ 3 = 8 by norm_num] at h8
              exact h8
            rcases List.mem_cons.mp hm with rfl | hm
            · exact normal_shape_build pos fr (fr + 16) 2 hfr (by omega)
                (Or.inr (Or.inr rfl)) hbne hcfr (by omega) (fun _ => h2.2)
            · simp at hm
          case isFalse h2 => simp at hm
    case isFalse h1 => simp at hm
  · -- captures and en passant toward file - 1 (target fr + 7)
    split at hm
    case isTrue hf =>
      rcases List.mem_append.mp hm with hm | hm
      · split at hm
        case isTrue h3 =>
          have henemy : pos.board (fr + 7) ≠ 0 ∧
              color_of (pos.board (fr + 7)) ≠ pos.side_to_move := by
            have := h3.2
            simp only [is_enemy, Bool.and_eq_true, decide_eq_true_eq] at this
            exact this
          split at hm
          case isTrue h6 =>
            obtain ⟨pr, hpr2, hpr5, rfl⟩ := promo_member _ _ _ m hm
            exact promo_shape_build pos fr (fr + 7) FLAG_CAPTURE pr hfr (by omega) hpr2 hpr5
              (Or.inr rfl) hbfr' (fun _ => henemy) (by intro h; exact absurd h (by decide))
          case isFalse h6 =>
            rcases List.mem_cons.mp hm with rfl | hm
            · exact normal_shape_build pos fr (fr + 7) FLAG_CAPTURE hfr (by omega)
                (Or.inr (Or.inl rfl)) hbne hcfr (fun _ => henemy) (fun h => absurd rfl h)
            · simp at hm
        case isFalse h3 => simp at hm
      · split at hm
        case isTrue h4 =>
          rcases List.mem_cons.mp hm with rfl | hm
          · exact ep_shape_build pos fr (fr + 7) hfr (by omega) h4 hbfr'
              (Or.inl ⟨hw, Or.inl rfl⟩)
          · simp at hm
        case isFalse h4 => simp at hm
    case isFalse hf => simp at hm
  · -- captures and en passant toward file + 1 (target fr + 9)
    split at hm
    case isTrue hf =>
      have hfr9 : fr + 9 < 64 := by
        have : file_of fr < 7 := hf
        omega
      rcases List.mem_append.mp hm with hm | hm
      · split at hm
        case isTrue h3 =>
          have henemy : pos.board (fr + 9) ≠ 0 ∧
              color_of (pos.board (fr + 9)) ≠ pos.side_to_move := by
            have := h3.2
            simp only [is_enemy, Bool.and_eq_true, decide_eq_true_eq] at this
            exact this
          split at hm
          case isTrue h6 =>
            obtain ⟨pr, hpr2, hpr5, rfl⟩ := promo_member _ _ _ m hm
            exact promo_shape_build pos fr (fr + 9) FLAG_CAPTURE pr hfr hfr9 hpr2 hpr5
              (Or.inr rfl) hbfr' (fun _ => henemy) (by intro h; exact absurd h (by decide))
          case isFalse h6 =>
            rcases List.mem_cons.mp hm with rfl | hm
            · exact normal_shape_build pos fr (fr + 9) FLAG_CAPTURE hfr hfr9
                (Or.inr (Or.inl rfl)) hbne hcfr (fun _ => henemy) (fun h => absurd rfl h)
            · simp at hm
        case isFalse h3 => simp at hm
      · split at hm
        case isTrue h4 =>
          rcases List.mem_cons.mp hm with rfl | hm
          · exact ep_shape_build pos fr (fr + 9) hfr hfr9 h4 hbfr'
              (Or.inl ⟨hw, Or.inr rfl⟩)
          · simp at hm
        case isFalse h4 => simp at hm
    case isFalse hf => simp at hm

/-- Every move the black-pawn block emits for a pawn on `fr` has a `MoveOk`
shape. -/
theorem black_pawn_shape (pos : Position) (P : PosOk pos) (fr : Nat) (m : Move)
    (hb : pos.side_to_move = 1) (hfr : fr < 64) (hbfr : pos.board fr = 7)
    (hm : m ∈ black_pawn_moves pos pos.side_to_move fr) : MoveOk pos m := by
  have hrank : 8 ≤ fr ∧ fr < 56 := P.pawn_rank fr hfr (Or.inr hbfr)
  have hfile : file_of fr = fr % 8 := by
    show fr &&& 7 = fr % 8
    rw [show (7 : Nat) = 2 ^ 3 - 1 by norm_num, Nat.and_pow_two_sub_one_eq_mod]
  have hbfr' : pos.board fr = make_piece pos.side_to_move PAWN := by
    rw [hbfr, hb]; decide
  have hbne : pos.board fr ≠ 0 := by omega
  have hcfr : color_of (pos.board fr) = pos.side_to_move := by
    rw [hbfr, hb]; decide
  simp only [black_pawn_moves, List.mem_append] at hm
  rcases hm with (hm | hm) | hm
  · -- pushes
    split at hm
    case isTrue h1 =>
      split at hm
      case isTrue h6 =>
        obtain ⟨pr, hpr2, hpr5, rfl⟩ := promo_member _ _ _ m hm
        exact promo_shape_build pos fr (((fr : Int) - 8).toNat) 0 pr hfr (by omega)
          hpr2 hpr5 (Or.inl rfl) hbfr' (by omega) (fun _ => h1.2)
      case isFalse h6 =>
        rcases List.mem_cons.mp hm with rfl | hm
        · exact normal_shape_build pos fr (((fr : Int) - 8).toNat) 0 hfr (by omega)
            (Or.inl rfl) hbne hcfr (by omega) (fun _ => h1.2)
        · split at hm
          case isTrue h2 =>
            have hr6 : fr / 8 = 6 := by
              have h8 : fr >>> 3 = 6 := h2.1
              rw [Nat.shiftRight_eq_div_pow, show (2 : Nat) ^ 3 = 8 by norm_num] at h8
              exact h8
            rcases List.mem_cons.mp hm with rfl | hm
            · exact normal_shape_build pos fr (fr - 16) 2 hfr (by omega)
                (Or.inr (Or.inr rfl)) hbne hcfr (by omega) (fun _ => h2.2)
            · simp at hm
          case isFalse h2 => simp at hm
    case isFalse h1 => simp at hm
  · -- captures and en passant toward file - 1 (target fr - 9)
    split at hm
    case isTrue hf =>
      rcases List.mem_append.mp hm with hm | hm
      · split at hm
        case isTrue h3 =>
          have henemy : pos.board (((fr : Int) - 9).toNat) ≠ 0 ∧
              color_of (pos.board (((fr : Int) - 9).toNat)) ≠ pos.side_to_move := by
            have := h3.2
            simp only [is_enemy, Bool.and_eq_true, decide_eq_true_eq] at this
            exact this
          have h9 : 0 ≤ (fr : Int) - 9 := h3.1
          split at hm
          case isTrue h6 =>
            obtain ⟨pr, hpr2, hpr5, rfl⟩ := promo_member _ _ _ m hm
            exact promo_shape_build pos fr (((fr : Int) - 9).toNat) FLAG_CAPTURE pr hfr
              (by omega) hpr2 hpr5 (Or.inr rfl) hbfr' (fun _ => henemy)
              (by intro h; exact absurd h (by decide))
          case isFalse h6 =>
            rcases List.mem_cons.mp hm with rfl | hm
            · exact normal_shape_build pos fr (((fr : Int) - 9).toNat) FLAG_CAPTURE hfr
                (by omega) (Or.inr (Or.inl rfl)) hbne hcfr (fun _ => henemy)
                (fun h => absurd rfl h)
            · simp at hm
        case isFalse h3 => simp at hm
      · split at hm
        case isTrue h4 =>
          rcases List.mem_cons.mp hm with rfl | hm
          · have h9 : 0 ≤ (fr : Int) - 9 := by
              have hcast : 0 ≤ (pos.ep_square : Int) := Int.natCast_nonneg _
              omega
            exact ep_shape_build pos fr (((fr : Int) - 9).toNat) hfr (by omega)
              (by omega) hbfr' (Or.inr ⟨hb, Or.inr (by omega)⟩)
          · simp at hm
        case isFalse h4 => simp at hm
    case isFalse hf => simp at hm
  · -- captures and en passant toward file + 1 (target fr - 7)
    split at hm
    case isTrue hf =>
      rcases List.mem_append.mp hm with hm | hm
      · split at hm
        case isTrue h3 =>
          have henemy : pos.board (((fr : Int) - 7).toNat) ≠ 0 ∧
              color_of (pos.board (((fr : Int) - 7).toNat)) ≠ pos.side_to_move := by
            have := h3.2
            simp only [is_enemy, Bool.and_eq_true, decide_eq_true_eq] at this
            exact this
          have h7 : 0 ≤ (fr : Int) - 7 := h3.1
          split at hm
          case isTrue h6 =>
            obtain ⟨pr, hpr2, hpr5, rfl⟩ := promo_member _ _ _ m hm
            exact promo_shape_build pos fr (((fr : Int) - 7).toNat) FLAG_CAPTURE pr hfr
              (by omega) hpr2 hpr5 (Or.inr rfl) hbfr' (fun _ => henemy)
              (by intro h; exact absurd h (by decide))
          case isFalse h6 =>
            rcases List.mem_cons.mp hm with rfl | hm
            · exact normal_shape_build pos fr (((fr : Int) - 7).toNat) FLAG_CAPTURE hfr
                (by omega) (Or.inr (Or.inl rfl)) hbne hcfr (fun _ => henemy)
                (fun h => absurd rfl h)
            · simp at hm
        case isFalse h3 => simp at hm
      · split at hm
        case isTrue h4 =>
          rcases List.mem_cons.mp hm with rfl | hm
          · have h7 : 0 ≤ (fr : Int) - 7 := by
              have hcast : 0 ≤ (pos.ep_square : Int) := Int.natCast_nonneg _
              omega
            exact ep_shape_build pos fr (((fr : Int) - 7).toNat) hfr (by omega)
              (by omega) hbfr' (Or.inr ⟨hb, Or.inl (by omega)⟩)
          · simp at hm
        case isFalse h4 => simp at hm
    case isFalse hf => simp at hm

/-- Every pseudo-legal generated move has one of the `MoveOk` shapes. -/
theorem gen_shape (pos : Position) (m : Move) (P : PosOk pos)
    (hm : m ∈ generate_pseudo_legal pos) : MoveOk pos m := by
  have hus : pos.side_to_move < 2 := P.side_lt
  have hocc_own : pos.occupancy pos.side_to_move < 2 ^ 64 := P.occ_lt _ (by omega)
  have hcompl : compl64 (pos.occupancy pos.side_to_move) < 2 ^ 64 := by
    have hmask : MASK64 < 2 ^ 64 := by norm_num [MASK64]
    exact Nat.xor_lt_two_pow hmask hocc_own
  have hbks : pos.board (pos.king_square pos.side_to_move) =
      pos.side_to_move * 6 + 6 := by
    obtain ⟨hkbb, hks64⟩ := P.king pos.side_to_move hus
    have hbit : (pos.piece_bb (pos.side_to_move * 6 + 5)).testBit
        (pos.king_square pos.side_to_move) = true := by
      rw [hkbb, testBit_bb_from]; simp
    have hE := (P.coh _ (by omega) _ hks64).mp hbit
    omega
  simp only [generate_pseudo_legal, List.mem_append] at hm
  rcases hm with (((((((hm | hm) | hm) | hm) | hm) | hm) | hm) | hm)
  · -- pawns
    obtain ⟨fr, hfrm, hmm⟩ := List.exists_of_mem_flatMap hm
    obtain ⟨hfr64, hbfr⟩ := pieces_mem_board pos P pos.side_to_move PAWN fr hus
      (by decide) (by decide) hfrm
    split at hmm
    case isTrue hw =>
      have hw0 : pos.side_to_move = 0 := hw
      exact white_pawn_shape pos P fr m hw0 hfr64 (by rw [hbfr, hw0]; decide) hmm
    case isFalse hw =>
      have hne0 : pos.side_to_move ≠ 0 := hw
      have hb1 : pos.side_to_move = 1 := by omega
      exact black_pawn_shape pos P fr m hb1 hfr64 (by rw [hbfr, hb1]; decide) hmm
  · -- knights
    obtain ⟨fr, hfrm, hmm⟩ := List.exists_of_mem_flatMap hm
    obtain ⟨hfr64, hbfr⟩ := pieces_mem_board pos P _ KNIGHT fr hus (by decide) (by decide)
      hfrm
    rw [show KNIGHT = 2 from rfl] at hbfr
    exact targets_shape pos P fr _ m hfr64 (by omega)
      (by rw [hbfr]; exact (color_type_of_code _ 2 hus (by decide) (by decide)).1)
      (lt_of_le_of_lt Nat.and_le_right hcompl)
      (fun sq h1 h2 => sub_own _ _ sq h1 h2) hmm
  · -- bishops
    obtain ⟨fr, hfrm, hmm⟩ := List.exists_of_mem_flatMap hm
    obtain ⟨hfr64, hbfr⟩ := pieces_mem_board pos P _ BISHOP fr hus (by decide) (by decide)
      hfrm
    rw [show BISHOP = 3 from rfl] at hbfr
    exact targets_shape pos P fr _ m hfr64 (by omega)
      (by rw [hbfr]; exact (color_type_of_code _ 3 hus (by decide) (by decide)).1)
      (lt_of_le_of_lt Nat.and_le_right hcompl)
      (fun sq h1 h2 => sub_own _ _ sq h1 h2) hmm
  · -- rooks
    obtain ⟨fr, hfrm, hmm⟩ := List.exists_of_mem_flatMap hm
    obtain ⟨hfr64, hbfr⟩ := pieces_mem_board pos P _ ROOK fr hus (by decide) (by decide)
      hfrm
    rw [show ROOK = 4 from rfl] at hbfr
    exact targets_shape pos P fr _ m hfr64 (by omega)
      (by rw [hbfr]; exact (color_type_of_code _ 4 hus (by decide) (by decide)).1)
      (lt_of_le_of_lt Nat.and_le_right hcompl)
      (fun sq h1 h2 => sub_own _ _ sq h1 h2) hmm
  · -- queens
    obtain ⟨fr, hfrm, hmm⟩ := List.exists_of_mem_flatMap hm
    obtain ⟨hfr64, hbfr⟩ := pieces_mem_board pos P _ QUEEN fr hus (by decide) (by decide)
      hfrm
    rw [show QUEEN = 5 from rfl] at hbfr
    exact targets_shape pos P fr _ m hfr64 (by omega)
      (by rw [hbfr]; exact (color_type_of_code _ 5 hus (by decide) (by decide)).1)
      (lt_of_le_of_lt Nat.and_le_right hcompl)
      (fun sq h1 h2 => sub_own _ _ sq h1 h2) hmm
  · -- king
    obtain ⟨hkbb, hks64⟩ := P.king pos.side_to_move hus
    exact targets_shape pos P _ _ m hks64 (by omega)
      (by rw [hbks]; exact (color_type_of_code _ 6 hus (by decide) (by decide)).1)
      (lt_of_le_of_lt Nat.and_le_right hcompl)
      (fun sq h1 h2 => sub_own _ _ sq h1 h2) hm
  · -- white castles
    split at hm
    case isTrue hc =>
      obtain ⟨hw, hk4⟩ := hc
      have hw0 : pos.side_to_move = 0 := hw
      have hb4 : pos.board 4 = 6 := by
        rw [hk4, hw0] at hbks
        omega
      have hks0 : pos.king_square 0 = 4 := by rw [← hw0]; exact hk4
      rcases List.mem_append.mp hm with hm | hm
      · split at hm
        case isTrue hg =>
          rcases List.mem_cons.mp hm with rfl | hm
          · right; right; right; left
            exact ⟨rfl, hw0, hb4, hg.2.1, hg.2.2.1, hg.2.2.2.1, hks0⟩
          · simp at hm
        case isFalse => simp at hm
      · split at hm
        case isTrue hg =>
          rcases List.mem_cons.mp hm with rfl | hm
          · right; right; right; right; left
            exact ⟨rfl, hw0, hb4, hg.2.1, hg.2.2.2.2.1, hg.2.2.2.1, hg.2.2.1, hks0⟩
          · simp at hm
        case isFalse => simp at hm
    case isFalse => simp at hm
  · -- black castles
    split at hm
    case isTrue hc =>
      obtain ⟨hbk, hk60⟩ := hc
      have hb1 : pos.side_to_move = 1 := hbk
      have hb60 : pos.board 60 = 12 := by
        rw [hk60, hb1] at hbks
        omega
      have hks1 : pos.king_square 1 = 60 := by rw [← hb1]; exact hk60
      rcases List.mem_append.mp hm with hm | hm
      · split at hm
        case isTrue hg =>
          rcases List.mem_cons.mp hm with rfl | hm
          · right; right; right; right; right; left
            exact ⟨rfl, hb1, hb60, hg.2.1, hg.2.2.1, hg.2.2.2.1, hks1⟩
          · simp at hm
        case isFalse => simp at hm
      · split at hm
        case isTrue hg =>
          rcases List.mem_cons.mp hm with rfl | hm
          · right; right; right; right; right; right
            exact ⟨rfl, hb1, hb60, hg.2.1, hg.2.2.2.2.1, hg.2.2.2.1, hg.2.2.1, hks1⟩
          · simp at hm
        case isFalse => simp at hm
    case isFalse => simp at hm

/-! ## C1: assembling the round trip through `make_move`/`unmake_move` -/

@[ext] theorem Position.ext {p q : Position}
    (h1 : p.piece_bb = q.piece_bb) (h2 : p.occupancy = q.occupancy)
    (h3 : p.board = q.board) (h4 : p.king_square = q.king_square)
    (h5 : p.side_to_move = q.side_to_move) (h6 : p.castling_rights = q.castling_rights)
    (h7 : p.ep_square = q.ep_square) (h8 : p.halfmove_clock = q.halfmove_clock)
    (h9 : p.fullmove_number = q.fullmove_number) (h10 : p.key = q.key)
    (h11 : p.pawn_key = q.pawn_key) (h12 : p.mg_psqt = q.mg_psqt)
    (h13 : p.eg_psqt = q.eg_psqt) (h14 : p.non_pawn_material = q.non_pawn_material)
    (h15 : p.phase = q.phase) (h16 : p.history = q.history) : p = q := by
  cases p; cases q
  simp_all

theorem move_piece_history (T : EvalTables) (pc f t : Nat) (p : Position) :
    (move_piece T pc f t p).history = p.history := rfl
theorem move_piece_side (T : EvalTables) (pc f t : Nat) (p : Position) :
    (move_piece T pc f t p).side_to_move = p.side_to_move := rfl
theorem move_piece_castling (T : EvalTables) (pc f t : Nat) (p : Position) :
    (move_piece T pc f t p).castling_rights = p.castling_rights := rfl
theorem move_piece_ep (T : EvalTables) (pc f t : Nat) (p : Position) :
    (move_piece T pc f t p).ep_square = p.ep_square := rfl
theorem move_piece_halfmove (T : EvalTables) (pc f t : Nat) (p : Position) :
    (move_piece T pc f t p).halfmove_clock = p.halfmove_clock := rfl
theorem move_piece_fullmove (T : EvalTables) (pc f t : Nat) (p : Position) :
    (move_piece T pc f t p).fullmove_number = p.fullmove_number := rfl

theorem add_piece_history (T : EvalTables) (pc sq : Nat) (p : Position) :
    (add_piece T pc sq p).history = p.history := rfl
theorem add_piece_side (T : EvalTables) (pc sq : Nat) (p : Position) :
    (add_piece T pc sq p).side_to_move = p.side_to_move := rfl
theorem add_piece_castling (T : EvalTables) (pc sq : Nat) (p : Position) :
    (add_piece T pc sq p).castling_rights = p.castling_rights := rfl
theorem add_piece_ep (T : EvalTables) (pc sq : Nat) (p : Position) :
    (add_piece T pc sq p).ep_square = p.ep_square := rfl
theorem add_piece_halfmove (T : EvalTables) (pc sq : Nat) (p : Position) :
    (add_piece T pc sq p).halfmove_clock = p.halfmove_clock := rfl
theorem add_piece_fullmove (T : EvalTables) (pc sq : Nat) (p : Position) :
    (add_piece T pc sq p).fullmove_number = p.fullmove_number := rfl

theorem remove_piece_history (T : EvalTables) (pc sq : Nat) (p : Position) :
    (remove_piece T pc sq p).history = p.history := rfl
theorem remove_piece_side (T : EvalTables) (pc sq : Nat) (p : Position) :
    (remove_piece T pc sq p).side_to_move = p.side_to_move := rfl
theorem remove_piece_castling (T : EvalTables) (pc sq : Nat) (p : Position) :
    (remove_piece T pc sq p).castling_rights = p.castling_rights := rfl
theorem remove_piece_ep (T : EvalTables) (pc sq : Nat) (p : Position) :
    (remove_piece T pc sq p).ep_square = p.ep_square := rfl
theorem remove_piece_halfmove (T : EvalTables) (pc sq : Nat) (p : Position) :
    (remove_piece T pc sq p).halfmove_clock = p.halfmove_clock := rfl
theorem remove_piece_fullmove (T : EvalTables) (pc sq : Nat) (p : Position) :
    (remove_piece T pc sq p).fullmove_number = p.fullmove_number := rfl

theorem king_piece_code : ∀ pc : Nat, pc < 13 → 1 ≤ pc → type_of pc = KING →
    pc = color_of pc * 6 + 6 := by decide

theorem make_move_mid_history (T : EvalTables) (moved captured f t : Nat) (p : Position) :
    (make_move_mid T moved captured f t p).history =
      match p.history with
      | st :: rest => { st with captured_piece := captured } :: rest
      | [] => [] := rfl

theorem make_move_mid_side (T : EvalTables) (moved captured f t : Nat) (p : Position) :
    (make_move_mid T moved captured f t p).side_to_move = p.side_to_move ^^^ 1 := rfl

theorem make_move_pre_core (pos : Position) (m : Move) (moved : Nat) :
    CoreEq (make_move_pre pos m moved) pos := ⟨rfl, rfl, rfl, rfl⟩

theorem make_move_pre_history (pos : Position) (m : Move) (moved : Nat) :
    (make_move_pre pos m moved).history =
      make_move_snapshot pos m moved :: pos.history := rfl

theorem make_move_pre_side (pos : Position) (m : Move) (moved : Nat) :
    (make_move_pre pos m moved).side_to_move = pos.side_to_move := rfl

theorem make_move_pre_board (pos : Position) (m : Move) (moved : Nat) :
    (make_move_pre pos m moved).board = pos.board := rfl

theorem make_move_snapshot_move (pos : Position) (m : Move) (moved : Nat) :
    (make_move_snapshot pos m moved).move = m := rfl

theorem make_move_finish_true_inv (T : EvalTables) (moved captured f t : Nat)
    (pos2 pos' : Position)
    (h : make_move_finish T moved captured f t pos2 = (true, pos')) :
    pos' = make_move_mid T moved captured f t pos2 := by
  rw [make_move_finish] at h
  split at h
  · exact absurd (congrArg Prod.fst h) (by simp)
  · rw [Prod.mk.injEq] at h
    exact h.2.symm

theorem ite_ep_push (c : Prop) [Decidable c] (p : Position) (e : Nat) :
    (if c then { p with ep_square := e } else p) =
      { p with ep_square := if c then e else p.ep_square } := by
  split
  · rfl
  · rfl

/-- Round trip for a generated quiet move (no capture, possibly the double
pawn push). -/
theorem rt_quiet_case (T : EvalTables) (pos pos' : Position) (m : Move)
    (P : PosOk pos)
    (h1 : m.flags &&& FLAG_EN_PASSANT = 0) (h2 : m.flags &&& FLAG_CASTLING = 0)
    (h3 : m.promotion = 0) (h4 : m.from_sq < 64) (h5 : m.to_sq < 64)
    (h6 : pos.board m.from_sq ≠ 0) (h7 : color_of (pos.board m.from_sq) = pos.side_to_move)
    (hcap0 : m.flags &&& FLAG_CAPTURE = 0)
    (h9 : pos.board m.to_sq = 0)
    (hmk : make_move T pos m = (true, pos')) :
    unmake_move T pos' = pos := by
  have hus : pos.side_to_move < 2 := P.side_lt
  have hfne : m.from_sq ≠ m.to_sq := by
    intro h
    rw [h, h9] at h6
    exact h6 rfl
  have hcast : m.is_castling = false := by simp [Move.is_castling, h2]
  have hepb : m.is_en_passant = false := by simp [Move.is_en_passant, h1]
  have hcapb : m.is_capture = false := by simp [Move.is_capture, hcap0]
  have hpromb : m.is_promotion = false := by simp [Move.is_promotion, h3]
  have hk : type_of (pos.board m.from_sq) = KING →
      pos.king_square (color_of (pos.board m.from_sq)) = m.from_sq := by
    intro hkt
    have hrange := P.brange m.from_sq h4
    have hcode := king_piece_code (pos.board m.from_sq) (by omega) (by omega) hkt
    exact ks_eq_of_board_king P _ _ (color_of_lt_two _) h4 (by omega)
  have hcore := rt_move_core T (pos.board m.from_sq) m.from_sq m.to_sq pos hfne rfl h9 hk
  -- reduce make_move
  have hfok : is_ok_square m.from_sq = true := by simp [is_ok_square]; omega
  have htok : is_ok_square m.to_sq = true := by simp [is_ok_square]; omega
  rw [make_move] at hmk
  rw [if_neg (not_not_intro ⟨hfok, htok⟩)] at hmk
  rw [if_neg (by
    intro h
    rcases h with h | h
    · exact h6 h
    · exact h h7)] at hmk
  simp only [hcast, hepb, hcapb, hpromb, Bool.false_eq_true, if_false,
    make_move_pre_board, make_move_pre_side] at hmk
  rw [ite_ep_push] at hmk
  have hX := make_move_finish_true_inv _ _ _ _ _ _ _ hmk
  subst hX
  simp only [unmake_move, make_move_mid_history, make_move_mid_side,
    move_piece_history, move_piece_side, make_move_pre_history, make_move_pre_side]
  simp only [hcast, hepb, hpromb, Bool.false_eq_true, if_false, ne_eq,
    not_true_eq_false, not_false_eq_true, move_piece_history, move_piece_side,
    move_piece_castling, move_piece_ep, move_piece_halfmove, move_piece_fullmove,
    make_move_snapshot_move]
  refine Position.ext hcore.1 hcore.2.1 hcore.2.2.1 hcore.2.2.2
    (xor_cancel_right _ 1) rfl rfl rfl rfl rfl rfl rfl rfl rfl rfl rfl

/-- Round trip for a generated plain capture. -/
theorem rt_capture_case (T : EvalTables) (pos pos' : Position) (m : Move)
    (P : PosOk pos)
    (h1 : m.flags &&& FLAG_EN_PASSANT = 0) (h2 : m.flags &&& FLAG_CASTLING = 0)
    (h3 : m.promotion = 0) (h4 : m.from_sq < 64) (h5 : m.to_sq < 64)
    (h6 : pos.board m.from_sq ≠ 0) (h7 : color_of (pos.board m.from_sq) = pos.side_to_move)
    (hcap1 : m.flags &&& FLAG_CAPTURE ≠ 0)
    (hbt : pos.board m.to_sq ≠ 0)
    (hct : color_of (pos.board m.to_sq) ≠ pos.side_to_move)
    (hmk : make_move T pos m = (true, pos')) :
    unmake_move T pos' = pos := by
  have hus : pos.side_to_move < 2 := P.side_lt
  have hfne : m.from_sq ≠ m.to_sq := by
    intro h
    rw [h] at h7
    exact hct h7
  have hcast : m.is_castling = false := by simp [Move.is_castling, h2]
  have hepb : m.is_en_passant = false := by simp [Move.is_en_passant, h1]
  have hcapb : m.is_capture = true := by simp [Move.is_capture, hcap1]
  have hpromb : m.is_promotion = false := by simp [Move.is_promotion, h3]
  have hcaprange : pos.board m.to_sq ≤ 12 := P.brange m.to_sq h5
  have hk : type_of (pos.board m.from_sq) = KING →
      pos.king_square (color_of (pos.board m.from_sq)) = m.from_sq := by
    intro hkt
    have hrange := P.brange m.from_sq h4
    have hcode := king_piece_code (pos.board m.from_sq) (by omega) (by omega) hkt
    exact ks_eq_of_board_king P _ _ (color_of_lt_two _) h4 (by omega)
  have hkc : type_of (pos.board m.to_sq) = KING →
      pos.king_square (color_of (pos.board m.to_sq)) = m.to_sq := by
    intro hkt
    have hcode := king_piece_code (pos.board m.to_sq) (by omega) (by omega) hkt
    exact ks_eq_of_board_king P _ _ (color_of_lt_two _) h5 (by omega)
  have hidxp : bb_idx (color_of (pos.board m.to_sq)) (type_of (pos.board m.to_sq)) =
      pos.board m.to_sq - 1 := bb_idx_pred _ (by omega) (by omega)
  have hoccbits := board_occ_bit P m.to_sq h5 hbt
  have hinner := rt_move_core T (pos.board m.from_sq) m.from_sq m.to_sq
    (remove_piece T (pos.board m.to_sq) m.to_sq pos) hfne
    (upd_other pos.board m.to_sq 0 hfne) (upd_same pos.board m.to_sq 0) hk
  have houter := rt_remove_add_core T (pos.board m.to_sq) m.to_sq pos h5 rfl
    (by rw [hidxp]; exact P.bb_lt _ (by omega))
    (by rw [hidxp]; exact cell_bit_of_board P m.to_sq _ h5 (by omega) (by omega) rfl)
    (P.occ_lt _ (by have := color_of_lt_two (pos.board m.to_sq); omega))
    hoccbits.1 (P.occ_lt 2 (by omega)) hoccbits.2 hkc
  have hfinal : CoreEq (add_piece T (pos.board m.to_sq) m.to_sq
      (move_piece T (pos.board m.from_sq) m.to_sq m.from_sq
        (move_piece T (pos.board m.from_sq) m.from_sq m.to_sq
          (remove_piece T (pos.board m.to_sq) m.to_sq pos)))) pos :=
    coreEq_trans (add_piece_coreEq T _ _ hinner) houter
  -- reduce make_move
  have hfok : is_ok_square m.from_sq = true := by simp [is_ok_square]; omega
  have htok : is_ok_square m.to_sq = true := by simp [is_ok_square]; omega
  rw [make_move] at hmk
  rw [if_neg (not_not_intro ⟨hfok, htok⟩)] at hmk
  rw [if_neg (by
    intro h
    rcases h with h | h
    · exact h6 h
    · exact h h7)] at hmk
  simp only [hcast, hepb, hcapb, hpromb, Bool.false_eq_true, if_false, if_true,
    make_move_pre_board, make_move_pre_side] at hmk
  split at hmk
  case isTrue hz => exact absurd hz hbt
  case isFalse hz =>
    rw [ite_ep_push] at hmk
    have hX := make_move_finish_true_inv _ _ _ _ _ _ _ hmk
    subst hX
    simp only [unmake_move, make_move_mid_history, make_move_mid_side,
      move_piece_history, move_piece_side, remove_piece_history, remove_piece_side,
      make_move_pre_history, make_move_pre_side]
    simp only [hcast, hepb, hpromb, Bool.false_eq_true, if_false,
      move_piece_history, move_piece_side,
      move_piece_castling, move_piece_ep, move_piece_halfmove, move_piece_fullmove,
      remove_piece_history, remove_piece_side, remove_piece_castling, remove_piece_ep,
      remove_piece_halfmove, remove_piece_fullmove, make_move_snapshot_move]
    rw [if_pos (show pos.board m.to_sq ≠ NO_PIECE from hbt)]
    refine Position.ext hfinal.1 hfinal.2.1 hfinal.2.2.1 hfinal.2.2.2
      (xor_cancel_right _ 1) rfl rfl rfl rfl rfl rfl rfl rfl rfl rfl rfl

/-! ### Shape of `unmake_move` on a `make_move_finish` result

Each lemma fixes one branch of `unmake_move` (plain, capture, en passant,
promotion, castle) over an abstract pre-finish position `R`, so the heavy
concrete positions only meet the cheap record-level reasoning once. -/

theorem unmake_mid_quiet (T : EvalTables) (moved captured f t : Nat) (R : Position)
    (m : Move) (st : StateInfo) (rest : List StateInfo)
    (hh : R.history = st :: rest) (hstm : st.move = m)
    (hcast : m.is_castling = false) (hprom : m.is_promotion = false)
    (hcap : captured = NO_PIECE) :
    unmake_move T (make_move_mid T moved captured f t R) =
      { move_piece T st.moved_piece m.to_sq m.from_sq
          ({ make_move_mid T moved captured f t R with
            history := rest
            side_to_move := (R.side_to_move ^^^ 1) ^^^ 1
            castling_rights := st.castling_rights
            ep_square := st.ep_square
            halfmove_clock := st.halfmove_clock
            fullmove_number := st.fullmove_number }) with
        key := st.key
        pawn_key := st.pawn_key
        mg_psqt := st.mg_psqt
        eg_psqt := st.eg_psqt
        non_pawn_material := st.non_pawn_material
        phase := st.phase } := by
  subst hcap
  rw [unmake_move]
  simp only [make_move_mid_history, make_move_mid_side, hh]
  simp only [hstm, hcast, hprom, Bool.false_eq_true, if_false, ne_eq,
    not_true_eq_false, not_false_eq_true]

theorem unmake_mid_capture (T : EvalTables) (moved captured f t : Nat) (R : Position)
    (m : Move) (st : StateInfo) (rest : List StateInfo)
    (hh : R.history = st :: rest) (hstm : st.move = m)
    (hcast : m.is_castling = false) (hprom : m.is_promotion = false)
    (hepm : m.is_en_passant = false)
    (hcap : captured ≠ NO_PIECE) :
    unmake_move T (make_move_mid T moved captured f t R) =
      { add_piece T captured m.to_sq
          (move_piece T st.moved_piece m.to_sq m.from_sq
            ({ make_move_mid T moved captured f t R with
              history := rest
              side_to_move := (R.side_to_move ^^^ 1) ^^^ 1
              castling_rights := st.castling_rights
              ep_square := st.ep_square
              halfmove_clock := st.halfmove_clock
              fullmove_number := st.fullmove_number })) with
        key := st.key
        pawn_key := st.pawn_key
        mg_psqt := st.mg_psqt
        eg_psqt := st.eg_psqt
        non_pawn_material := st.non_pawn_material
        phase := st.phase } := by
  rw [unmake_move]
  simp only [make_move_mid_history, make_move_mid_side, hh]
  simp only [hstm, hcast, hprom, hepm, Bool.false_eq_true, if_false]
  rw [if_pos (show captured ≠ NO_PIECE from hcap)]

theorem unmake_mid_ep_w (T : EvalTables) (moved captured f t : Nat) (R : Position)
    (m : Move) (st : StateInfo) (rest : List StateInfo)
    (hh : R.history = st :: rest) (hstm : st.move = m)
    (hcast : m.is_castling = false) (hprom : m.is_promotion = false)
    (hepm : m.is_en_passant = true)
    (hcap : captured ≠ NO_PIECE)
    (hsideW : (R.side_to_move ^^^ 1) ^^^ 1 = WHITE) :
    unmake_move T (make_move_mid T moved captured f t R) =
      { add_piece T captured (m.to_sq - 8)
          (move_piece T st.moved_piece m.to_sq m.from_sq
            ({ make_move_mid T moved captured f t R with
              history := rest
              side_to_move := (R.side_to_move ^^^ 1) ^^^ 1
              castling_rights := st.castling_rights
              ep_square := st.ep_square
              halfmove_clock := st.halfmove_clock
              fullmove_number := st.fullmove_number })) with
        key := st.key
        pawn_key := st.pawn_key
        mg_psqt := st.mg_psqt
        eg_psqt := st.eg_psqt
        non_pawn_material := st.non_pawn_material
        phase := st.phase } := by
  rw [unmake_move]
  simp only [make_move_mid_history, make_move_mid_side, hh]
  simp only [hstm, hcast, hprom, hepm, Bool.false_eq_true, if_false, if_true]
  rw [if_pos (show captured ≠ NO_PIECE from hcap)]
  rw [if_pos hsideW]

theorem unmake_mid_ep_b (T : EvalTables) (moved captured f t : Nat) (R : Position)
    (m : Move) (st : StateInfo) (rest : List StateInfo)
    (hh : R.history = st :: rest) (hstm : st.move = m)
    (hcast : m.is_castling = false) (hprom : m.is_promotion = false)
    (hepm : m.is_en_passant = true)
    (hcap : captured ≠ NO_PIECE)
    (hsideB : ¬ ((R.side_to_move ^^^ 1) ^^^ 1 = WHITE)) :
    unmake_move T (make_move_mid T moved captured f t R) =
      { add_piece T captured (m.to_sq + 8)
          (move_piece T st.moved_piece m.to_sq m.from_sq
            ({ make_move_mid T moved captured f t R with
              history := rest
              side_to_move := (R.side_to_move ^^^ 1) ^^^ 1
              castling_rights := st.castling_rights
              ep_square := st.ep_square
              halfmove_clock := st.halfmove_clock
              fullmove_number := st.fullmove_number })) with
        key := st.key
        pawn_key := st.pawn_key
        mg_psqt := st.mg_psqt
        eg_psqt := st.eg_psqt
        non_pawn_material := st.non_pawn_material
        phase := st.phase } := by
  rw [unmake_move]
  simp only [make_move_mid_history, make_move_mid_side, hh]
  simp only [hstm, hcast, hprom, hepm, Bool.false_eq_true, if_false, if_true]
  rw [if_pos (show captured ≠ NO_PIECE from hcap)]
  rw [if_neg hsideB]

theorem unmake_mid_promo (T : EvalTables) (moved captured f t : Nat) (R : Position)
    (m : Move) (st : StateInfo) (rest : List StateInfo)
    (hh : R.history = st :: rest) (hstm : st.move = m)
    (hcast : m.is_castling = false) (hprom : m.is_promotion = true)
    (hcap : captured = NO_PIECE) :
    unmake_move T (make_move_mid T moved captured f t R) =
      { add_piece T (make_piece ((R.side_to_move ^^^ 1) ^^^ 1) PAWN) m.from_sq
          (remove_piece T (R.board m.to_sq) m.to_sq
            ({ make_move_mid T moved captured f t R with
              history := rest
              side_to_move := (R.side_to_move ^^^ 1) ^^^ 1
              castling_rights := st.castling_rights
              ep_square := st.ep_square
              halfmove_clock := st.halfmove_clock
              fullmove_number := st.fullmove_number })) with
        key := st.key
        pawn_key := st.pawn_key
        mg_psqt := st.mg_psqt
        eg_psqt := st.eg_psqt
        non_pawn_material := st.non_pawn_material
        phase := st.phase } := by
  subst hcap
  rw [unmake_move]
  simp only [make_move_mid_history, make_move_mid_side, hh]
  simp only [hstm, hcast, hprom, Bool.false_eq_true, if_false, if_true, ne_eq,
    not_true_eq_false, not_false_eq_true]
  rfl

theorem unmake_mid_promo_cap (T : EvalTables) (moved captured f t : Nat) (R : Position)
    (m : Move) (st : StateInfo) (rest : List StateInfo)
    (hh : R.history = st :: rest) (hstm : st.move = m)
    (hcast : m.is_castling = false) (hprom : m.is_promotion = true)
    (hepm : m.is_en_passant = false)
    (hcap : captured ≠ NO_PIECE) :
    unmake_move T (make_move_mid T moved captured f t R) =
      { add_piece T captured m.to_sq
          (add_piece T (make_piece ((R.side_to_move ^^^ 1) ^^^ 1) PAWN) m.from_sq
            (remove_piece T (R.board m.to_sq) m.to_sq
              ({ make_move_mid T moved captured f t R with
                history := rest
                side_to_move := (R.side_to_move ^^^ 1) ^^^ 1
                castling_rights := st.castling_rights
                ep_square := st.ep_square
                halfmove_clock := st.halfmove_clock
                fullmove_number := st.fullmove_number }))) with
        key := st.key
        pawn_key := st.pawn_key
        mg_psqt := st.mg_psqt
        eg_psqt := st.eg_psqt
        non_pawn_material := st.non_pawn_material
        phase := st.phase } := by
  rw [unmake_move]
  simp only [make_move_mid_history, make_move_mid_side, hh]
  simp only [hstm, hcast, hprom, hepm, Bool.false_eq_true, if_false, if_true]
  rw [if_pos (show captured ≠ NO_PIECE from hcap)]
  rfl

theorem unmake_mid_castle_wk (T : EvalTables) (moved captured f t : Nat) (R : Position)
    (m : Move) (st : StateInfo) (rest : List StateInfo)
    (hh : R.history = st :: rest) (hstm : st.move = m)
    (hcast : m.is_castling = true)
    (hsideW : (R.side_to_move ^^^ 1) ^^^ 1 = WHITE)
    (ht : m.to_sq = 6) :
    unmake_move T (make_move_mid T moved captured f t R) =
      { move_piece T 4 5 7 (move_piece T 6 6 4
          ({ make_move_mid T moved captured f t R with
            history := rest
            side_to_move := (R.side_to_move ^^^ 1) ^^^ 1
            castling_rights := st.castling_rights
            ep_square := st.ep_square
            halfmove_clock := st.halfmove_clock
            fullmove_number := st.fullmove_number })) with
        key := st.key
        pawn_key := st.pawn_key
        mg_psqt := st.mg_psqt
        eg_psqt := st.eg_psqt
        non_pawn_material := st.non_pawn_material
        phase := st.phase } := by
  rw [unmake_move]
  simp only [make_move_mid_history, make_move_mid_side, hh]
  simp only [hstm, hcast, if_true]
  rw [if_pos hsideW, if_pos ht]

theorem unmake_mid_castle_wq (T : EvalTables) (moved captured f t : Nat) (R : Position)
    (m : Move) (st : StateInfo) (rest : List StateInfo)
    (hh : R.history = st :: rest) (hstm : st.move = m)
    (hcast : m.is_castling = true)
    (hsideW : (R.side_to_move ^^^ 1) ^^^ 1 = WHITE)
    (ht : ¬ (m.to_sq = 6)) :
    unmake_move T (make_move_mid T moved captured f t R) =
      { move_piece T 4 3 0 (move_piece T 6 2 4
          ({ make_move_mid T moved captured f t R with
            history := rest
            side_to_move := (R.side_to_move ^^^ 1) ^^^ 1
            castling_rights := st.castling_rights
            ep_square := st.ep_square
            halfmove_clock := st.halfmove_clock
            fullmove_number := st.fullmove_number })) with
        key := st.key
        pawn_key := st.pawn_key
        mg_psqt := st.mg_psqt
        eg_psqt := st.eg_psqt
        non_pawn_material := st.non_pawn_material
        phase := st.phase } := by
  rw [unmake_move]
  simp only [make_move_mid_history, make_move_mid_side, hh]
  simp only [hstm, hcast, if_true]
  rw [if_pos hsideW, if_neg ht]

theorem unmake_mid_castle_bk (T : EvalTables) (moved captured f t : Nat) (R : Position)
    (m : Move) (st : StateInfo) (rest : List StateInfo)
    (hh : R.history = st :: rest) (hstm : st.move = m)
    (hcast : m.is_castling = true)
    (hsideB : ¬ ((R.side_to_move ^^^ 1) ^^^ 1 = WHITE))
    (ht : m.to_sq = 62) :
    unmake_move T (make_move_mid T moved captured f t R) =
      { move_piece T 10 61 63 (move_piece T 12 62 60
          ({ make_move_mid T moved captured f t R with
            history := rest
            side_to_move := (R.side_to_move ^^^ 1) ^^^ 1
            castling_rights := st.castling_rights
            ep_square := st.ep_square
            halfmove_clock := st.halfmove_clock
            fullmove_number := st.fullmove_number })) with
        key := st.key
        pawn_key := st.pawn_key
        mg_psqt := st.mg_psqt
        eg_psqt := st.eg_psqt
        non_pawn_material := st.non_pawn_material
        phase := st.phase } := by
  rw [unmake_move]
  simp only [make_move_mid_history, make_move_mid_side, hh]
  simp only [hstm, hcast, if_true]
  rw [if_neg hsideB, if_pos ht]

theorem unmake_mid_castle_bq (T : EvalTables) (moved captured f t : Nat) (R : Position)
    (m : Move) (st : StateInfo) (rest : List StateInfo)
    (hh : R.history = st :: rest) (hstm : st.move = m)
    (hcast : m.is_castling = true)
    (hsideB : ¬ ((R.side_to_move ^^^ 1) ^^^ 1 = WHITE))
    (ht : ¬ (m.to_sq = 62)) :
    unmake_move T (make_move_mid T moved captured f t R) =
      { move_piece T 10 59 56 (move_piece T 12 58 60
          ({ make_move_mid T moved captured f t R with
            history := rest
            side_to_move := (R.side_to_move ^^^ 1) ^^^ 1
            castling_rights := st.castling_rights
            ep_square := st.ep_square
            halfmove_clock := st.halfmove_clock
            fullmove_number := st.fullmove_number })) with
        key := st.key
        pawn_key := st.pawn_key
        mg_psqt := st.mg_psqt
        eg_psqt := st.eg_psqt
        non_pawn_material := st.non_pawn_material
        phase := st.phase } := by
  rw [unmake_move]
  simp only [make_move_mid_history, make_move_mid_side, hh]
  simp only [hstm, hcast, if_true]
  rw [if_neg hsideB, if_neg ht]

/-- Round trip for a generated en-passant capture. -/
theorem rt_ep_case (T : EvalTables) (pos pos' : Position) (m : Move)
    (P : PosOk pos)
    (hfl : m.flags = 5) (h3 : m.promotion = 0) (h4 : m.from_sq < 64)
    (hept : m.to_sq = pos.ep_square)
    (hbfr : pos.board m.from_sq = make_piece pos.side_to_move PAWN)
    (hgeom : (pos.side_to_move = 0 ∧ (m.to_sq = m.from_sq + 7 ∨ m.to_sq = m.from_sq + 9)) ∨
             (pos.side_to_move = 1 ∧ (m.from_sq = m.to_sq + 7 ∨ m.from_sq = m.to_sq + 9)))
    (hmk : make_move T pos m = (true, pos')) :
    unmake_move T pos' = pos := by
  have hus : pos.side_to_move < 2 := P.side_lt
  have hcast : m.is_castling = false := by simp only [Move.is_castling, hfl]; decide
  have hepb : m.is_en_passant = true := by simp only [Move.is_en_passant, hfl]; decide
  have hdppb : m.is_double_pawn_push = false := by
    simp only [Move.is_double_pawn_push, hfl]; decide
  have hpromb : m.is_promotion = false := by simp [Move.is_promotion, h3]
  have hpawn := make_piece_facts pos.side_to_move hus PAWN (by decide) (by decide)
  have hbne : pos.board m.from_sq ≠ 0 := by
    rw [hbfr, hpawn.1]
    show pos.side_to_move * 6 + 1 ≠ 0
    omega
  have hcfr : color_of (pos.board m.from_sq) = pos.side_to_move := by
    rw [hbfr]
    exact hpawn.2.1
  have htyp : type_of (pos.board m.from_sq) = 1 := by
    rw [hbfr]
    exact hpawn.2.2
  have hkf : type_of (pos.board m.from_sq) = KING →
      pos.king_square (color_of (pos.board m.from_sq)) = m.from_sq := by
    intro h
    rw [htyp] at h
    exact absurd h (by decide)
  rw [make_move] at hmk
  split at hmk
  case isTrue => exact absurd (congrArg Prod.fst hmk) (by simp)
  case isFalse hok =>
    obtain ⟨hfok, htok⟩ := not_not.mp hok
    have htlt : m.to_sq < 64 := by
      have h63 : m.to_sq ≤ 63 := of_decide_eq_true htok
      omega
    have hepNN : pos.ep_square ≠ SQ_NONE := by
      rw [← hept]
      show ¬ (m.to_sq = 64)
      omega
    obtain ⟨hbt0', hrngW, hrngB⟩ := P.ep hepNN
    have hbt0 : pos.board m.to_sq = 0 := by rw [hept]; exact hbt0'
    have hfne : m.from_sq ≠ m.to_sq := by
      intro h
      rw [h, hbt0] at hbne
      exact hbne rfl
    rw [if_neg (by
      intro h
      rcases h with h | h
      · exact hbne h
      · exact h hcfr)] at hmk
    simp only [hcast, hepb, hdppb, hpromb, Bool.false_eq_true, if_false, if_true,
      make_move_pre_board, make_move_pre_side] at hmk
    rcases hgeom with ⟨hw, hgt⟩ | ⟨hb, hgt⟩
    · -- white to move: captured pawn sits on to - 8
      have hrng : 40 ≤ pos.ep_square ∧ pos.ep_square ≤ 47 := hrngW hw
      have hwW : pos.side_to_move = WHITE := hw
      rw [if_pos hwW] at hmk
      have hcs64 : m.to_sq - 8 < 64 := by omega
      have hcsf : m.from_sq ≠ m.to_sq - 8 := by omega
      have hcst : m.to_sq ≠ m.to_sq - 8 := by omega
      split at hmk
      case isTrue => exact absurd (congrArg Prod.fst hmk) (by simp)
      case isFalse hcap =>
        have hcapne : pos.board (m.to_sq - 8) ≠ NO_PIECE := hcap
        have hcapne0 : pos.board (m.to_sq - 8) ≠ 0 := hcap
        have hcaprange : pos.board (m.to_sq - 8) ≤ 12 := P.brange _ hcs64
        have hkc : type_of (pos.board (m.to_sq - 8)) = KING →
            pos.king_square (color_of (pos.board (m.to_sq - 8))) = m.to_sq - 8 := by
          intro hkt
          have hcode := king_piece_code (pos.board (m.to_sq - 8)) (by omega) (by omega) hkt
          exact ks_eq_of_board_king P _ _ (color_of_lt_two _) hcs64 (by omega)
        have hidxp : bb_idx (color_of (pos.board (m.to_sq - 8)))
            (type_of (pos.board (m.to_sq - 8))) = pos.board (m.to_sq - 8) - 1 :=
          bb_idx_pred _ (by omega) (by omega)
        have hoccbits := board_occ_bit P (m.to_sq - 8) hcs64 hcapne0
        have hinner := rt_move_core T (pos.board m.from_sq) m.from_sq m.to_sq
          (remove_piece T (pos.board (m.to_sq - 8)) (m.to_sq - 8) pos) hfne
          (upd_other pos.board (m.to_sq - 8) 0 hcsf)
          ((upd_other pos.board (m.to_sq - 8) 0 hcst).trans hbt0) hkf
        have houter := rt_remove_add_core T (pos.board (m.to_sq - 8)) (m.to_sq - 8) pos
          hcs64 rfl
          (by rw [hidxp]; exact P.bb_lt _ (by omega))
          (by rw [hidxp]; exact cell_bit_of_board P _ _ hcs64 (by omega) (by omega) rfl)
          (P.occ_lt _ (by have := color_of_lt_two (pos.board (m.to_sq - 8)); omega))
          hoccbits.1 (P.occ_lt 2 (by omega)) hoccbits.2 hkc
        have hfinal : CoreEq (add_piece T (pos.board (m.to_sq - 8)) (m.to_sq - 8)
            (move_piece T (pos.board m.from_sq) m.to_sq m.from_sq
              (move_piece T (pos.board m.from_sq) m.from_sq m.to_sq
                (remove_piece T (pos.board (m.to_sq - 8)) (m.to_sq - 8) pos)))) pos :=
          coreEq_trans (add_piece_coreEq T _ _ hinner) houter
        have hX := make_move_finish_true_inv _ _ _ _ _ _ _ hmk
        subst hX
        refine (unmake_mid_ep_w T (pos.board m.from_sq) (pos.board (m.to_sq - 8))
          m.from_sq m.to_sq
          (move_piece T (pos.board m.from_sq) m.from_sq m.to_sq
            (remove_piece T (pos.board (m.to_sq - 8)) (m.to_sq - 8)
              (make_move_pre pos m (pos.board m.from_sq))))
          m (make_move_snapshot pos m (pos.board m.from_sq)) pos.history
          rfl rfl hcast hpromb hepb
          (show pos.board (m.to_sq - 8) ≠ NO_PIECE from hcapne)
          (show (pos.side_to_move ^^^ 1) ^^^ 1 = WHITE by
            rw [xor_cancel_right]; exact hwW)).trans ?_
        refine Position.ext ?_ ?_ ?_ ?_ (xor_cancel_right pos.side_to_move 1)
          rfl rfl rfl rfl rfl rfl rfl rfl rfl rfl rfl
        · exact (coreEq_trans (add_piece_coreEq T _ _ (move_piece_coreEq T _ _ _
            (coreEq_trans ⟨rfl, rfl, rfl, rfl⟩ (move_piece_coreEq T _ _ _
              (remove_piece_coreEq T _ _
                (make_move_pre_core pos m (pos.board m.from_sq))))))) hfinal).1
        · exact (coreEq_trans (add_piece_coreEq T _ _ (move_piece_coreEq T _ _ _
            (coreEq_trans ⟨rfl, rfl, rfl, rfl⟩ (move_piece_coreEq T _ _ _
              (remove_piece_coreEq T _ _
                (make_move_pre_core pos m (pos.board m.from_sq))))))) hfinal).2.1
        · exact (coreEq_trans (add_piece_coreEq T _ _ (move_piece_coreEq T _ _ _
            (coreEq_trans ⟨rfl, rfl, rfl, rfl⟩ (move_piece_coreEq T _ _ _
              (remove_piece_coreEq T _ _
                (make_move_pre_core pos m (pos.board m.from_sq))))))) hfinal).2.2.1
        · exact (coreEq_trans (add_piece_coreEq T _ _ (move_piece_coreEq T _ _ _
            (coreEq_trans ⟨rfl, rfl, rfl, rfl⟩ (move_piece_coreEq T _ _ _
              (remove_piece_coreEq T _ _
                (make_move_pre_core pos m (pos.board m.from_sq))))))) hfinal).2.2.2
    · -- black to move: captured pawn sits on to + 8
      have hrng : 16 ≤ pos.ep_square ∧ pos.ep_square ≤ 23 := hrngB hb
      have hbW : ¬ (pos.side_to_move = WHITE) := by
        show ¬ (pos.side_to_move = 0)
        omega
      rw [if_neg hbW] at hmk
      have hcs64 : m.to_sq + 8 < 64 := by omega
      have hcsf : m.from_sq ≠ m.to_sq + 8 := by omega
      have hcst : m.to_sq ≠ m.to_sq + 8 := by omega
      split at hmk
      case isTrue => exact absurd (congrArg Prod.fst hmk) (by simp)
      case isFalse hcap =>
        have hcapne : pos.board (m.to_sq + 8) ≠ NO_PIECE := hcap
        have hcapne0 : pos.board (m.to_sq + 8) ≠ 0 := hcap
        have hcaprange : pos.board (m.to_sq + 8) ≤ 12 := P.brange _ hcs64
        have hkc : type_of (pos.board (m.to_sq + 8)) = KING →
            pos.king_square (color_of (pos.board (m.to_sq + 8))) = m.to_sq + 8 := by
          intro hkt
          have hcode := king_piece_code (pos.board (m.to_sq + 8)) (by omega) (by omega) hkt
          exact ks_eq_of_board_king P _ _ (color_of_lt_two _) hcs64 (by omega)
        have hidxp : bb_idx (color_of (pos.board (m.to_sq + 8)))
            (type_of (pos.board (m.to_sq + 8))) = pos.board (m.to_sq + 8) - 1 :=
          bb_idx_pred _ (by omega) (by omega)
        have hoccbits := board_occ_bit P (m.to_sq + 8) hcs64 hcapne0
        have hinner := rt_move_core T (pos.board m.from_sq) m.from_sq m.to_sq
          (remove_piece T (pos.board (m.to_sq + 8)) (m.to_sq + 8) pos) hfne
          (upd_other pos.board (m.to_sq + 8) 0 hcsf)
          ((upd_other pos.board (m.to_sq + 8) 0 hcst).trans hbt0) hkf
        have houter := rt_remove_add_core T (pos.board (m.to_sq + 8)) (m.to_sq + 8) pos
          hcs64 rfl
          (by rw [hidxp]; exact P.bb_lt _ (by omega))
          (by rw [hidxp]; exact cell_bit_of_board P _ _ hcs64 (by omega) (by omega) rfl)
          (P.occ_lt _ (by have := color_of_lt_two (pos.board (m.to_sq + 8)); omega))
          hoccbits.1 (P.occ_lt 2 (by omega)) hoccbits.2 hkc
        have hfinal : CoreEq (add_piece T (pos.board (m.to_sq + 8)) (m.to_sq + 8)
            (move_piece T (pos.board m.from_sq) m.to_sq m.from_sq
              (move_piece T (pos.board m.from_sq) m.from_sq m.to_sq
                (remove_piece T (pos.board (m.to_sq + 8)) (m.to_sq + 8) pos)))) pos :=
          coreEq_trans (add_piece_coreEq T _ _ hinner) houter
        have hX := make_move_finish_true_inv _ _ _ _ _ _ _ hmk
        subst hX
        refine (unmake_mid_ep_b T (pos.board m.from_sq) (pos.board (m.to_sq + 8))
          m.from_sq m.to_sq
          (move_piece T (pos.board m.from_sq) m.from_sq m.to_sq
            (remove_piece T (pos.board (m.to_sq + 8)) (m.to_sq + 8)
              (make_move_pre pos m (pos.board m.from_sq))))
          m (make_move_snapshot pos m (pos.board m.from_sq)) pos.history
          rfl rfl hcast hpromb hepb
          (show pos.board (m.to_sq + 8) ≠ NO_PIECE from hcapne)
          (show ¬ ((pos.side_to_move ^^^ 1) ^^^ 1 = WHITE) by
            rw [xor_cancel_right]; exact hbW)).trans ?_
        refine Position.ext ?_ ?_ ?_ ?_ (xor_cancel_right pos.side_to_move 1)
          rfl rfl rfl rfl rfl rfl rfl rfl rfl rfl rfl
        · exact (coreEq_trans (add_piece_coreEq T _ _ (move_piece_coreEq T _ _ _
            (coreEq_trans ⟨rfl, rfl, rfl, rfl⟩ (move_piece_coreEq T _ _ _
              (remove_piece_coreEq T _ _
                (make_move_pre_core pos m (pos.board m.from_sq))))))) hfinal).1
        · exact (coreEq_trans (add_piece_coreEq T _ _ (move_piece_coreEq T _ _ _
            (coreEq_trans ⟨rfl, rfl, rfl, rfl⟩ (move_piece_coreEq T _ _ _
              (remove_piece_coreEq T _ _
                (make_move_pre_core pos m (pos.board m.from_sq))))))) hfinal).2.1
        · exact (coreEq_trans (add_piece_coreEq T _ _ (move_piece_coreEq T _ _ _
            (coreEq_trans ⟨rfl, rfl, rfl, rfl⟩ (move_piece_coreEq T _ _ _
              (remove_piece_coreEq T _ _
                (make_move_pre_core pos m (pos.board m.from_sq))))))) hfinal).2.2.1
        · exact (coreEq_trans (add_piece_coreEq T _ _ (move_piece_coreEq T _ _ _
            (coreEq_trans ⟨rfl, rfl, rfl, rfl⟩ (move_piece_coreEq T _ _ _
              (remove_piece_coreEq T _ _
                (make_move_pre_core pos m (pos.board m.from_sq))))))) hfinal).2.2.2

/-! ### Field values of `remove_piece`, and occupancy bit facts -/

theorem remove_piece_board_other (T : EvalTables) (pc f : Nat) (p : Position) (t : Nat)
    (h : t ≠ f) : (remove_piece T pc f p).board t = p.board t :=
  upd_other _ _ _ h

theorem remove_piece_bb_other (T : EvalTables) (pc f : Nat) (p : Position) (i : Nat)
    (h : i ≠ bb_idx (color_of pc) (type_of pc)) :
    (remove_piece T pc f p).piece_bb i = p.piece_bb i :=
  upd_other _ _ _ h

theorem remove_piece_occ2 (T : EvalTables) (pc f : Nat) (p : Position) :
    (remove_piece T pc f p).occupancy 2 = p.occupancy 2 &&& compl64 (bb_from f) := by
  show upd (upd p.occupancy (color_of pc) (p.occupancy (color_of pc) &&& compl64 (bb_from f))) 2
      ((upd p.occupancy (color_of pc) (p.occupancy (color_of pc) &&& compl64 (bb_from f))) 2
        &&& compl64 (bb_from f)) 2 = _
  rw [upd_same, upd_other _ _ _ (fun h => color_of_ne_two pc h.symm)]

theorem remove_piece_occ_c (T : EvalTables) (pc f : Nat) (p : Position) (c : Nat)
    (hc2 : c ≠ 2) :
    (remove_piece T pc f p).occupancy c =
      if c = color_of pc then p.occupancy c &&& compl64 (bb_from f)
      else p.occupancy c := by
  show upd (upd p.occupancy (color_of pc) (p.occupancy (color_of pc) &&& compl64 (bb_from f))) 2
      ((upd p.occupancy (color_of pc) (p.occupancy (color_of pc) &&& compl64 (bb_from f))) 2
        &&& compl64 (bb_from f)) c = _
  rw [upd_other _ _ _ hc2]
  by_cases h : c = color_of pc
  · subst h
    rw [upd_same, if_pos rfl]
  · rw [upd_other _ _ _ h, if_neg h]

theorem testBit_and_compl64_of_ne (a f t : Nat) (hf : f ≠ t) (ht : t < 64) :
    (a &&& compl64 (bb_from f)).testBit t = a.testBit t := by
  rw [Nat.testBit_and, testBit_compl64, testBit_bb_from]
  simp [hf, ht]

theorem testBit_and_compl64_self (a t : Nat) (ht : t < 64) :
    (a &&& compl64 (bb_from t)).testBit t = false := by
  rw [Nat.testBit_and, testBit_compl64, testBit_bb_from]
  simp [ht]

theorem occ_bit_false_of_board_zero {pos : Position} (P : PosOk pos) (c sq : Nat)
    (hc : c < 2) (hsq : sq < 64) (hb : pos.board sq = 0) :
    (pos.occupancy c).testBit sq = false := by
  rw [← Bool.not_eq_true]
  intro h
  obtain ⟨j, hj, he⟩ := (occ_bit_iff P c sq hc hsq).mp h
  omega

theorem occ2_bit_false_of_board_zero {pos : Position} (P : PosOk pos) (sq : Nat)
    (hsq : sq < 64) (hb : pos.board sq = 0) :
    (pos.occupancy 2).testBit sq = false := by
  rw [P.occ2, Nat.testBit_or, occ_bit_false_of_board_zero P 0 sq (by omega) hsq hb,
    occ_bit_false_of_board_zero P 1 sq (by omega) hsq hb]
  rfl

theorem occ_bit_false_of_other_color {pos : Position} (P : PosOk pos) (c sq : Nat)
    (hc : c < 2) (hsq : sq < 64) (hb : pos.board sq ≠ 0)
    (hcol : color_of (pos.board sq) ≠ c) :
    (pos.occupancy c).testBit sq = false := by
  rw [← Bool.not_eq_true]
  intro h
  exact hcol (occ_bit_board P c sq hc hsq h).2

/-- Round trip for a generated quiet promotion. -/
theorem rt_promo_quiet_case (T : EvalTables) (pos pos' : Position) (m : Move)
    (P : PosOk pos)
    (h1 : m.flags &&& FLAG_EN_PASSANT = 0) (h2 : m.flags &&& FLAG_CASTLING = 0)
    (hdpp0 : m.flags &&& FLAG_DOUBLE_PAWN = 0)
    (hpr2 : 2 ≤ m.promotion) (hpr5 : m.promotion ≤ 5)
    (h4 : m.from_sq < 64) (h5 : m.to_sq < 64)
    (hbfr : pos.board m.from_sq = make_piece pos.side_to_move PAWN)
    (hcap0 : m.flags &&& FLAG_CAPTURE = 0)
    (hbt0 : pos.board m.to_sq = 0)
    (hmk : make_move T pos m = (true, pos')) :
    unmake_move T pos' = pos := by
  have hus : pos.side_to_move < 2 := P.side_lt
  have hpawn := make_piece_facts pos.side_to_move hus PAWN (by decide) (by decide)
  have hprf := make_piece_facts pos.side_to_move hus m.promotion (by omega) (by omega)
  have hpwv : make_piece pos.side_to_move PAWN = pos.side_to_move * 6 + 1 := hpawn.1
  have hpwc : color_of (make_piece pos.side_to_move PAWN) = pos.side_to_move := hpawn.2.1
  have hprv : make_piece pos.side_to_move m.promotion = pos.side_to_move * 6 + m.promotion :=
    hprf.1
  have hpc : color_of (make_piece pos.side_to_move m.promotion) = pos.side_to_move := hprf.2.1
  have hpt : type_of (make_piece pos.side_to_move m.promotion) = m.promotion := hprf.2.2
  have hbne : pos.board m.from_sq ≠ 0 := by
    rw [hbfr, hpwv]
    omega
  have hcfr : color_of (pos.board m.from_sq) = pos.side_to_move := by
    rw [hbfr]
    exact hpwc
  have hfne : m.from_sq ≠ m.to_sq := by
    intro h
    rw [h, hbt0] at hbne
    exact hbne rfl
  have hcast : m.is_castling = false := by simp [Move.is_castling, h2]
  have hepb : m.is_en_passant = false := by simp [Move.is_en_passant, h1]
  have hcapb : m.is_capture = false := by simp [Move.is_capture, hcap0]
  have hdppb : m.is_double_pawn_push = false := by simp [Move.is_double_pawn_push, hdpp0]
  have hpromb : m.is_promotion = true := by simp only [Move.is_promotion]; simp; omega
  have hidxpawn : bb_idx (color_of (make_piece pos.side_to_move PAWN))
      (type_of (make_piece pos.side_to_move PAWN)) = make_piece pos.side_to_move PAWN - 1 :=
    bb_idx_pred _ (by rw [hpwv]; omega) (by rw [hpwv]; omega)
  have hidxprom : bb_idx (color_of (make_piece pos.side_to_move m.promotion))
      (type_of (make_piece pos.side_to_move m.promotion)) =
      make_piece pos.side_to_move m.promotion - 1 :=
    bb_idx_pred _ (by rw [hprv]; omega) (by rw [hprv]; omega)
  -- facts about q := remove pawn from `from_sq`
  have e1 : (remove_piece T (make_piece pos.side_to_move PAWN) m.from_sq pos).piece_bb
      (bb_idx (color_of (make_piece pos.side_to_move m.promotion))
        (type_of (make_piece pos.side_to_move m.promotion))) =
      pos.piece_bb (make_piece pos.side_to_move m.promotion - 1) := by
    rw [hidxprom]
    exact remove_piece_bb_other T _ _ pos _ (by rw [hidxpawn, hprv, hpwv]; omega)
  have e2 : (remove_piece T (make_piece pos.side_to_move PAWN) m.from_sq pos).occupancy
      (color_of (make_piece pos.side_to_move m.promotion)) =
      pos.occupancy pos.side_to_move &&& compl64 (bb_from m.from_sq) := by
    rw [hpc, remove_piece_occ_c T _ _ pos pos.side_to_move (by omega), if_pos hpwc.symm]
  have e3 : (remove_piece T (make_piece pos.side_to_move PAWN) m.from_sq pos).occupancy 2 =
      pos.occupancy 2 &&& compl64 (bb_from m.from_sq) :=
    remove_piece_occ2 T _ _ pos
  have hstep1 := rt_add_remove_core T (make_piece pos.side_to_move m.promotion) m.to_sq
    (remove_piece T (make_piece pos.side_to_move PAWN) m.from_sq pos) h5
    ((remove_piece_board_other T _ _ pos m.to_sq (Ne.symm hfne)).trans hbt0)
    (by rw [e1]; exact P.bb_lt _ (by rw [hprv]; omega))
    (by rw [e1]
        exact cell_bit_false_of_board_ne P m.to_sq _ h5 (by rw [hprv]; omega)
          (by rw [hprv]; omega) (by rw [hbt0, hprv]; omega))
    (by rw [e2]; exact lt_of_le_of_lt Nat.and_le_left (P.occ_lt pos.side_to_move (by omega)))
    (by rw [e2, testBit_and_compl64_of_ne _ _ _ hfne h5]
        exact occ_bit_false_of_board_zero P pos.side_to_move m.to_sq hus h5 hbt0)
    (by rw [e3]; exact lt_of_le_of_lt Nat.and_le_left (P.occ_lt 2 (by omega)))
    (by rw [e3, testBit_and_compl64_of_ne _ _ _ hfne h5]
        exact occ2_bit_false_of_board_zero P m.to_sq h5 hbt0)
    (by rw [hpt]; show ¬ (m.promotion = 6); omega)
  have hob := board_occ_bit P m.from_sq h4 hbne
  rw [hbfr] at hob
  have houter := rt_remove_add_core T (make_piece pos.side_to_move PAWN) m.from_sq pos
    h4 hbfr
    (by rw [hidxpawn]; exact P.bb_lt _ (by rw [hpwv]; omega))
    (by rw [hidxpawn]
        exact cell_bit_of_board P m.from_sq _ h4 (by rw [hpwv]; omega)
          (by rw [hpwv]; omega) hbfr)
    (by rw [hpwc]; exact P.occ_lt pos.side_to_move (by omega))
    hob.1 (P.occ_lt 2 (by omega)) hob.2
    (by intro h
        rw [hpawn.2.2] at h
        exact absurd h (by decide))
  have hfinal : CoreEq
      (add_piece T (make_piece pos.side_to_move PAWN) m.from_sq
        (remove_piece T (make_piece pos.side_to_move m.promotion) m.to_sq
          (add_piece T (make_piece pos.side_to_move m.promotion) m.to_sq
            (remove_piece T (make_piece pos.side_to_move PAWN) m.from_sq pos)))) pos :=
    coreEq_trans (add_piece_coreEq T _ _ hstep1) houter
  have hfok : is_ok_square m.from_sq = true := by simp [is_ok_square]; omega
  have htok : is_ok_square m.to_sq = true := by simp [is_ok_square]; omega
  rw [make_move] at hmk
  rw [if_neg (not_not_intro ⟨hfok, htok⟩)] at hmk
  rw [if_neg (by
    intro h
    rcases h with h | h
    · exact hbne h
    · exact h hcfr)] at hmk
  simp only [hcast, hepb, hcapb, hpromb, hdppb, Bool.false_eq_true, if_false, if_true,
    make_move_pre_board, make_move_pre_side] at hmk
  rw [hbfr] at hmk
  have hX := make_move_finish_true_inv _ _ _ _ _ _ _ hmk
  subst hX
  refine (unmake_mid_promo T (make_piece pos.side_to_move PAWN) NO_PIECE m.from_sq m.to_sq
    (add_piece T (make_piece pos.side_to_move m.promotion) m.to_sq
      (remove_piece T (make_piece pos.side_to_move PAWN) m.from_sq
        (make_move_pre pos m (make_piece pos.side_to_move PAWN))))
    m (make_move_snapshot pos m (make_piece pos.side_to_move PAWN)) pos.history
    rfl rfl hcast hpromb rfl).trans ?_
  have hside : (((add_piece T (make_piece pos.side_to_move m.promotion) m.to_sq
      (remove_piece T (make_piece pos.side_to_move PAWN) m.from_sq
        (make_move_pre pos m (make_piece pos.side_to_move PAWN)))).side_to_move ^^^ 1) ^^^ 1)
      = pos.side_to_move := xor_cancel_right pos.side_to_move 1
  have hbRt : (add_piece T (make_piece pos.side_to_move m.promotion) m.to_sq
      (remove_piece T (make_piece pos.side_to_move PAWN) m.from_sq
        (make_move_pre pos m (make_piece pos.side_to_move PAWN)))).board m.to_sq
      = make_piece pos.side_to_move m.promotion := upd_same _ _ _
  rw [hside, hbRt]
  refine Position.ext ?_ ?_ ?_ ?_ rfl rfl rfl rfl rfl rfl rfl rfl rfl rfl rfl rfl
  · exact (coreEq_trans (add_piece_coreEq T _ _ (remove_piece_coreEq T _ _
      (coreEq_trans ⟨rfl, rfl, rfl, rfl⟩ (add_piece_coreEq T _ _
        (remove_piece_coreEq T _ _
          (make_move_pre_core pos m (make_piece pos.side_to_move PAWN))))))) hfinal).1
  · exact (coreEq_trans (add_piece_coreEq T _ _ (remove_piece_coreEq T _ _
      (coreEq_trans ⟨rfl, rfl, rfl, rfl⟩ (add_piece_coreEq T _ _
        (remove_piece_coreEq T _ _
          (make_move_pre_core pos m (make_piece pos.side_to_move PAWN))))))) hfinal).2.1
  · exact (coreEq_trans (add_piece_coreEq T _ _ (remove_piece_coreEq T _ _
      (coreEq_trans ⟨rfl, rfl, rfl, rfl⟩ (add_piece_coreEq T _ _
        (remove_piece_coreEq T _ _
          (make_move_pre_core pos m (make_piece pos.side_to_move PAWN))))))) hfinal).2.2.1
  · exact (coreEq_trans (add_piece_coreEq T _ _ (remove_piece_coreEq T _ _
      (coreEq_trans ⟨rfl, rfl, rfl, rfl⟩ (add_piece_coreEq T _ _
        (remove_piece_coreEq T _ _
          (make_move_pre_core pos m (make_piece pos.side_to_move PAWN))))))) hfinal).2.2.2

/-- Round trip for a generated capturing promotion. -/
theorem rt_promo_cap_case (T : EvalTables) (pos pos' : Position) (m : Move)
    (P : PosOk pos)
    (h1 : m.flags &&& FLAG_EN_PASSANT = 0) (h2 : m.flags &&& FLAG_CASTLING = 0)
    (hdpp0 : m.flags &&& FLAG_DOUBLE_PAWN = 0)
    (hpr2 : 2 ≤ m.promotion) (hpr5 : m.promotion ≤ 5)
    (h4 : m.from_sq < 64) (h5 : m.to_sq < 64)
    (hbfr : pos.board m.from_sq = make_piece pos.side_to_move PAWN)
    (hcap1 : m.flags &&& FLAG_CAPTURE ≠ 0)
    (hbt : pos.board m.to_sq ≠ 0)
    (hct : color_of (pos.board m.to_sq) ≠ pos.side_to_move)
    (hmk : make_move T pos m = (true, pos')) :
    unmake_move T pos' = pos := by
  have hus : pos.side_to_move < 2 := P.side_lt
  have hpawn := make_piece_facts pos.side_to_move hus PAWN (by decide) (by decide)
  have hprf := make_piece_facts pos.side_to_move hus m.promotion (by omega) (by omega)
  have hpwv : make_piece pos.side_to_move PAWN = pos.side_to_move * 6 + 1 := hpawn.1
  have hpwc : color_of (make_piece pos.side_to_move PAWN) = pos.side_to_move := hpawn.2.1
  have hprv : make_piece pos.side_to_move m.promotion = pos.side_to_move * 6 + m.promotion :=
    hprf.1
  have hpc : color_of (make_piece pos.side_to_move m.promotion) = pos.side_to_move := hprf.2.1
  have hpt : type_of (make_piece pos.side_to_move m.promotion) = m.promotion := hprf.2.2
  have hbne : pos.board m.from_sq ≠ 0 := by
    rw [hbfr, hpwv]
    omega
  have hcfr : color_of (pos.board m.from_sq) = pos.side_to_move := by
    rw [hbfr]
    exact hpwc
  have hfne : m.from_sq ≠ m.to_sq := by
    intro h
    rw [h] at hcfr
    exact hct hcfr
  have hcast : m.is_castling = false := by simp [Move.is_castling, h2]
  have hepb : m.is_en_passant = false := by simp [Move.is_en_passant, h1]
  have hcapb : m.is_capture = true := by simp [Move.is_capture, hcap1]
  have hdppb : m.is_double_pawn_push = false := by simp [Move.is_double_pawn_push, hdpp0]
  have hpromb : m.is_promotion = true := by simp only [Move.is_promotion]; simp; omega
  have hcapne0 : pos.board m.to_sq ≠ 0 := hbt
  have hcaprange : pos.board m.to_sq ≤ 12 := P.brange m.to_sq h5
  have hidxpawn : bb_idx (color_of (make_piece pos.side_to_move PAWN))
      (type_of (make_piece pos.side_to_move PAWN)) = make_piece pos.side_to_move PAWN - 1 :=
    bb_idx_pred _ (by rw [hpwv]; omega) (by rw [hpwv]; omega)
  have hidxprom : bb_idx (color_of (make_piece pos.side_to_move m.promotion))
      (type_of (make_piece pos.side_to_move m.promotion)) =
      make_piece pos.side_to_move m.promotion - 1 :=
    bb_idx_pred _ (by rw [hprv]; omega) (by rw [hprv]; omega)
  have hidxcap : bb_idx (color_of (pos.board m.to_sq)) (type_of (pos.board m.to_sq)) =
      pos.board m.to_sq - 1 := bb_idx_pred _ (by omega) (by omega)
  have hpcne : make_piece pos.side_to_move m.promotion ≠ pos.board m.to_sq :=
    fun h => hct (h ▸ hpc)
  have hpwcne : make_piece pos.side_to_move PAWN ≠ pos.board m.to_sq :=
    fun h => hct (h ▸ hpwc)
  -- facts about q2 := remove pawn f (remove captured t pos)
  have e1 : (remove_piece T (make_piece pos.side_to_move PAWN) m.from_sq
      (remove_piece T (pos.board m.to_sq) m.to_sq pos)).piece_bb
      (bb_idx (color_of (make_piece pos.side_to_move m.promotion))
        (type_of (make_piece pos.side_to_move m.promotion))) =
      pos.piece_bb (make_piece pos.side_to_move m.promotion - 1) := by
    rw [hidxprom]
    rw [remove_piece_bb_other T _ _ _ _ (by rw [hidxpawn, hprv, hpwv]; omega)]
    exact remove_piece_bb_other T _ _ pos _
      (by rw [hidxcap]
          have hg1 : 1 ≤ make_piece pos.side_to_move m.promotion := by rw [hprv]; omega
          omega)
  have e2 : (remove_piece T (make_piece pos.side_to_move PAWN) m.from_sq
      (remove_piece T (pos.board m.to_sq) m.to_sq pos)).occupancy
      (color_of (make_piece pos.side_to_move m.promotion)) =
      pos.occupancy pos.side_to_move &&& compl64 (bb_from m.from_sq) := by
    rw [hpc, remove_piece_occ_c T _ _ _ pos.side_to_move (by omega), if_pos hpwc.symm,
      remove_piece_occ_c T _ _ pos pos.side_to_move (by omega), if_neg (fun h => hct h.symm)]
  have e3 : (remove_piece T (make_piece pos.side_to_move PAWN) m.from_sq
      (remove_piece T (pos.board m.to_sq) m.to_sq pos)).occupancy 2 =
      (pos.occupancy 2 &&& compl64 (bb_from m.to_sq)) &&& compl64 (bb_from m.from_sq) := by
    rw [remove_piece_occ2 T _ _ _, remove_piece_occ2 T _ _ pos]
  have hstep1 := rt_add_remove_core T (make_piece pos.side_to_move m.promotion) m.to_sq
    (remove_piece T (make_piece pos.side_to_move PAWN) m.from_sq
      (remove_piece T (pos.board m.to_sq) m.to_sq pos)) h5
    ((remove_piece_board_other T _ _ _ m.to_sq (Ne.symm hfne)).trans (upd_same _ _ _))
    (by rw [e1]; exact P.bb_lt _ (by rw [hprv]; omega))
    (by rw [e1]
        exact cell_bit_false_of_board_ne P m.to_sq _ h5 (by rw [hprv]; omega)
          (by rw [hprv]; omega) (fun h => hpcne h.symm))
    (by rw [e2]; exact lt_of_le_of_lt Nat.and_le_left (P.occ_lt pos.side_to_move (by omega)))
    (by rw [e2, testBit_and_compl64_of_ne _ _ _ hfne h5]
        exact occ_bit_false_of_other_color P pos.side_to_move m.to_sq hus h5 hcapne0 hct)
    (by rw [e3]
        exact lt_of_le_of_lt Nat.and_le_left (lt_of_le_of_lt Nat.and_le_left
          (P.occ_lt 2 (by omega))))
    (by rw [e3, testBit_and_compl64_of_ne _ _ _ hfne h5]
        exact testBit_and_compl64_self _ _ h5)
    (by rw [hpt]; show ¬ (m.promotion = 6); omega)
  have hob := board_occ_bit P m.from_sq h4 hbne
  rw [hbfr] at hob
  have hob1 := hob.1
  rw [hpwc] at hob1
  -- facts about p3 := remove captured t pos
  have f2 : (remove_piece T (pos.board m.to_sq) m.to_sq pos).occupancy
      (color_of (make_piece pos.side_to_move PAWN)) = pos.occupancy pos.side_to_move := by
    rw [hpwc, remove_piece_occ_c T _ _ pos pos.side_to_move (by omega),
      if_neg (fun h => hct h.symm)]
  have f3 : (remove_piece T (pos.board m.to_sq) m.to_sq pos).occupancy 2 =
      pos.occupancy 2 &&& compl64 (bb_from m.to_sq) := remove_piece_occ2 T _ _ pos
  have hstep2 := rt_remove_add_core T (make_piece pos.side_to_move PAWN) m.from_sq
    (remove_piece T (pos.board m.to_sq) m.to_sq pos) h4
    ((remove_piece_board_other T _ _ pos m.from_sq hfne).trans hbfr)
    (by rw [hidxpawn]
        rw [remove_piece_bb_other T _ _ pos _
          (by rw [hidxcap]
              have hg1 : 1 ≤ make_piece pos.side_to_move PAWN := by rw [hpwv]; omega
              omega)]
        exact P.bb_lt _ (by rw [hpwv]; omega))
    (by rw [hidxpawn]
        rw [remove_piece_bb_other T _ _ pos _
          (by rw [hidxcap]
              have hg1 : 1 ≤ make_piece pos.side_to_move PAWN := by rw [hpwv]; omega
              omega)]
        exact cell_bit_of_board P m.from_sq _ h4 (by rw [hpwv]; omega)
          (by rw [hpwv]; omega) hbfr)
    (by rw [f2]; exact P.occ_lt pos.side_to_move (by omega))
    (by rw [f2]; exact hob1)
    (by rw [f3]; exact lt_of_le_of_lt Nat.and_le_left (P.occ_lt 2 (by omega)))
    (by rw [f3, testBit_and_compl64_of_ne _ _ _ (Ne.symm hfne) h4]
        exact hob.2)
    (by intro h
        rw [hpawn.2.2] at h
        exact absurd h (by decide))
  have hkc : type_of (pos.board m.to_sq) = KING →
      pos.king_square (color_of (pos.board m.to_sq)) = m.to_sq := by
    intro hkt
    have hcode := king_piece_code (pos.board m.to_sq) (by omega) (by omega) hkt
    exact ks_eq_of_board_king P _ _ (color_of_lt_two _) h5 (by omega)
  have hoccbits := board_occ_bit P m.to_sq h5 hbt
  have hstep3 := rt_remove_add_core T (pos.board m.to_sq) m.to_sq pos h5 rfl
    (by rw [hidxcap]; exact P.bb_lt _ (by omega))
    (by rw [hidxcap]; exact cell_bit_of_board P m.to_sq _ h5 (by omega) (by omega) rfl)
    (P.occ_lt _ (by have := color_of_lt_two (pos.board m.to_sq); omega))
    hoccbits.1 (P.occ_lt 2 (by omega)) hoccbits.2 hkc
  have hfinal : CoreEq
      (add_piece T (pos.board m.to_sq) m.to_sq
        (add_piece T (make_piece pos.side_to_move PAWN) m.from_sq
          (remove_piece T (make_piece pos.side_to_move m.promotion) m.to_sq
            (add_piece T (make_piece pos.side_to_move m.promotion) m.to_sq
              (remove_piece T (make_piece pos.side_to_move PAWN) m.from_sq
                (remove_piece T (pos.board m.to_sq) m.to_sq pos)))))) pos :=
    coreEq_trans (add_piece_coreEq T _ _
      (coreEq_trans (add_piece_coreEq T _ _ hstep1) hstep2)) hstep3
  have hfok : is_ok_square m.from_sq = true := by simp [is_ok_square]; omega
  have htok : is_ok_square m.to_sq = true := by simp [is_ok_square]; omega
  rw [make_move] at hmk
  rw [if_neg (not_not_intro ⟨hfok, htok⟩)] at hmk
  rw [if_neg (by
    intro h
    rcases h with h | h
    · exact hbne h
    · exact h hcfr)] at hmk
  simp only [hcast, hepb, hcapb, hpromb, hdppb, Bool.false_eq_true, if_false, if_true,
    make_move_pre_board, make_move_pre_side] at hmk
  split at hmk
  case isTrue hz => exact absurd hz hbt
  case isFalse hz =>
    rw [hbfr] at hmk
    have hX := make_move_finish_true_inv _ _ _ _ _ _ _ hmk
    subst hX
    refine (unmake_mid_promo_cap T (make_piece pos.side_to_move PAWN) (pos.board m.to_sq)
      m.from_sq m.to_sq
      (add_piece T (make_piece pos.side_to_move m.promotion) m.to_sq
        (remove_piece T (make_piece pos.side_to_move PAWN) m.from_sq
          (remove_piece T (pos.board m.to_sq) m.to_sq
            (make_move_pre pos m (make_piece pos.side_to_move PAWN)))))
      m (make_move_snapshot pos m (make_piece pos.side_to_move PAWN)) pos.history
      rfl rfl hcast hpromb hepb hbt).trans ?_
    have hside : (((add_piece T (make_piece pos.side_to_move m.promotion) m.to_sq
        (remove_piece T (make_piece pos.side_to_move PAWN) m.from_sq
          (remove_piece T (pos.board m.to_sq) m.to_sq
            (make_move_pre pos m (make_piece pos.side_to_move PAWN))))).side_to_move ^^^ 1)
        ^^^ 1) = pos.side_to_move := xor_cancel_right pos.side_to_move 1
    have hbRt : (add_piece T (make_piece pos.side_to_move m.promotion) m.to_sq
        (remove_piece T (make_piece pos.side_to_move PAWN) m.from_sq
          (remove_piece T (pos.board m.to_sq) m.to_sq
            (make_move_pre pos m (make_piece pos.side_to_move PAWN))))).board m.to_sq
        = make_piece pos.side_to_move m.promotion := upd_same _ _ _
    rw [hside, hbRt]
    refine Position.ext ?_ ?_ ?_ ?_ rfl rfl rfl rfl rfl rfl rfl rfl rfl rfl rfl rfl
    · exact (coreEq_trans (add_piece_coreEq T _ _ (add_piece_coreEq T _ _
        (remove_piece_coreEq T _ _ (coreEq_trans ⟨rfl, rfl, rfl, rfl⟩
          (add_piece_coreEq T _ _ (remove_piece_coreEq T _ _ (remove_piece_coreEq T _ _
            (make_move_pre_core pos m (make_piece pos.side_to_move PAWN))))))))) hfinal).1
    · exact (coreEq_trans (add_piece_coreEq T _ _ (add_piece_coreEq T _ _
        (remove_piece_coreEq T _ _ (coreEq_trans ⟨rfl, rfl, rfl, rfl⟩
          (add_piece_coreEq T _ _ (remove_piece_coreEq T _ _ (remove_piece_coreEq T _ _
            (make_move_pre_core pos m (make_piece pos.side_to_move PAWN))))))))) hfinal).2.1
    · exact (coreEq_trans (add_piece_coreEq T _ _ (add_piece_coreEq T _ _
        (remove_piece_coreEq T _ _ (coreEq_trans ⟨rfl, rfl, rfl, rfl⟩
          (add_piece_coreEq T _ _ (remove_piece_coreEq T _ _ (remove_piece_coreEq T _ _
            (make_move_pre_core pos m (make_piece pos.side_to_move PAWN))))))))) hfinal).2.2.1
    · exact (coreEq_trans (add_piece_coreEq T _ _ (add_piece_coreEq T _ _
        (remove_piece_coreEq T _ _ (coreEq_trans ⟨rfl, rfl, rfl, rfl⟩
          (add_piece_coreEq T _ _ (remove_piece_coreEq T _ _ (remove_piece_coreEq T _ _
            (make_move_pre_core pos m (make_piece pos.side_to_move PAWN))))))))) hfinal).2.2.2

/-- Round trip for white kingside castling. -/
theorem rt_castle_wk_case (T : EvalTables) (pos pos' : Position) (m : Move)
    (P : PosOk pos)
    (hmval : m = mk_move 4 6 FLAG_CASTLING 0)
    (hside0 : pos.side_to_move = 0)
    (hb4 : pos.board 4 = 6) (hb7 : pos.board 7 = 4)
    (hb5 : pos.board 5 = 0) (hb6 : pos.board 6 = 0)
    (hks0 : pos.king_square 0 = 4)
    (hmk : make_move T pos m = (true, pos')) :
    unmake_move T pos' = pos := by
  have e1 : m.from_sq = 4 := by rw [hmval]; decide
  have e2 : m.to_sq = 6 := by rw [hmval]; decide
  have hcast : m.is_castling = true := by rw [hmval]; decide
  have hcastle := rt_castle_core T 6 4 4 6 7 5 pos (by decide) (by decide) (by decide)
    (by decide) (by decide) (by decide) (by decide) (by decide) (by decide) (by decide)
    (by decide) (by decide) (by decide) (by decide) hb4 hb6 hb7 hb5
    (by have hc : color_of 6 = 0 := by decide
        rw [hc]
        exact hks0)
  rw [make_move] at hmk
  rw [e1, e2] at hmk
  rw [if_neg (by decide)] at hmk
  rw [if_neg (by
    intro h
    rcases h with h | h
    · rw [hb4] at h
      exact absurd h (by decide)
    · rw [hb4, hside0] at h
      exact h (by decide))] at hmk
  simp only [hcast, if_true, make_move_pre_side] at hmk
  rw [if_pos (show pos.side_to_move = WHITE from hside0), hb4] at hmk
  have hX := make_move_finish_true_inv _ _ _ _ _ _ _ hmk
  subst hX
  refine (unmake_mid_castle_wk T 6 NO_PIECE 4 6
    (move_piece T 4 7 5 (move_piece T 6 4 6 (make_move_pre pos m 6)))
    m (make_move_snapshot pos m 6) pos.history rfl rfl hcast
    (show ((move_piece T 4 7 5 (move_piece T 6 4 6
        (make_move_pre pos m 6))).side_to_move ^^^ 1) ^^^ 1 = WHITE by
      rw [xor_cancel_right]; exact hside0) e2).trans ?_
  refine Position.ext ?_ ?_ ?_ ?_ (xor_cancel_right pos.side_to_move 1)
    rfl rfl rfl rfl rfl rfl rfl rfl rfl rfl rfl
  · exact (coreEq_trans (move_piece_coreEq T _ _ _ (move_piece_coreEq T _ _ _
      (coreEq_trans ⟨rfl, rfl, rfl, rfl⟩ (move_piece_coreEq T _ _ _
        (move_piece_coreEq T _ _ _ (make_move_pre_core pos m 6)))))) hcastle).1
  · exact (coreEq_trans (move_piece_coreEq T _ _ _ (move_piece_coreEq T _ _ _
      (coreEq_trans ⟨rfl, rfl, rfl, rfl⟩ (move_piece_coreEq T _ _ _
        (move_piece_coreEq T _ _ _ (make_move_pre_core pos m 6)))))) hcastle).2.1
  · exact (coreEq_trans (move_piece_coreEq T _ _ _ (move_piece_coreEq T _ _ _
      (coreEq_trans ⟨rfl, rfl, rfl, rfl⟩ (move_piece_coreEq T _ _ _
        (move_piece_coreEq T _ _ _ (make_move_pre_core pos m 6)))))) hcastle).2.2.1
  · exact (coreEq_trans (move_piece_coreEq T _ _ _ (move_piece_coreEq T _ _ _
      (coreEq_trans ⟨rfl, rfl, rfl, rfl⟩ (move_piece_coreEq T _ _ _
        (move_piece_coreEq T _ _ _ (make_move_pre_core pos m 6)))))) hcastle).2.2.2

/-- Round trip for white queenside castling. -/
theorem rt_castle_wq_case (T : EvalTables) (pos pos' : Position) (m : Move)
    (P : PosOk pos)
    (hmval : m = mk_move 4 2 FLAG_CASTLING 0)
    (hside0 : pos.side_to_move = 0)
    (hb4 : pos.board 4 = 6) (hb0 : pos.board 0 = 4)
    (hb1 : pos.board 1 = 0) (hb2 : pos.board 2 = 0) (hb3 : pos.board 3 = 0)
    (hks0 : pos.king_square 0 = 4)
    (hmk : make_move T pos m = (true, pos')) :
    unmake_move T pos' = pos := by
  have e1 : m.from_sq = 4 := by rw [hmval]; decide
  have e2 : m.to_sq = 2 := by rw [hmval]; decide
  have hcast : m.is_castling = true := by rw [hmval]; decide
  have hcastle := rt_castle_core T 6 4 4 2 0 3 pos (by decide) (by decide) (by decide)
    (by decide) (by decide) (by decide) (by decide) (by decide) (by decide) (by decide)
    (by decide) (by decide) (by decide) (by decide) hb4 hb2 hb0 hb3
    (by have hc : color_of 6 = 0 := by decide
        rw [hc]
        exact hks0)
  rw [make_move] at hmk
  rw [e1, e2] at hmk
  rw [if_neg (by decide)] at hmk
  rw [if_neg (by
    intro h
    rcases h with h | h
    · rw [hb4] at h
      exact absurd h (by decide)
    · rw [hb4, hside0] at h
      exact h (by decide))] at hmk
  simp only [hcast, if_true, make_move_pre_side] at hmk
  rw [if_pos (show pos.side_to_move = WHITE from hside0), hb4] at hmk
  have hX := make_move_finish_true_inv _ _ _ _ _ _ _ hmk
  subst hX
  refine (unmake_mid_castle_wq T 6 NO_PIECE 4 2
    (move_piece T 4 0 3 (move_piece T 6 4 2 (make_move_pre pos m 6)))
    m (make_move_snapshot pos m 6) pos.history rfl rfl hcast
    (show ((move_piece T 4 0 3 (move_piece T 6 4 2
        (make_move_pre pos m 6))).side_to_move ^^^ 1) ^^^ 1 = WHITE by
      rw [xor_cancel_right]; exact hside0)
    (by rw [e2]; decide)).trans ?_
  refine Position.ext ?_ ?_ ?_ ?_ (xor_cancel_right pos.side_to_move 1)
    rfl rfl rfl rfl rfl rfl rfl rfl rfl rfl rfl
  · exact (coreEq_trans (move_piece_coreEq T _ _ _ (move_piece_coreEq T _ _ _
      (coreEq_trans ⟨rfl, rfl, rfl, rfl⟩ (move_piece_coreEq T _ _ _
        (move_piece_coreEq T _ _ _ (make_move_pre_core pos m 6)))))) hcastle).1
  · exact (coreEq_trans (move_piece_coreEq T _ _ _ (move_piece_coreEq T _ _ _
      (coreEq_trans ⟨rfl, rfl, rfl, rfl⟩ (move_piece_coreEq T _ _ _
        (move_piece_coreEq T _ _ _ (make_move_pre_core pos m 6)))))) hcastle).2.1
  · exact (coreEq_trans (move_piece_coreEq T _ _ _ (move_piece_coreEq T _ _ _
      (coreEq_trans ⟨rfl, rfl, rfl, rfl⟩ (move_piece_coreEq T _ _ _
        (move_piece_coreEq T _ _ _ (make_move_pre_core pos m 6)))))) hcastle).2.2.1
  · exact (coreEq_trans (move_piece_coreEq T _ _ _ (move_piece_coreEq T _ _ _
      (coreEq_trans ⟨rfl, rfl, rfl, rfl⟩ (move_piece_coreEq T _ _ _
        (move_piece_coreEq T _ _ _ (make_move_pre_core pos m 6)))))) hcastle).2.2.2

/-- Round trip for black kingside castling. -/
theorem rt_castle_bk_case (T : EvalTables) (pos pos' : Position) (m : Move)
    (P : PosOk pos)
    (hmval : m = mk_move 60 62 FLAG_CASTLING 0)
    (hside1 : pos.side_to_move = 1)
    (hb60 : pos.board 60 = 12) (hb63 : pos.board 63 = 10)
    (hb61 : pos.board 61 = 0) (hb62 : pos.board 62 = 0)
    (hks1 : pos.king_square 1 = 60)
    (hmk : make_move T pos m = (true, pos')) :
    unmake_move T pos' = pos := by
  have e1 : m.from_sq = 60 := by rw [hmval]; decide
  have e2 : m.to_sq = 62 := by rw [hmval]; decide
  have hcast : m.is_castling = true := by rw [hmval]; decide
  have hcastle := rt_castle_core T 12 10 60 62 63 61 pos (by decide) (by decide) (by decide)
    (by decide) (by decide) (by decide) (by decide) (by decide) (by decide) (by decide)
    (by decide) (by decide) (by decide) (by decide) hb60 hb62 hb63 hb61
    (by have hc : color_of 12 = 1 := by decide
        rw [hc]
        exact hks1)
  rw [make_move] at hmk
  rw [e1, e2] at hmk
  rw [if_neg (by decide)] at hmk
  rw [if_neg (by
    intro h
    rcases h with h | h
    · rw [hb60] at h
      exact absurd h (by decide)
    · rw [hb60, hside1] at h
      exact h (by decide))] at hmk
  simp only [hcast, if_true, make_move_pre_side] at hmk
  rw [if_neg (show ¬ (pos.side_to_move = WHITE) by
      show ¬ (pos.side_to_move = 0)
      omega), hb60] at hmk
  have hX := make_move_finish_true_inv _ _ _ _ _ _ _ hmk
  subst hX
  refine (unmake_mid_castle_bk T 12 NO_PIECE 60 62
    (move_piece T 10 63 61 (move_piece T 12 60 62 (make_move_pre pos m 12)))
    m (make_move_snapshot pos m 12) pos.history rfl rfl hcast
    (show ¬ (((move_piece T 10 63 61 (move_piece T 12 60 62
        (make_move_pre pos m 12))).side_to_move ^^^ 1) ^^^ 1 = WHITE) by
      rw [xor_cancel_right]
      show ¬ (pos.side_to_move = 0)
      omega) e2).trans ?_
  refine Position.ext ?_ ?_ ?_ ?_ (xor_cancel_right pos.side_to_move 1)
    rfl rfl rfl rfl rfl rfl rfl rfl rfl rfl rfl
  · exact (coreEq_trans (move_piece_coreEq T _ _ _ (move_piece_coreEq T _ _ _
      (coreEq_trans ⟨rfl, rfl, rfl, rfl⟩ (move_piece_coreEq T _ _ _
        (move_piece_coreEq T _ _ _ (make_move_pre_core pos m 12)))))) hcastle).1
  · exact (coreEq_trans (move_piece_coreEq T _ _ _ (move_piece_coreEq T _ _ _
      (coreEq_trans ⟨rfl, rfl, rfl, rfl⟩ (move_piece_coreEq T _ _ _
        (move_piece_coreEq T _ _ _ (make_move_pre_core pos m 12)))))) hcastle).2.1
  · exact (coreEq_trans (move_piece_coreEq T _ _ _ (move_piece_coreEq T _ _ _
      (coreEq_trans ⟨rfl, rfl, rfl, rfl⟩ (move_piece_coreEq T _ _ _
        (move_piece_coreEq T _ _ _ (make_move_pre_core pos m 12)))))) hcastle).2.2.1
  · exact (coreEq_trans (move_piece_coreEq T _ _ _ (move_piece_coreEq T _ _ _
      (coreEq_trans ⟨rfl, rfl, rfl, rfl⟩ (move_piece_coreEq T _ _ _
        (move_piece_coreEq T _ _ _ (make_move_pre_core pos m 12)))))) hcastle).2.2.2

/-- Round trip for black queenside castling. -/
theorem rt_castle_bq_case (T : EvalTables) (pos pos' : Position) (m : Move)
    (P : PosOk pos)
    (hmval : m = mk_move 60 58 FLAG_CASTLING 0)
    (hside1 : pos.side_to_move = 1)
    (hb60 : pos.board 60 = 12) (hb56 : pos.board 56 = 10)
    (hb57 : pos.board 57 = 0) (hb58 : pos.board 58 = 0) (hb59 : pos.board 59 = 0)
    (hks1 : pos.king_square 1 = 60)
    (hmk : make_move T pos m = (true, pos')) :
    unmake_move T pos' = pos := by
  have e1 : m.from_sq = 60 := by rw [hmval]; decide
  have e2 : m.to_sq = 58 := by rw [hmval]; decide
  have hcast : m.is_castling = true := by rw [hmval]; decide
  have hcastle := rt_castle_core T 12 10 60 58 56 59 pos (by decide) (by decide) (by decide)
    (by decide) (by decide) (by decide) (by decide) (by decide) (by decide) (by decide)
    (by decide) (by decide) (by decide) (by decide) hb60 hb58 hb56 hb59
    (by have hc : color_of 12 = 1 := by decide
        rw [hc]
        exact hks1)
  rw [make_move] at hmk
  rw [e1, e2] at hmk
  rw [if_neg (by decide)] at hmk
  rw [if_neg (by
    intro h
    rcases h with h | h
    · rw [hb60] at h
      exact absurd h (by decide)
    · rw [hb60, hside1] at h
      exact h (by decide))] at hmk
  simp only [hcast, if_true, make_move_pre_side] at hmk
  rw [if_neg (show ¬ (pos.side_to_move = WHITE) by
      show ¬ (pos.side_to_move = 0)
      omega), hb60] at hmk
  have hX := make_move_finish_true_inv _ _ _ _ _ _ _ hmk
  subst hX
  refine (unmake_mid_castle_bq T 12 NO_PIECE 60 58
    (move_piece T 10 56 59 (move_piece T 12 60 58 (make_move_pre pos m 12)))
    m (make_move_snapshot pos m 12) pos.history rfl rfl hcast
    (show ¬ (((move_piece T 10 56 59 (move_piece T 12 60 58
        (make_move_pre pos m 12))).side_to_move ^^^ 1) ^^^ 1 = WHITE) by
      rw [xor_cancel_right]
      show ¬ (pos.side_to_move = 0)
      omega)
    (by rw [e2]; decide)).trans ?_
  refine Position.ext ?_ ?_ ?_ ?_ (xor_cancel_right pos.side_to_move 1)
    rfl rfl rfl rfl rfl rfl rfl rfl rfl rfl rfl
  · exact (coreEq_trans (move_piece_coreEq T _ _ _ (move_piece_coreEq T _ _ _
      (coreEq_trans ⟨rfl, rfl, rfl, rfl⟩ (move_piece_coreEq T _ _ _
        (move_piece_coreEq T _ _ _ (make_move_pre_core pos m 12)))))) hcastle).1
  · exact (coreEq_trans (move_piece_coreEq T _ _ _ (move_piece_coreEq T _ _ _
      (coreEq_trans ⟨rfl, rfl, rfl, rfl⟩ (move_piece_coreEq T _ _ _
        (move_piece_coreEq T _ _ _ (make_move_pre_core pos m 12)))))) hcastle).2.1
  · exact (coreEq_trans (move_piece_coreEq T _ _ _ (move_piece_coreEq T _ _ _
      (coreEq_trans ⟨rfl, rfl, rfl, rfl⟩ (move_piece_coreEq T _ _ _
        (move_piece_coreEq T _ _ _ (make_move_pre_core pos m 12)))))) hcastle).2.2.1
  · exact (coreEq_trans (move_piece_coreEq T _ _ _ (move_piece_coreEq T _ _ _
      (coreEq_trans ⟨rfl, rfl, rfl, rfl⟩ (move_piece_coreEq T _ _ _
        (move_piece_coreEq T _ _ _ (make_move_pre_core pos m 12)))))) hcastle).2.2.2

/-- C1 (amended): for a structurally consistent position (`PosOk`: coherent
bitboards, mailbox, occupancy caches, cached king squares, a well-formed
en-passant square and no pawns on the back ranks) and any move produced by
`generate_pseudo_legal`, if `make_move` reports success then `unmake_move`
restores the original position exactly. -/
theorem c1_amended (T : EvalTables) (pos pos' : Position) (m : Move)
    (P : PosOk pos) (hm : m ∈ generate_pseudo_legal pos)
    (hmk : make_move T pos m = (true, pos')) :
    unmake_move T pos' = pos := by
  rcases gen_shape pos m P hm with
    ⟨h1, h2, h3, h4, h5, h6, h7, hcapt, hncap⟩ |
    ⟨h1, h2, hdpp0, hpr2, hpr5, h4, h5, hbfr, hcapt, hncap⟩ |
    ⟨hfl, h3, h4, hept, hbfr, hgeom⟩ |
    ⟨hmval, hs, b1, b2, b3, b4, k⟩ |
    ⟨hmval, hs, b1, b2, b3, b4, b5, k⟩ |
    ⟨hmval, hs, b1, b2, b3, b4, k⟩ |
    ⟨hmval, hs, b1, b2, b3, b4, b5, k⟩
  · by_cases hc : m.flags &&& FLAG_CAPTURE = 0
    · exact rt_quiet_case T pos pos' m P h1 h2 h3 h4 h5 h6 h7 hc (hncap hc) hmk
    · obtain ⟨hbt, hct⟩ := hcapt hc
      exact rt_capture_case T pos pos' m P h1 h2 h3 h4 h5 h6 h7 hc hbt hct hmk
  · by_cases hc : m.flags &&& FLAG_CAPTURE = 0
    · exact rt_promo_quiet_case T pos pos' m P h1 h2 hdpp0 hpr2 hpr5 h4 h5 hbfr hc
        (hncap hc) hmk
    · obtain ⟨hbt, hct⟩ := hcapt hc
      exact rt_promo_cap_case T pos pos' m P h1 h2 hdpp0 hpr2 hpr5 h4 h5 hbfr hc hbt hct hmk
  · exact rt_ep_case T pos pos' m P hfl h3 h4 hept hbfr hgeom hmk
  · exact rt_castle_wk_case T pos pos' m P hmval hs b1 b2 b3 b4 k hmk
  · exact rt_castle_wq_case T pos pos' m P hmval hs b1 b2 b3 b4 b5 k hmk
  · exact rt_castle_bk_case T pos pos' m P hmval hs b1 b2 b3 b4 k hmk
  · exact rt_castle_bq_case T pos pos' m P hmval hs b1 b2 b3 b4 b5 k hmk

instance PosOk.dec (pos : Position) : Decidable (PosOk pos) := by
  unfold PosOk
  infer_instance

/-- Witness for C1 (amended): the start position is `PosOk`, the pawn push
e2→e3 is generated, `make_move` accepts it, and `unmake_move` restores the
start position. -/
theorem c1_amended_witness :
    PosOk startpos ∧ (mk_move 12 20 0 0) ∈ generate_pseudo_legal startpos ∧
    make_move zeroTables startpos (mk_move 12 20 0 0) =
      (true, (make_move zeroTables startpos (mk_move 12 20 0 0)).2) ∧
    unmake_move zeroTables (make_move zeroTables startpos (mk_move 12 20 0 0)).2 =
      startpos := by
  have hP : PosOk startpos := by decide
  have hmem : (mk_move 12 20 0 0) ∈ generate_pseudo_legal startpos := by decide
  have h1 : (make_move zeroTables startpos (mk_move 12 20 0 0)).1 = true := by decide
  have hpair : make_move zeroTables startpos (mk_move 12 20 0 0) =
      (true, (make_move zeroTables startpos (mk_move 12 20 0 0)).2) := by rw [← h1]
  exact ⟨hP, hmem, hpair,
    c1_amended zeroTables startpos _ (mk_move 12 20 0 0) hP hmem hpair⟩

end Makaira
